import Mathlib

/-!
# VRC7 channel handler and VRC7 sound chip of 0CC-LLTracker

A shallow embedding of `Source/ChannelsVRC7.cpp` (the per-voice state machine
that turns note events into register writes) and of `Source/APU/VRC7.cpp`
(the chip backend: register port, frequency readback, sample clipping and
smoothing), followed by theorems about them.

Conventions of the embedding:

* a C++ `int` is an `Int`; `+`, `-`, `*` are the unbounded operations (the
  fields stay far from the 32-bit limits), while `&`, `|`, `^`, `~` act on the
  32-bit two's complement pattern (`band`, `bor`, `bxor`, `bnot`);
* a conversion to `unsigned char` is `u8`, reduction modulo 256;
* `x >> n` on an `int` is the arithmetic shift `x >>> n` with `n` a natural
  number (floor division by `2 ^ n`), `x << n` is `shl x n`, multiplication
  by `2 ^ n`;
* `/` and `%` on `int` are the truncating `Int.tdiv` and `Int.tmod`;
* member functions become functions from the state before the call to the
  state after it; register writes are collected in a list, oldest first.
-/

/-! ## Machine integers -/

/-- The 32-bit two's complement pattern of a C++ `int`. -/
def bits32 (x : Int) : Nat := (x % 4294967296).toNat

/-- The C++ `int` that has a given 32-bit pattern. -/
def ofBits32 (n : Nat) : Int :=
  if n % 4294967296 < 2147483648 then ((n % 4294967296 : Nat) : Int)
  else ((n % 4294967296 : Nat) : Int) - 4294967296

/-- Bitwise and of two `int`s, the operator `&`. -/
def band (x y : Int) : Int := ofBits32 (bits32 x &&& bits32 y)

/-- Bitwise or of two `int`s, the operator `|`. -/
def bor (x y : Int) : Int := ofBits32 (bits32 x ||| bits32 y)

/-- Bitwise exclusive or of two `int`s, the operator `^`. -/
def bxor (x y : Int) : Int := ofBits32 (bits32 x ^^^ bits32 y)

/-- Bitwise complement of an `int`, the operator `~`. -/
def bnot (x : Int) : Int := -x - 1

/-- Left shift of an `int`, the operator `<<`. -/
def shl (x : Int) (n : Nat) : Int := x * 2 ^ n

/-- Conversion of an `int` to `unsigned char`. -/
def u8 (x : Int) : Nat := (x % 256).toNat

/-! ## Channel handler: data model (`Source/ChannelsVRC7.cpp`) -/

/-- The four values of `m_iCommand`. -/
inductive Command where
  | CMD_NOTE_HALT
  | CMD_NOTE_TRIGGER
  | CMD_NOTE_ON
  | CMD_NOTE_RELEASE
  deriving DecidableEq, Repr

/-- The values of `m_iEffect` that the VRC7 handler distinguishes:
`effect_t::none`, `effect_t::PORTAMENTO`, and every other effect. -/
inductive effect_t where
  | none
  | PORTAMENTO
  | other
  deriving DecidableEq, Repr

/-- Key-on bit of register `0x20 + channel`. -/
def OPL_NOTE_ON : Int := 0x10

/-- Sustain bit of register `0x20 + channel`. -/
def OPL_SUSTAIN_ON : Int := 0x20

/-- Extra bits of the internal pitch. -/
def VRC7_PITCH_RESOLUTION : Nat := 2

/-- What the handler takes from code outside the sources: the constants of the
shared headers, the inherited accessors of `CChannelHandler` (their value
during the call) and the two inherited period limiters. Every theorem holds
for all values of these fields unless it says otherwise. -/
structure Env where
  /-- Constant `NOTE_RANGE`, notes per octave. -/
  NOTE_RANGE : Int
  /-- Constant `LINEAR_PITCH_AMOUNT`. -/
  LINEAR_PITCH_AMOUNT : Nat
  /-- Constant `VOL_COLUMN_SHIFT`. -/
  VOL_COLUMN_SHIFT : Nat
  /-- Result of `GetVibrato()`. -/
  GetVibrato : Int
  /-- Result of `GetFinePitch()`. -/
  GetFinePitch : Int
  /-- Result of `GetPitch()`. -/
  GetPitch : Int
  /-- Result of `GetTremolo()`. -/
  GetTremolo : Int
  /-- Inherited `LimitPeriod`. -/
  LimitPeriod : Int → Int
  /-- Inherited `LimitRawPeriod`. -/
  LimitRawPeriod : Int → Int
  /-- The table `m_iNoteLookupTable`. -/
  m_iNoteLookupTable : List Int
  /-- The function `ft0cc::doc::oct_from_midi`. -/
  oct_from_midi : Int → Int

/-- The process-wide percussion variables `g_iPercMode`, `g_iPercModePrev`,
`g_iPercVolumeBD`, `g_iPercVolumeSDHH`, `g_iPercVolumeTOMCY`. -/
structure Globals where
  g_iPercMode : Int
  g_iPercModePrev : Int
  g_iPercVolumeBD : Int
  g_iPercVolumeSDHH : Int
  g_iPercVolumeTOMCY : Int
  deriving DecidableEq, Repr

/-- The runtime state of one `CChannelHandlerVRC7`. `Subindex` is
`GetChannelID().Subindex`; `keyState` is the last argument passed to
`RegisterKeyState`. -/
structure Chan where
  Subindex : Nat
  m_iCommand : Command
  m_bGate : Bool
  m_bHold : Bool
  m_bRelease : Bool
  m_bLinearPitch : Bool
  m_iPeriod : Int
  m_iPortaTo : Int
  m_iPortaSpeed : Int
  m_iEffect : effect_t
  m_iOctave : Int
  m_iOldOctave : Int
  m_iVolume : Int
  m_iDutyPeriod : Int
  m_iPatch : Int
  m_iTriggeredNote : Int
  m_iNote : Int
  m_iCustomPort : Int
  m_iNoteRelease : Int
  keyState : Int
  deriving DecidableEq, Repr

/-- One call `m_pAPU->Write(Address, Value)`: the port address and the byte
sent to it. -/
abbrev PortWrite := Nat × Nat

/-- Function `CChannelHandlerVRC7::RegWrite`. Both parameters are
`unsigned char`: the register number goes to port `0x9010`, the value to port
`0x9030`. -/
def RegWrite (Reg : Nat) (Value : Int) : List PortWrite :=
  [(0x9010, Reg % 256), (0x9030, u8 Value)]

/-- Calls made on the chip handler `chip_handler_`, whose class is outside the
sources; they are recorded, not interpreted. -/
inductive ChipCall where
  | SetPatchReg (Index : Nat) (Val : Nat)
  | QueuePatchReg (Index : Int) (Val : Nat)
  | RequestPatchUpdate
  deriving DecidableEq, Repr

/-- Modelled from the spec: the inherited accessor `GetPeriod()` of
`CChannelHandler` (outside the sources) returns the base period of the
channel, its current period `m_iPeriod`. -/
def GetPeriod (st : Chan) : Int := st.m_iPeriod

/-- Function `CChannelHandlerVRC7::GetFnum`. -/
def GetFnum (e : Env) (Note : Int) : Int :=
  shl (e.m_iNoteLookupTable.getD (Int.tmod Note e.NOTE_RANGE).toNat 0) VRC7_PITCH_RESOLUTION

/-- Function `CChannelHandlerVRC7::CalculateVolume`. -/
def CalculateVolume (e : Env) (st : Chan) : Int :=
  let Volume := (st.m_iVolume >>> e.VOL_COLUMN_SHIFT) - e.GetTremolo
  let Volume := if Volume > 15 then 15 else Volume
  let Volume := if Volume < 0 then 0 else Volume
  Volume

/-- Function `CChannelHandlerVRC7::CalculatePeriod`. -/
def CalculatePeriod (e : Env) (st : Chan) : Int :=
  let Detune := e.GetVibrato - e.GetFinePitch - e.GetPitch
  let Period := e.LimitPeriod (GetPeriod st + shl Detune VRC7_PITCH_RESOLUTION)
  let Period :=
    if st.m_bLinearPitch && !e.m_iNoteLookupTable.isEmpty then
      let Period := e.LimitPeriod (GetPeriod st + Detune)
      let Note := Int.tmod (Period >>> e.LINEAR_PITCH_AMOUNT) e.NOTE_RANGE
      let Sub := Int.tmod Period (shl 1 e.LINEAR_PITCH_AMOUNT)
      let Offset :=
        shl (GetFnum e (Note + 1)) (if Note < e.NOTE_RANGE - 1 then 0 else 1) - GetFnum e Note
      let Offset := (Offset * Sub) >>> e.LINEAR_PITCH_AMOUNT
      let Offset :=
        if Sub ≠ 0 ∧ Offset < shl 1 VRC7_PITCH_RESOLUTION then shl 1 VRC7_PITCH_RESOLUTION
        else Offset
      GetFnum e Note + Offset
    else Period
  e.LimitRawPeriod Period >>> VRC7_PITCH_RESOLUTION

/-- Function `CChannelHandlerVRC7::CorrectOctave`. -/
def CorrectOctave (st : Chan) : Chan :=
  if st.m_bLinearPitch then st
  else if st.m_iOldOctave = -1 then { st with m_iOldOctave := st.m_iOctave }
  else
    let Offset := st.m_iOctave - st.m_iOldOctave
    if Offset > 0 then
      { st with m_iPeriod := st.m_iPeriod >>> Offset.toNat, m_iOldOctave := st.m_iOctave }
    else if Offset < 0 then
      { st with m_iPortaTo := st.m_iPortaTo >>> (-Offset).toNat, m_iOctave := st.m_iOldOctave }
    else st

/-- The percussion part of `CChannelHandlerVRC7::TriggerNote`: the drum
mapping `switch (Note % 12)`. -/
def TriggerNote_drums (e : Env) (g : Globals) (st : Chan) (Note : Int) : Globals :=
  let v := 15 - CalculateVolume e st
  let k := Int.tmod Note 12
  if k = 0 ∨ k = 1 then
    { g with g_iPercMode := bor g.g_iPercMode 0x10, g_iPercVolumeBD := v }
  else if k = 2 ∨ k = 3 ∨ k = 4 then
    { g with g_iPercMode := bor g.g_iPercMode 0x08,
             g_iPercVolumeSDHH := bor (band g.g_iPercVolumeSDHH 0xf0) v }
  else if k = 5 ∨ k = 7 ∨ k = 9 ∨ k = 11 then
    { g with g_iPercMode := bor g.g_iPercMode 0x04,
             g_iPercVolumeTOMCY := bor (band g.g_iPercVolumeTOMCY 0x0f) (shl v 4) }
  else if k = 10 then
    { g with g_iPercMode := bor g.g_iPercMode 0x02,
             g_iPercVolumeTOMCY := bor (band g.g_iPercVolumeTOMCY 0xf0) v }
  else if k = 6 ∨ k = 8 then
    { g with g_iPercMode := bor g.g_iPercMode 0x01,
             g_iPercVolumeSDHH := bor (band g.g_iPercVolumeSDHH 0x0f) (shl v 4) }
  else g

/-- Function `CChannelHandlerVRC7::TriggerNote`: the globals and the channel
after the call, and the returned pitch value. -/
def TriggerNote (e : Env) (g : Globals) (st : Chan) (Note : Int) : Globals × Chan × Int :=
  let st := { st with m_iTriggeredNote := Note, keyState := Note }
  let st :=
    if st.m_iCommand ≠ Command.CMD_NOTE_TRIGGER ∧ st.m_iCommand ≠ Command.CMD_NOTE_HALT then
      { st with m_iCommand := Command.CMD_NOTE_ON }
    else st
  let st := { st with m_iOctave := Int.tdiv Note e.NOTE_RANGE }
  let g :=
    if band g.g_iPercMode 0x20 ≠ 0 then
      if st.Subindex ≥ 6 then TriggerNote_drums e g st Note else g
    else g
  (g, st, if st.m_bLinearPitch then shl Note e.LINEAR_PITCH_AMOUNT else GetFnum e Note)

/-- Function `CChannelHandlerVRC7::RunNote`. -/
def RunNote (e : Env) (g : Globals) (st : Chan) (MidiNote : Int) : Globals × Chan :=
  let Octave := e.oct_from_midi MidiNote
  let r := TriggerNote e g st MidiNote
  let g := r.1
  let st := r.2.1
  let NesFreq := r.2.2
  let st :=
    if st.m_iPortaSpeed > 0 ∧ st.m_iEffect = effect_t.PORTAMENTO ∧ st.m_bGate = true then
      let st :=
        if st.m_iPeriod = 0 then
          { st with m_iPeriod := NesFreq, m_iOldOctave := Octave, m_iOctave := Octave }
        else st
      { st with m_iPortaTo := NesFreq }
    else
      { st with m_iPeriod := NesFreq, m_iPortaTo := 0, m_iOldOctave := Octave,
                m_iOctave := Octave }
  let st := { st with m_bGate := true }
  (g, CorrectOctave st)

/-- Function `CChannelHandlerVRC7::HandleNote`, its own statements (lines
150 to 161 of the file). The call of the inherited
`CChannelHandlerInverted::HandleNote` on its first line is outside the
sources and is not part of this function. -/
def HandleNote (st : Chan) : Chan :=
  let st := { st with m_bHold := true }
  if st.m_iPortaSpeed > 0 ∧ st.m_iEffect = effect_t.PORTAMENTO ∧
      st.m_iCommand ≠ Command.CMD_NOTE_HALT ∧ st.m_iCommand ≠ Command.CMD_NOTE_RELEASE then
    CorrectOctave st
  else { st with m_iCommand := Command.CMD_NOTE_TRIGGER }

/-- Function `CChannelHandlerVRC7::HandleCut`. -/
def HandleCut (st : Chan) : Chan :=
  { st with keyState := -1, m_bGate := false, m_iCommand := Command.CMD_NOTE_HALT }

/-- Function `CChannelHandlerVRC7::HandleRelease`. -/
def HandleRelease (st : Chan) : Chan :=
  if !st.m_bRelease then
    { st with m_iCommand := Command.CMD_NOTE_RELEASE, keyState := -1 }
  else st

/-- The block `if (subindex == 8) { ... }` of
`CChannelHandlerVRC7::RefreshChannel`: the percussion writes of the leader
channel and the globals after it. -/
def RefreshChannel_percussion (g : Globals) : Globals × List PortWrite :=
  if band g.g_iPercMode 0x20 ≠ 0 then
    let w :=
      RegWrite 0x26 0x00 ++ RegWrite 0x27 0x00 ++ RegWrite 0x28 0x00 ++
      RegWrite 0x16 0x20 ++ RegWrite 0x17 0x50 ++ RegWrite 0x18 0xc0 ++
      RegWrite 0x26 0x05 ++ RegWrite 0x27 0x05 ++ RegWrite 0x28 0x01 ++
      RegWrite 0x0e g.g_iPercMode ++
      RegWrite 0x36 g.g_iPercVolumeBD ++
      RegWrite 0x37 g.g_iPercVolumeSDHH ++
      RegWrite 0x38 g.g_iPercVolumeTOMCY
    let g := { g with g_iPercMode := band g.g_iPercMode (bnot 0x1f) }
    ({ g with g_iPercModePrev := g.g_iPercMode }, w)
  else
    let w :=
      if band g.g_iPercModePrev 0x20 ≠ 0 then
        RegWrite 0x0e 0x00 ++
        RegWrite 0x26 0x00 ++ RegWrite 0x27 0x00 ++ RegWrite 0x28 0x00 ++
        RegWrite 0x36 0x1f ++ RegWrite 0x37 0x1f ++ RegWrite 0x38 0x1f
      else []
    ({ g with g_iPercModePrev := g.g_iPercMode }, w)

/-- What one call of `RefreshChannel` leaves behind. -/
structure Refreshed where
  /-- The globals after the call. -/
  globals : Globals
  /-- The channel after the call. -/
  chan : Chan
  /-- The port writes of the call, oldest first. -/
  writes : List PortWrite
  /-- The calls made on the chip handler. -/
  chip : List ChipCall

/-- The block number `Bnum` that `CChannelHandlerVRC7::RefreshChannel` computes
in its third statement. -/
def RefreshChannel_Bnum (e : Env) (st : Chan) : Int :=
  if !st.m_bLinearPitch then st.m_iOctave
  else
    Int.tdiv ((GetPeriod st + e.GetVibrato - e.GetFinePitch - e.GetPitch)
      >>> e.LINEAR_PITCH_AMOUNT) e.NOTE_RANGE

/-- Function `CChannelHandlerVRC7::RefreshChannel`. -/
def RefreshChannel (e : Env) (g : Globals) (st : Chan) : Refreshed :=
  let Volume := CalculateVolume e st
  let Fnum := CalculatePeriod e st
  let Bnum := RefreshChannel_Bnum e st
  let st :=
    if st.m_iPatch ≠ -1 then { st with m_iDutyPeriod := st.m_iPatch, m_iPatch := -1 }
    else st
  let subindex := st.Subindex
  let chip :=
    if st.m_iDutyPeriod = 0 ∧ st.m_iCommand = Command.CMD_NOTE_TRIGGER then
      [ChipCall.RequestPatchUpdate]
    else []
  let st := if !st.m_bGate then { st with m_iCommand := Command.CMD_NOTE_HALT } else st
  let p := if subindex = 8 then RefreshChannel_percussion g else (g, [])
  let g := p.1
  if band g.g_iPercMode 0x20 ≠ 0 ∧ subindex ≥ 6 then
    { globals := g, chan := st, writes := p.2, chip := chip }
  else
    let r : Int × Chan × List PortWrite :=
      match st.m_iCommand with
      | Command.CMD_NOTE_TRIGGER =>
        (bor OPL_NOTE_ON OPL_SUSTAIN_ON, { st with m_iCommand := Command.CMD_NOTE_ON },
          RegWrite (0x20 + subindex) 0)
      | Command.CMD_NOTE_ON => (if st.m_bHold then OPL_NOTE_ON else OPL_SUSTAIN_ON, st, [])
      | Command.CMD_NOTE_HALT => (0, st, [])
      | Command.CMD_NOTE_RELEASE => (OPL_SUSTAIN_ON, st, [])
    let Cmd := r.1
    let st := r.2.1
    let w := p.2 ++ r.2.2
    let w := w ++ RegWrite (0x10 + subindex) (band Fnum 0xFF)
    let w :=
      if st.m_iCommand ≠ Command.CMD_NOTE_HALT then
        w ++ RegWrite (0x30 + subindex) (bor (shl st.m_iDutyPeriod 4) (bxor Volume 0x0F))
      else w
    let w := w ++ RegWrite (0x20 + subindex) (bor (bor (band (Fnum >>> (8 : Nat)) 1) (shl Bnum 1)) Cmd)
    { globals := g, chan := st, writes := w, chip := chip }

/-- Function `CChannelHandlerVRC7::ClearRegisters`: the channel after the call
and its port writes. -/
def ClearRegisters (st : Chan) : Chan × List PortWrite :=
  let subindex := st.Subindex
  let w := RegWrite (0x10 + subindex) 0x00 ++ RegWrite (0x20 + subindex) 0x00 ++
    RegWrite (0x30 + subindex) 0x0F
  ({ st with m_iNote := -1, m_iOctave := -1, m_iOldOctave := -1, m_iPatch := -1,
             m_iEffect := effect_t.none, m_iCommand := Command.CMD_NOTE_HALT,
             m_iCustomPort := 0 }, w)

/-- Function `CChannelHandlerVRC7::UpdateNoteRelease`. -/
def UpdateNoteRelease (st : Chan) : Chan :=
  if st.m_iNoteRelease > 0 then
    let st := { st with m_iNoteRelease := st.m_iNoteRelease - 1 }
    if st.m_iNoteRelease = 0 then HandleRelease st else st
  else st

/-! ## Sound chip: register port (`Source/APU/VRC7.cpp`) -/

/-- The part of a `CVRC7` that its register port touches: the latched
register number `m_iSoundReg`, the calls `OPLL_writeReg(reg, value)` made on
the synthesis core and the calls `VGMLogOPLLWrite(reg, value)` made on the
sound generator, both oldest first. -/
structure CVRC7 where
  m_iSoundReg : Nat
  OPLL_writeReg : List (Nat × Nat)
  VGMLogOPLLWrite : List (Nat × Nat)
  deriving DecidableEq, Repr

/-- Function `CVRC7::Write`. -/
def CVRC7.Write (c : CVRC7) (Address Value : Nat) : CVRC7 :=
  if Address = 0x9010 then { c with m_iSoundReg := Value }
  else if Address = 0x9030 then
    { c with OPLL_writeReg := c.OPLL_writeReg ++ [(c.m_iSoundReg, Value)],
             VGMLogOPLLWrite := c.VGMLogOPLLWrite ++ [(c.m_iSoundReg, Value)] }
  else c

/-- A sequence of port writes sent to the chip, in order. -/
def CVRC7.WriteAll (c : CVRC7) (ws : List PortWrite) : CVRC7 :=
  ws.foldl (fun c w => c.Write w.1 w.2) c

/-- The register writes `(register, value)` that the synthesis core receives
when a chip with an empty log and latch `latch` is sent the port writes `ws`. -/
def received (latch : Nat) (ws : List PortWrite) : List (Nat × Nat) :=
  (CVRC7.WriteAll { m_iSoundReg := latch, OPLL_writeReg := [], VGMLogOPLLWrite := [] }
    ws).OPLL_writeReg

/-- The register ranges that the constructor `CVRC7::CVRC7` declares to its
register logger, the arguments of its calls of `AddRegisterRange`. -/
def CVRC7.AddRegisterRange : List (Nat × Nat) :=
  [(0x00, 0x07), (0x0e, 0x0e), (0x10, 0x18), (0x20, 0x28), (0x30, 0x38)]

/-- Whether a register number lies in one of the declared ranges. -/
def CVRC7.declaredRegister (r : Nat) : Bool :=
  CVRC7.AddRegisterRange.any (fun p => decide (p.1 ≤ r ∧ r ≤ p.2))

/-! ## Sound chip: frequency readback (`Source/APU/VRC7.cpp`) -/

/-- Function `CVRC7::GetFreq`. `GetValue r` stands for
`m_pRegisterLogger->GetRegister(r)->GetValue()`, of which the logged byte
`GetValue r % 256` is used. The result is a `double`; the product
`49716. * Lo` (at most `49716 * 511`) and the division by a power of two are
exact in double precision, so the result is this rational number. -/
def CVRC7.GetFreq (GetValue : Nat → Nat) (Channel : Int) : ℚ :=
  if Channel < 0 ∨ Channel ≥ 9 then 0
  else
    let Lo : Int := ((GetValue (bor Channel 0x10).toNat % 256 : Nat) : Int)
    let Hi : Int := band ((GetValue (bor Channel 0x20).toNat % 256 : Nat) : Int) 0x0F
    let Lo := bor Lo (band (shl Hi 8) 0x100)
    let Hi := Hi >>> (1 : Nat)
    (49716 : ℚ) * (Lo : ℚ) / ((shl 1 (19 - Hi).toNat : Int) : ℚ)

/-! ## Sound chip: sample clipping and smoothing (`Source/APU/VRC7.cpp`) -/

/-- Single precision arithmetic, as far as `CVRC7` uses it: `round x` is the
`float` that a real result `x` is rounded to. A `float` is a rational number;
the theorems hold for every rounding function. -/
structure FloatOps where
  round : ℚ → ℚ

/-- Conversion of a `float` to `int`: truncation toward zero. -/
def truncate (q : ℚ) : Int := Int.tdiv q.num (q.den : Int)

/-- Conversion of an `int` to `int16_t`. -/
def i16 (x : Int) : Int := (x + 32768) % 65536 - 32768

/-- The clipping of the raw sample in the loop of `CVRC7::EndFrame`. -/
def EndFrame_clipRaw (RawSample : Int) : Int :=
  let RawSample := if RawSample > 3600 then 3600 else RawSample
  let RawSample := if RawSample < -3200 then -3200 else RawSample
  RawSample

/-- The statement `int32_t Sample = int(float(RawSample) * m_fVolume)` of
`CVRC7::EndFrame` (`float(RawSample)` is exact for a clipped sample). -/
def EndFrame_applyVolume (fl : FloatOps) (m_fVolume : ℚ) (RawSample : Int) : Int :=
  truncate (fl.round ((RawSample : ℚ) * m_fVolume))

/-- The clipping of the scaled sample in the loop of `CVRC7::EndFrame`. -/
def EndFrame_clipSample (Sample : Int) : Int :=
  let Sample := if Sample > 32767 then 32767 else Sample
  let Sample := if Sample < -32768 then -32768 else Sample
  Sample

/-- The value of `Sample` that one pass of the loop of `CVRC7::EndFrame`
hands to the smoothing filter, for the raw sample that `OPLL_calc` returned. -/
def EndFrame_sample (fl : FloatOps) (m_fVolume : ℚ) (RawSample : Int) : Int :=
  EndFrame_clipSample (EndFrame_applyVolume fl m_fVolume (EndFrame_clipRaw RawSample))

/-- The loop of `CVRC7::EndFrame` over the raw samples that successive calls of
`OPLL_calc` return: the values stored to `m_iBuffer`, in order, and the value
of the static variable `LastSample` after the loop. -/
def EndFrame_loop (fl : FloatOps) (m_fVolume : ℚ) : Int → List Int → List Int × Int
  | LastSample, [] => ([], LastSample)
  | LastSample, RawSample :: rest =>
    let Sample := EndFrame_sample fl m_fVolume RawSample
    let r := EndFrame_loop fl m_fVolume Sample rest
    (i16 ((Sample + LastSample) >>> (1 : Nat)) :: r.1, r.2)

/-- The part of a `CVRC7` that `EndFrame` touches: the buffer cursor
`m_iBufferPtr`, the elapsed time `m_iTime`, the volume `m_fVolume` and the
contents of `m_iBuffer` by index. -/
structure CVRC7Samples where
  m_iBufferPtr : Nat
  m_iTime : Nat
  m_fVolume : ℚ
  m_iBuffer : Nat → Int

/-- What one call of `CVRC7::EndFrame` leaves behind. -/
structure EndFrameResult where
  /-- The chip after the call. -/
  chip : CVRC7Samples
  /-- The static variable `LastSample` after the call. -/
  LastSample : Int
  /-- The values the loop stored to `m_iBuffer`, in order. -/
  stored : List Int
  /-- The samples handed to `MixSamples`. -/
  mixed : List Int

/-- Function `CVRC7::EndFrame`. `WantSamples` is what
`m_pMixer->GetMixSampleCount(m_iTime)` returns, `OPLL_calc k` is what the
`k`-th call of `OPLL_calc` in this frame returns, and `LastSample` is the
function-local static variable of that name, which every call of `EndFrame`
on every `CVRC7` reads and writes. The loop runs while
`m_iBufferPtr < WantSamples`, that is `WantSamples - m_iBufferPtr` times; the
capacity of `m_iBuffer` is not modelled. -/
def CVRC7.EndFrame (fl : FloatOps) (WantSamples : Nat) (OPLL_calc : Nat → Int)
    (LastSample : Int) (c : CVRC7Samples) : EndFrameResult :=
  let n := WantSamples - c.m_iBufferPtr
  let r := EndFrame_loop fl c.m_fVolume LastSample ((List.range n).map OPLL_calc)
  let buf : Nat → Int := fun i =>
    if c.m_iBufferPtr ≤ i ∧ i < c.m_iBufferPtr + n then r.1.getD (i - c.m_iBufferPtr) 0
    else c.m_iBuffer i
  { chip :=
      { c with m_iBufferPtr := c.m_iBufferPtr + n - WantSamples, m_iTime := 0, m_iBuffer := buf }
    LastSample := r.2
    stored := r.1
    mixed := (List.range WantSamples).map buf }

/-- Function `CVRC7::Process`. -/
def CVRC7.Process (c : CVRC7Samples) (Time : Nat) : CVRC7Samples :=
  { c with m_iTime := (c.m_iTime + Time) % 4294967296 }

/-- Function `CVRC7::Reset`. -/
def CVRC7.Reset (c : CVRC7Samples) : CVRC7Samples :=
  { c with m_iBufferPtr := 0, m_iTime := 0 }

/-- The register number latched after a sequence of port writes, in the words
of the specification: the value most recently written to the index port
`0x9010`, or the number latched before when there is none. -/
def lastLatched (latch : Nat) : List PortWrite → Nat
  | [] => latch
  | w :: ws => lastLatched (if w.1 = 0x9010 then w.2 else latch) ws

/-- The pairs `(register, value)` committed by a sequence of port writes, in
the words of the specification: one pair for every write to the data port
`0x9030`, its register the number latched at that moment. -/
def committed (latch : Nat) : List PortWrite → List (Nat × Nat)
  | [] => []
  | w :: ws =>
    if w.1 = 0x9030 then (latch, w.2) :: committed latch ws
    else committed (if w.1 = 0x9010 then w.2 else latch) ws

/-- A call made on a `CVRC7` from outside: `Process(Time)`,
`Write(Address, Value)`, or `EndFrame()` together with what the mixer and the
synthesis core answer during it (`WantSamples`, `OPLL_calc`). -/
inductive CVRC7Call where
  | Process (Time : Nat)
  | Write (Address Value : Nat)
  | EndFrame (WantSamples : Nat) (OPLL_calc : Nat → Int)

/-- A `CVRC7` as a whole: its register port, its sample state, and the static
variable `LastSample` of `EndFrame`. -/
structure CVRC7Chip where
  port : CVRC7
  samples : CVRC7Samples
  LastSample : Int

/-- One call on the chip. -/
def CVRC7.call (fl : FloatOps) (s : CVRC7Chip) : CVRC7Call → CVRC7Chip
  | CVRC7Call.Process Time => { s with samples := CVRC7.Process s.samples Time }
  | CVRC7Call.Write Address Value => { s with port := CVRC7.Write s.port Address Value }
  | CVRC7Call.EndFrame WantSamples OPLL_calc =>
    let r := CVRC7.EndFrame fl WantSamples OPLL_calc s.LastSample s.samples
    { s with samples := r.chip, LastSample := r.LastSample }

/-- A sequence of calls on the chip, in order. -/
def CVRC7.calls (fl : FloatOps) (s : CVRC7Chip) (cs : List CVRC7Call) : CVRC7Chip :=
  cs.foldl (CVRC7.call fl) s

/-! ## Sound generator: frame counter (`Source/SoundGen.cpp`) -/

/-- Function `CSoundGen::GetFrameRate`, `std::exchange(m_iFrameCounter, 0)`:
the value returned and the counter after the call. -/
def CSoundGen.GetFrameRate (m_iFrameCounter : Nat) : Nat × Nat := (m_iFrameCounter, 0)

/-- The counter `m_iFrameCounter` after one call of `CSoundGen::IdleLoop`:
the function returns at once when `IsAudioReady()` is false and otherwise
executes `++m_iFrameCounter` on the unsigned 32-bit counter; no later
statement of the function assigns to it. -/
def CSoundGen.IdleLoop (IsAudioReady : Bool) (m_iFrameCounter : Nat) : Nat :=
  if !IsAudioReady then m_iFrameCounter
  else (m_iFrameCounter + 1) % 4294967296

/-! ## Sound generator: VGM logging (`Source/SoundGen.cpp`) -/

/-- The VGM logging state of `CSoundGen`: whether `vgmFile` is open, the
table `vgmRegPrev` by index, the counters, and the bytes written to the file
after the header, oldest first. The bytes of the header are not modelled. -/
structure VGMLog where
  vgmFile : Bool
  vgmFrameRate : Int
  vgmRegPrev : Nat → Int
  vgmFrames : Int
  vgmLoopFrame : Int
  vgmLoopOffset : Int
  data : List Nat

/-- Function `CSoundGen::VGMStartLogging`. `fopenOk` tells whether `fopen`
returned a file; `FrameRate` is the frame rate of the module. -/
def CSoundGen.VGMStartLogging (fopenOk : Bool) (FrameRate : Int) (s : VGMLog) : VGMLog :=
  if !fopenOk then { s with vgmFile := false }
  else
    { vgmFile := true
      vgmFrameRate := FrameRate
      vgmRegPrev := fun i => if i < 256 then -1 else s.vgmRegPrev i
      vgmFrames := 0
      vgmLoopFrame := 0
      vgmLoopOffset := 0x40 - 0x1c
      data := [] }

/-- Function `CSoundGen::VGMLogOPLLWrite`. `IsPlaying` is what `IsPlaying()`
returns during the call. -/
def CSoundGen.VGMLogOPLLWrite (IsPlaying : Bool) (s : VGMLog) (reg val : Int) : VGMLog :=
  if !s.vgmFile then s
  else if !IsPlaying then s
  else if s.vgmRegPrev reg.toNat = val then s
  else
    { s with vgmRegPrev := Function.update s.vgmRegPrev reg.toNat val
             data := s.data ++ [0x51, u8 reg, u8 val] }

/-- A sequence of register writes logged while the player is playing. -/
def CSoundGen.VGMLogAll (s : VGMLog) (ws : List (Int × Int)) : VGMLog :=
  ws.foldl (fun s w => CSoundGen.VGMLogOPLLWrite true s w.1 w.2) s

/-- The value last appended to the feed for a register, in the words of the
specification: the value of the latest record of that register among the
records appended so far, if there is one. -/
def lastAppended (reg : Int) : List (Int × Int) → Option Int
  | [] => none
  | w :: ws =>
    match lastAppended reg ws with
    | some v => some v
    | none => if w.1 = reg then some w.2 else none

/-- The writes that reach the feed, in the words of the specification: going
through the writes in arrival order, a write is appended if and only if its
value differs from the value last appended for its register (`kept` holds
the records appended before). -/
def changedWrites (kept : List (Int × Int)) : List (Int × Int) → List (Int × Int)
  | [] => []
  | w :: ws =>
    if lastAppended w.1 kept = some w.2 then changedWrites kept ws
    else w :: changedWrites (kept ++ [w]) ws

/-- The bytes of the feed for a list of appended writes: the record
`0x51, reg, val` for each. -/
def vgmRecords : List (Int × Int) → List Nat
  | [] => []
  | w :: ws => [0x51, w.1.toNat, w.2.toNat] ++ vgmRecords ws

/-! ## Sound chip types (`Source/SoundChipTypeImpl.cpp`) -/

/-- The built-in sound chips, the values of `sound_chip_t` that the file
returns from `GetID`. -/
inductive sound_chip_t where
  | APU
  | VRC6
  | VRC7
  | FDS
  | MMC5
  | N163
  | S5B
  deriving DecidableEq, Repr

/-- The channel handler classes that `MakeChipHandler` instantiates. -/
inductive ChannelClass where
  | C2A03Square
  | CTriangleChan
  | CNoiseChan
  | CDPCMChan
  | CVRC6Square
  | CVRC6Sawtooth
  | CChannelHandlerVRC7
  | CChannelHandlerFDS
  | CChannelHandlerMMC5
  | CChannelHandlerN163
  | CChannelHandlerS5B
  deriving DecidableEq, Repr

/-- Enumerators of `apu_subindex_t` that the file names. -/
inductive apu_subindex_t where
  | pulse1 | pulse2 | triangle | noise | dpcm
  deriving DecidableEq, Repr

/-- Enumerators of `vrc6_subindex_t` that the file names. -/
inductive vrc6_subindex_t where
  | pulse1 | pulse2 | sawtooth
  deriving DecidableEq, Repr

/-- Enumerators of `vrc7_subindex_t` that the file names. -/
inductive vrc7_subindex_t where
  | ch1 | ch2 | ch3 | ch4 | ch5 | ch6 | ch7 | ch8 | ch9
  deriving DecidableEq, Repr

/-- Enumerators of `fds_subindex_t` that the file names. -/
inductive fds_subindex_t where
  | wave
  deriving DecidableEq, Repr

/-- Enumerators of `mmc5_subindex_t` that the file names. -/
inductive mmc5_subindex_t where
  | pulse1 | pulse2
  deriving DecidableEq, Repr

/-- Enumerators of `n163_subindex_t` that the file names. -/
inductive n163_subindex_t where
  | ch1 | ch2 | ch3 | ch4 | ch5 | ch6 | ch7 | ch8
  deriving DecidableEq, Repr

/-- Enumerators of `s5b_subindex_t` that the file names. -/
inductive s5b_subindex_t where
  | square1 | square2 | square3
  deriving DecidableEq, Repr

/-- The numeric values of the subindex enumerators,
`static_cast<std::uint8_t>(subindex)`. The enumerations are declared in
`APU/Types.h`, outside the sources, so their values are a parameter. -/
structure SubindexValues where
  apu : apu_subindex_t → Nat
  vrc6 : vrc6_subindex_t → Nat
  vrc7 : vrc7_subindex_t → Nat
  fds : fds_subindex_t → Nat
  mmc5 : mmc5_subindex_t → Nat
  n163 : n163_subindex_t → Nat
  s5b : s5b_subindex_t → Nat

/-- Modelled from the spec: the enumerators of each subindex enumeration
(declared in `APU/Types.h`, outside the sources) number the channels of the
chip from 0 in the order of the channel names. -/
def channelOrder : SubindexValues where
  apu := fun s => match s with
    | .pulse1 => 0 | .pulse2 => 1 | .triangle => 2 | .noise => 3 | .dpcm => 4
  vrc6 := fun s => match s with
    | .pulse1 => 0 | .pulse2 => 1 | .sawtooth => 2
  vrc7 := fun s => match s with
    | .ch1 => 0 | .ch2 => 1 | .ch3 => 2 | .ch4 => 3 | .ch5 => 4 | .ch6 => 5 | .ch7 => 6
    | .ch8 => 7 | .ch9 => 8
  fds := fun s => match s with
    | .wave => 0
  mmc5 := fun s => match s with
    | .pulse1 => 0 | .pulse2 => 1
  n163 := fun s => match s with
    | .ch1 => 0 | .ch2 => 1 | .ch3 => 2 | .ch4 => 3 | .ch5 => 4 | .ch6 => 5 | .ch7 => 6
    | .ch8 => 7
  s5b := fun s => match s with
    | .square1 => 0 | .square2 => 1 | .square3 => 2

/-- The functions `GetSupportedChannelCount` of the seven chip types. -/
def GetSupportedChannelCount (chip : sound_chip_t) : Nat :=
  match chip with
  | .APU => 5
  | .VRC6 => 3
  | .VRC7 => 9
  | .FDS => 1
  | .MMC5 => 3
  | .N163 => 8
  | .S5B => 3

/-- The tables `NAMES` of the functions `GetChannelShortName`. -/
def channelShortNames (chip : sound_chip_t) : List String :=
  match chip with
  | .APU => ["PU1", "PU2", "TRI", "NOI", "DMC"]
  | .VRC6 => ["V1", "V2", "SAW"]
  | .VRC7 => ["FM1", "FM2", "FM3", "FM4", "FM5", "FM6", "FM7", "FM8", "FM9"]
  | .FDS => ["FDS"]
  | .MMC5 => ["PU3", "PU4", "PCM"]
  | .N163 => ["N1", "N2", "N3", "N4", "N5", "N6", "N7", "N8"]
  | .S5B => ["5B1", "5B2", "5B3"]

/-- The functions `GetChannelShortName` of the seven chip types: the name, or
the `std::invalid_argument` they throw. -/
def GetChannelShortName (chip : sound_chip_t) (subindex : Nat) : Except String String :=
  if h : subindex < (channelShortNames chip).length then
    Except.ok ((channelShortNames chip).get ⟨subindex, h⟩)
  else Except.error "Channel with given subindex does not exist"

/-- The functions `MakeChipHandler` of the seven chip types: the channel
handlers added by the calls of `With`, in order, each with the subindex of
its channel identity (`static_cast<std::uint8_t>(subindex)`) and its class. -/
def MakeChipHandler (v : SubindexValues) (chip : sound_chip_t) : List (Nat × ChannelClass) :=
  match chip with
  | .APU =>
    [(v.apu .pulse1 % 256, .C2A03Square), (v.apu .pulse2 % 256, .C2A03Square),
     (v.apu .triangle % 256, .CTriangleChan), (v.apu .noise % 256, .CNoiseChan),
     (v.apu .dpcm % 256, .CDPCMChan)]
  | .VRC6 =>
    [(v.vrc6 .pulse1 % 256, .CVRC6Square), (v.vrc6 .pulse2 % 256, .CVRC6Square),
     (v.vrc6 .sawtooth % 256, .CVRC6Sawtooth)]
  | .VRC7 =>
    [(v.vrc7 .ch1 % 256, .CChannelHandlerVRC7), (v.vrc7 .ch2 % 256, .CChannelHandlerVRC7),
     (v.vrc7 .ch3 % 256, .CChannelHandlerVRC7), (v.vrc7 .ch4 % 256, .CChannelHandlerVRC7),
     (v.vrc7 .ch5 % 256, .CChannelHandlerVRC7), (v.vrc7 .ch6 % 256, .CChannelHandlerVRC7),
     (v.vrc7 .ch7 % 256, .CChannelHandlerVRC7), (v.vrc7 .ch8 % 256, .CChannelHandlerVRC7),
     (v.vrc7 .ch9 % 256, .CChannelHandlerVRC7)]
  | .FDS => [(v.fds .wave % 256, .CChannelHandlerFDS)]
  | .MMC5 =>
    [(v.mmc5 .pulse1 % 256, .CChannelHandlerMMC5), (v.mmc5 .pulse2 % 256, .CChannelHandlerMMC5)]
  | .N163 =>
    [(v.n163 .ch1 % 256, .CChannelHandlerN163), (v.n163 .ch2 % 256, .CChannelHandlerN163),
     (v.n163 .ch3 % 256, .CChannelHandlerN163), (v.n163 .ch4 % 256, .CChannelHandlerN163),
     (v.n163 .ch5 % 256, .CChannelHandlerN163), (v.n163 .ch6 % 256, .CChannelHandlerN163),
     (v.n163 .ch7 % 256, .CChannelHandlerN163), (v.n163 .ch8 % 256, .CChannelHandlerN163)]
  | .S5B =>
    [(v.s5b .square1 % 256, .CChannelHandlerS5B), (v.s5b .square2 % 256, .CChannelHandlerS5B),
     (v.s5b .square3 % 256, .CChannelHandlerS5B)]

/-! ## Sound generator: cycle budget of a frame (`Source/SoundGen.cpp`) -/

/-- A track as `ForeachTrack` presents it to the loop of
`CSoundGen::UpdateAPU`: whether `GetChannelOrder().HasChannel(ID)` holds, and
`ID.Chip`, where `none` stands for `sound_chip_t::none`. -/
structure Track where
  HasChannel : Bool
  Chip : Option sound_chip_t
  deriving DecidableEq, Repr

/-- The loop over the tracks in `CSoundGen::UpdateAPU`, from the values of
`cycles` and `LastChip` before a track: the arguments of the calls of
`AddTime`, in order, and `cycles` after the last track. -/
def UpdateAPU_tracks : Int → Option sound_chip_t → List Track → List Int × Int
  | cycles, _, [] => ([], cycles)
  | cycles, LastChip, t :: ts =>
    if t.HasChannel then
      let Delay : Int := if t.Chip = LastChip then 150 else 250
      if Delay < cycles then
        let r := UpdateAPU_tracks (cycles - Delay) t.Chip ts
        (Delay :: r.1, r.2)
      else UpdateAPU_tracks cycles t.Chip ts
    else UpdateAPU_tracks cycles LastChip ts

/-- Function `CSoundGen::UpdateAPU`: the arguments of all its calls of
`AddTime`, in order, the last being the call that finishes the frame. -/
def CSoundGen.UpdateAPU (m_iUpdateCycles : Int) (tracks : List Track) : List Int :=
  let r := UpdateAPU_tracks m_iUpdateCycles none tracks
  r.1 ++ [r.2]

/-! ## Instrument input (`Source/InstrumentIO.cpp`) -/

/-- The exception `CModuleException::WithMessage(msg)`. -/
inductive CModuleException where
  | WithMessage (msg : String)
  deriving DecidableEq, Repr

/-- Function `CInstrumentIO::AssertRange`. `l` is the error level of the
assertion (its template argument) and `err_lv_` the error level of the
reader, both as the numeric value of `module_error_level_t`, an enumeration
declared outside the sources. -/
def CInstrumentIO.AssertRange (l err_lv_ : Nat) (Value Min Max : Int) (Desc : String) :
    Except CModuleException Int :=
  if l ≤ err_lv_ ∧ ¬ (Value ≥ Min ∧ Value ≤ Max) then
    Except.error (CModuleException.WithMessage
      (Desc ++ " out of range: expected [" ++ toString Min ++ "," ++ toString Max ++ "], got "
        ++ toString Value))
  else Except.ok Value

/-- The fields of a `CInstrumentVRC7` that the readers set: the patch number
stored by `SetPatch` and the eight custom registers stored by
`SetCustomReg`. -/
structure CInstrumentVRC7 where
  m_iPatch : Int
  m_iRegs : List Nat
  deriving DecidableEq, Repr

/-- Function `CInstrumentIOVRC7::ReadFromModule`. `l` is the error level that
`AssertRange` has when no template argument is given, `GetBlockInt` the
integer read from the block and `GetBlockChar i` the `i`-th byte read after
it. An exception leaves the instrument as it was. -/
def CInstrumentIOVRC7.ReadFromModule (l err_lv_ : Nat) (GetBlockInt : Int)
    (GetBlockChar : Nat → Nat) : Except CModuleException CInstrumentVRC7 :=
  match CInstrumentIO.AssertRange l err_lv_ GetBlockInt 0 0xF "OPLL patch number" with
  | Except.error e => Except.error e
  | Except.ok Patch =>
    Except.ok { m_iPatch := Patch, m_iRegs := (List.range 8).map GetBlockChar }

/-- Function `CInstrumentIOVRC7::DoReadFromFTI`. `ReadInt32` is the integer
read from the file and `ReadInt8 i` the `i`-th byte read after it. -/
def CInstrumentIOVRC7.DoReadFromFTI (ReadInt32 : Int) (ReadInt8 : Nat → Nat) :
    CInstrumentVRC7 :=
  { m_iPatch := ReadInt32, m_iRegs := (List.range 8).map ReadInt8 }

/-! ## Compositions of the channel operations -/

/-- Modelled from the spec: a note event as the inherited
`CChannelHandler::HandleNoteData` issues it (that function is outside the
sources): the note is run first (`RunNote`, which calls `TriggerNote`), then
`HandleNote` takes its decision. -/
def PlayNote (e : Env) (g : Globals) (st : Chan) (MidiNote : Int) : Globals × Chan :=
  let r := RunNote e g st MidiNote
  (r.1, HandleNote r.2)

/-- One note of a glide: `RunNote` followed by `CorrectOctave`, the pair of
calls a note makes while a portamento is active. -/
def GlideNote (e : Env) (g : Globals) (st : Chan) (MidiNote : Int) : Globals × Chan :=
  let r := RunNote e g st MidiNote
  (r.1, CorrectOctave r.2)

/-- Modelled from the spec: the refresh step of one tick (its loop is in the
sound driver, outside the sources): `RefreshChannel` is invoked on every
channel handler of the list in turn; the results are kept in the same order. -/
def RefreshChannels (g : Globals) : List (Env × Chan) → List Refreshed
  | [] => []
  | c :: cs =>
    let r := RefreshChannel c.1 g c.2
    r :: RefreshChannels r.globals cs

/-- The priming sequence in the words of the specification: key-off to the
three percussion voices, the presets, the mode byte, the three percussion
volumes. -/
def primingSequence (g : Globals) : List (Nat × Nat) :=
  [(0x26, 0x00), (0x27, 0x00), (0x28, 0x00),
   (0x16, 0x20), (0x17, 0x50), (0x18, 0xC0),
   (0x26, 0x05), (0x27, 0x05), (0x28, 0x01),
   (0x0E, u8 g.g_iPercMode),
   (0x36, u8 g.g_iPercVolumeBD), (0x37, u8 g.g_iPercVolumeSDHH),
   (0x38, u8 g.g_iPercVolumeTOMCY)]

/-- The teardown sequence in the words of the specification: the mode byte
cleared, key-off to the three percussion voices, the three percussion volumes
at their minimum. -/
def teardownSequence : List (Nat × Nat) :=
  [(0x0E, 0x00), (0x26, 0x00), (0x27, 0x00), (0x28, 0x00),
   (0x36, 0x1F), (0x37, 0x1F), (0x38, 0x1F)]

/-- The registers that only the percussion sequences of the leader write:
no channel below subindex 6 owns one of them. -/
def percussionRegisters : List Nat :=
  [0x0E, 0x16, 0x17, 0x18, 0x26, 0x27, 0x28, 0x36, 0x37, 0x38]

/-- The key and sustain bits in the words of the specification: Trigger gives
key-on and sustain, On gives key-on if held and sustain otherwise, Halt gives
silence, Release gives sustain. -/
def keySustainBits (cmd : Command) (hold : Bool) : Int :=
  match cmd with
  | Command.CMD_NOTE_TRIGGER => 0x30
  | Command.CMD_NOTE_ON => if hold then 0x10 else 0x20
  | Command.CMD_NOTE_HALT => 0x00
  | Command.CMD_NOTE_RELEASE => 0x20

/-- The command that reaches the `switch` of `RefreshChannel`: a channel whose
gate is not held has been set to Halt just before. -/
def commandAtSwitch (st : Chan) : Command :=
  if st.m_bGate then st.m_iCommand else Command.CMD_NOTE_HALT

/-- The patch in force during `RefreshChannel`: a pending `m_iPatch` replaces
`m_iDutyPeriod` at the start of the call. -/
def patchInForce (st : Chan) : Int :=
  if st.m_iPatch ≠ -1 then st.m_iPatch else st.m_iDutyPeriod

/-- A glide to the note `there` followed at once by a glide to the note `back`:
the channel after both. -/
def GlideThereAndBack (e : Env) (g : Globals) (st : Chan) (there back : Int) : Chan :=
  let a := GlideNote e g st there
  (GlideNote e a.1 a.2 back).2

/-- The command state machine in the words of the specification: from `a`
the command may stay, be cut to Halt, be re-triggered to Trigger, go from
Trigger to On, or go from On to Release; nothing else. -/
def commandMachine (a b : Command) : Bool :=
  match a, b with
  | _, Command.CMD_NOTE_HALT => true
  | _, Command.CMD_NOTE_TRIGGER => true
  | Command.CMD_NOTE_TRIGGER, Command.CMD_NOTE_ON => true
  | Command.CMD_NOTE_ON, Command.CMD_NOTE_ON => true
  | Command.CMD_NOTE_ON, Command.CMD_NOTE_RELEASE => true
  | Command.CMD_NOTE_RELEASE, Command.CMD_NOTE_RELEASE => true
  | _, _ => false

/-- The five drums of percussion mode: bass drum, snare drum, tom-tom, top
cymbal, hi-hat. -/
inductive Drum where
  | BD
  | SD
  | TOM
  | CY
  | HH
  deriving DecidableEq, Repr

/-- The drum of a note in the words of the specification, chosen by
`N mod 12`: 0, 1 bass drum; 2, 3, 4 snare; 5, 7, 9, 11 tom; 10 cymbal; 6, 8
hi-hat. -/
def drumOfNote (N : Int) : Drum :=
  if N % 12 = 0 ∨ N % 12 = 1 then Drum.BD
  else if N % 12 = 2 ∨ N % 12 = 3 ∨ N % 12 = 4 then Drum.SD
  else if N % 12 = 5 ∨ N % 12 = 7 ∨ N % 12 = 9 ∨ N % 12 = 11 then Drum.TOM
  else if N % 12 = 10 then Drum.CY
  else Drum.HH

/-- The key bit of a drum in the mode byte, in the words of the
specification. -/
def drumKeyBit : Drum → Int
  | Drum.BD => 0x10
  | Drum.SD => 0x08
  | Drum.TOM => 0x04
  | Drum.CY => 0x02
  | Drum.HH => 0x01

/-- The note field of a row, as the inherited `HandleNoteData` tells its
cases apart: no note, a note cut, a note release, or a note of a given
pitch. -/
inductive RowNote where
  | none
  | halt
  | release
  | note (MidiNote : Int)
  deriving DecidableEq, Repr

/-- Modelled from the spec: the inherited
`CChannelHandlerInverted::HandleNoteData` (outside the sources), as far as
the command state goes. It delivers the note of the row to the handler: an
empty row makes no call that assigns the command, a note cut calls
`HandleCut`, a note release calls `HandleRelease`, and a note is a note event
(`PlayNote`: `RunNote`, which calls `TriggerNote`, then the decision of
`HandleNote`). Its other work (instrument, volume, effects, release flag) is
not modelled. -/
def deliverRowNote (e : Env) (g : Globals) (st : Chan) : RowNote → Globals × Chan
  | RowNote.none => (g, st)
  | RowNote.halt => (g, HandleCut st)
  | RowNote.release => (g, HandleRelease st)
  | RowNote.note MidiNote => PlayNote e g st MidiNote

/-- Function `CChannelHandlerVRC7::HandleNoteData`: the inherited call on its
first line (`deliverRowNote`), then its own statement (lines 75 and 76 of the
file). `Note` is the note field of the row and `HoldInstrument` tells whether
`NoteData.Instrument == HOLD_INSTRUMENT`. -/
def HandleNoteData (e : Env) (g : Globals) (st : Chan) (Note : RowNote)
    (HoldInstrument : Bool) : Globals × Chan :=
  let r := deliverRowNote e g st Note
  let st := r.2
  (r.1,
    if st.m_iCommand = Command.CMD_NOTE_TRIGGER ∧ HoldInstrument = true then
      { st with m_iCommand := Command.CMD_NOTE_ON }
    else st)

/-- The successive values of the command during one call of `HandleNoteData`:
before the call, after each call that the inherited part makes (for a note:
after `RunNote`, then after the decision of `HandleNote`), and after the
function's own statement. -/
def HandleNoteData_commands (e : Env) (g : Globals) (st : Chan) (Note : RowNote)
    (HoldInstrument : Bool) : List Command :=
  [st.m_iCommand] ++
  (match Note with
    | RowNote.none => []
    | RowNote.halt => [(HandleCut st).m_iCommand]
    | RowNote.release => [(HandleRelease st).m_iCommand]
    | RowNote.note MidiNote =>
      [(RunNote e g st MidiNote).2.m_iCommand, (PlayNote e g st MidiNote).2.m_iCommand]) ++
  [(HandleNoteData e g st Note HoldInstrument).2.m_iCommand]

/-- Whether every step of a sequence of command values is a step of
`commandMachine`. -/
def alongMachine : List Command → Bool
  | a :: b :: rest => commandMachine a b && alongMachine (b :: rest)
  | _ => true

/-- The chips of the tracks that are in the channel order, in the order of
the tracks. -/
def presentChips (tracks : List Track) : List (Option sound_chip_t) :=
  (tracks.filter (fun t => t.HasChannel)).map (fun t => t.Chip)

/-- The delay of each track in the channel order, in the words of the
specification: 150 when the track is on the chip of the previous such track
(`prev`), 250 otherwise. -/
def trackDelays (prev : Option sound_chip_t) : List (Option sound_chip_t) → List Int
  | [] => []
  | c :: cs => (if c = prev then 150 else 250) :: trackDelays c cs

/-- The amounts passed to `AddTime`, in the words of the specification: each
delay in turn is passed, and taken off the cycles remaining, when it is
strictly less than them, and is skipped when it is not; the remainder is
passed last. -/
def spendCycles : Int → List Int → List Int
  | cycles, [] => [cycles]
  | cycles, d :: ds =>
    if d < cycles then d :: spendCycles (cycles - d) ds else spendCycles cycles ds

/-! ## Example inputs -/

/-- An environment of a channel in play: twelve notes per octave, the
frequency numbers of one octave, no vibrato, tremolo or pitch offset, and
period limits `0 .. 2047`. -/
def exEnv : Env where
  NOTE_RANGE := 12
  LINEAR_PITCH_AMOUNT := 5
  VOL_COLUMN_SHIFT := 3
  GetVibrato := 0
  GetFinePitch := 0
  GetPitch := 0
  GetTremolo := 0
  LimitPeriod := fun p => min (max p 0) 2047
  LimitRawPeriod := fun p => min (max p 0) 2047
  m_iNoteLookupTable := [172, 183, 194, 205, 217, 230, 244, 258, 274, 290, 307, 326]
  oct_from_midi := fun n => Int.tdiv n 12

/-- Globals with percussion mode off, as the constructor leaves them. -/
def exGlobals : Globals where
  g_iPercMode := 0
  g_iPercModePrev := 0
  g_iPercVolumeBD := 15
  g_iPercVolumeSDHH := 15
  g_iPercVolumeTOMCY := 15

/-- A channel of subindex 2 that has just been told to trigger a note in
octave 4 with patch 3 at full volume. -/
def exChan : Chan where
  Subindex := 2
  m_iCommand := Command.CMD_NOTE_TRIGGER
  m_bGate := true
  m_bHold := true
  m_bRelease := false
  m_bLinearPitch := false
  m_iPeriod := 1096
  m_iPortaTo := 0
  m_iPortaSpeed := 0
  m_iEffect := effect_t.none
  m_iOctave := 4
  m_iOldOctave := 4
  m_iVolume := 0x7F
  m_iDutyPeriod := 3
  m_iPatch := -1
  m_iTriggeredNote := 57
  m_iNote := 57
  m_iCustomPort := 0
  m_iNoteRelease := 0
  keyState := 57

/-- The channel `exChan` after `ClearRegisters`: halted, octave `-1`. -/
def exChanReset : Chan := (ClearRegisters exChan).1

/-- A released channel with a portamento effect active. -/
def exChanReleased : Chan :=
  { exChan with m_iCommand := Command.CMD_NOTE_RELEASE, m_iPortaSpeed := 1,
                m_iEffect := effect_t.PORTAMENTO }

/-- Globals with percussion mode on. -/
def exGlobalsPerc : Globals := { exGlobals with g_iPercMode := 0x20 }

/-- A sounding channel of subindex 6. -/
def exChan6 : Chan := { exChan with Subindex := 6, m_iCommand := Command.CMD_NOTE_ON }

/-- A sounding channel in octave 3 with period 1024, gliding. -/
def exChanGlide : Chan :=
  { exChan with m_iCommand := Command.CMD_NOTE_ON, m_iPortaSpeed := 1,
                m_iEffect := effect_t.PORTAMENTO, m_iOctave := 3, m_iOldOctave := 3,
                m_iPeriod := 1024 }

/-- The eight channels of subindex `0..7`, each in the state of `exChan`. -/
def exEightChannels : List (Env × Chan) :=
  (List.range 8).map (fun i => (exEnv, { exChan with Subindex := i }))

/-- A leader channel (subindex 8) in the state of `exChan`. -/
def exLeader : Env × Chan := (exEnv, { exChan with Subindex := 8 })

/-- Exact arithmetic in place of single precision. -/
def exFloat : FloatOps where
  round := fun x => x

/-- A chip at the start of a frame, with chip volume 1 and an empty buffer. -/
def exChipA : CVRC7Samples where
  m_iBufferPtr := 0
  m_iTime := 0
  m_fVolume := 1
  m_iBuffer := fun _ => 0

/-- A second chip instance in the same state. -/
def exChipB : CVRC7Samples := exChipA

/-- The first frame of chip A: one sample of 100, filter memory 0. -/
def exFrameA1 : EndFrameResult := CVRC7.EndFrame exFloat 1 (fun _ => 100) 0 exChipA

/-- A frame of chip B after the first frame of chip A: one sample of 3000. -/
def exFrameB : EndFrameResult :=
  CVRC7.EndFrame exFloat 1 (fun _ => 3000) exFrameA1.LastSample exChipB

/-- The second frame of chip A when no other chip ended a frame in between. -/
def exFrameA2 : EndFrameResult :=
  CVRC7.EndFrame exFloat 1 (fun _ => 100) exFrameA1.LastSample exFrameA1.chip

/-- The second frame of chip A when chip B ended a frame in between. -/
def exFrameA2afterB : EndFrameResult :=
  CVRC7.EndFrame exFloat 1 (fun _ => 100) exFrameB.LastSample exFrameA1.chip

/-- A chip register port with register 5 latched and nothing written yet. -/
def exPort : CVRC7 where
  m_iSoundReg := 5
  OPLL_writeReg := []
  VGMLogOPLLWrite := []

/-- A logging state before `VGMStartLogging`: no file, an arbitrary table. -/
def exVGM : VGMLog where
  vgmFile := false
  vgmFrameRate := 0
  vgmRegPrev := fun _ => 7
  vgmFrames := 0
  vgmLoopFrame := 0
  vgmLoopOffset := 0
  data := []

/-- The register values after the channel `exChan` has been refreshed: each
register holds the value last written to it, and 0 if none was. -/
def exRegisters (r : Nat) : Nat :=
  ((received 0 (RefreshChannel exEnv exGlobals exChan).writes).reverse.lookup r).getD 0

/-- Four tracks: two of the 2A03 and one of the VRC7 in the channel order,
and one of the VRC7 that is not in it. -/
def exTracks : List Track :=
  [⟨true, some sound_chip_t.APU⟩, ⟨true, some sound_chip_t.APU⟩, ⟨false, some sound_chip_t.VRC7⟩,
   ⟨true, some sound_chip_t.VRC7⟩]

/-- A halted channel, as `HandleCut` leaves the channel `exChan`. -/
def exChanHalted : Chan := HandleCut exChan

/-! ## Lemmas on machine integers and on the register port -/

theorem ofBits32_small (n : Nat) (h : n < 2147483648) : ofBits32 n = (n : Int) := by
  unfold ofBits32
  have h1 : n % 4294967296 = n := Nat.mod_eq_of_lt (by omega)
  rw [h1, if_pos h]

theorem band_one_cases (x : Int) : band x 1 = 0 ∨ band x 1 = 1 := by
  unfold band
  have h1 : bits32 1 = 1 := by decide
  rw [h1, Nat.and_one_is_mod]
  rcases Nat.mod_two_eq_zero_or_one (bits32 x) with h | h <;> rw [h]
  · left; decide
  · right; decide

theorem band_255_range (x : Int) : 0 ≤ band x 0xFF ∧ band x 0xFF ≤ 255 := by
  unfold band
  have h1 : bits32 0xFF = 255 := by decide
  have h2 : bits32 x &&& 255 ≤ 255 := Nat.and_le_right
  rw [h1, ofBits32_small _ (by omega)]
  omega

theorem u8_of_range (x : Int) (h0 : 0 ≤ x) (h1 : x ≤ 255) : ((u8 x : Nat) : Int) = x := by
  unfold u8
  rw [Int.emod_eq_of_lt h0 (by omega), Int.toNat_of_nonneg h0]

theorem WriteAll_cons (c : CVRC7) (w : PortWrite) (ws : List PortWrite) :
    CVRC7.WriteAll c (w :: ws) = CVRC7.WriteAll (c.Write w.1 w.2) ws := rfl

theorem WriteAll_log (ws : List PortWrite) (c : CVRC7) :
    (CVRC7.WriteAll c ws).OPLL_writeReg = c.OPLL_writeReg ++ received c.m_iSoundReg ws := by
  induction ws generalizing c with
  | nil => simp [CVRC7.WriteAll, received]
  | cons w ws ih =>
    have hr : received c.m_iSoundReg (w :: ws)
        = (CVRC7.Write ⟨c.m_iSoundReg, [], []⟩ w.1 w.2).OPLL_writeReg
          ++ received (CVRC7.Write ⟨c.m_iSoundReg, [], []⟩ w.1 w.2).m_iSoundReg ws := by
      show (CVRC7.WriteAll _ (w :: ws)).OPLL_writeReg = _
      rw [WriteAll_cons, ih]
    rw [WriteAll_cons, ih, hr]
    unfold CVRC7.Write
    by_cases h1 : w.1 = 0x9010
    · simp [h1]
    · by_cases h2 : w.1 = 0x9030
      · simp [h1, h2]
      · simp [h1, h2]

theorem received_nil (latch : Nat) : received latch [] = [] := rfl

theorem received_RegWrite_append (latch Reg : Nat) (Value : Int) (ws : List PortWrite) :
    received latch (RegWrite Reg Value ++ ws)
      = (Reg % 256, u8 Value) :: received (Reg % 256) ws := by
  unfold received RegWrite
  simp only [List.cons_append, List.nil_append, WriteAll_cons]
  rw [WriteAll_log]
  simp [CVRC7.Write, received]

theorem received_RegWrite (latch Reg : Nat) (Value : Int) :
    received latch (RegWrite Reg Value) = [(Reg % 256, u8 Value)] := by
  have h := received_RegWrite_append latch Reg Value []
  simpa [received_nil] using h

theorem received_append (ws ws' : List PortWrite) (latch : Nat) :
    ∃ latch', received latch (ws ++ ws') = received latch ws ++ received latch' ws' := by
  refine ⟨(CVRC7.WriteAll { m_iSoundReg := latch, OPLL_writeReg := [], VGMLogOPLLWrite := [] }
    ws).m_iSoundReg, ?_⟩
  unfold received
  simp only [CVRC7.WriteAll, List.foldl_append]
  exact WriteAll_log ws' _

theorem bor_key_sustain : bor OPL_NOTE_ON OPL_SUSTAIN_ON = 0x30 := by decide

theorem bits32_lt (x : Int) : bits32 x < 4294967296 := by
  unfold bits32
  omega

theorem bits32_ofBits32 (n : Nat) : bits32 (ofBits32 n) = n % 4294967296 := by
  unfold bits32 ofBits32
  split <;> omega

theorem band_bits (x y : Int) : bits32 (band x y) = bits32 x &&& bits32 y := by
  unfold band
  rw [bits32_ofBits32]
  have h1 : bits32 x &&& bits32 y ≤ bits32 x := Nat.and_le_left
  have h2 := bits32_lt x
  exact Nat.mod_eq_of_lt (by omega)

theorem band_clear_low_keeps_mode (x : Int) : band (band x (bnot 0x1f)) 0x20 = band x 0x20 := by
  have h1 : bits32 (bnot 0x1f) = 4294967264 := by decide
  have h2 : bits32 0x20 = 32 := by decide
  have h3 : (4294967264 : Nat) &&& 32 = 32 := by decide
  show ofBits32 (bits32 (band x (bnot 0x1f)) &&& bits32 0x20) = ofBits32 (bits32 x &&& bits32 0x20)
  rw [band_bits, h1, h2, Nat.land_assoc, h3]

theorem percussion_mode_bit (g : Globals) :
    band (RefreshChannel_percussion g).1.g_iPercMode 0x20 = band g.g_iPercMode 0x20 := by
  unfold RefreshChannel_percussion
  split
  · exact band_clear_low_keeps_mode _
  · rfl

theorem CalculateVolume_range (e : Env) (st : Chan) :
    0 ≤ CalculateVolume e st ∧ CalculateVolume e st ≤ 15 := by
  unfold CalculateVolume
  simp only
  split_ifs <;> omega

theorem volume_byte_exact (D V : Int) (hD0 : 0 ≤ D) (hD : D ≤ 15) (hV0 : 0 ≤ V) (hV : V ≤ 15) :
    ((u8 (bor (shl D 4) (bxor V 0x0F)) : Nat) : Int) = bor (shl D 4) (bxor V 0x0F) := by
  interval_cases D <;> interval_cases V <;> decide

theorem key_byte_exact (x O c : Int) (hO0 : 0 ≤ O) (hO : O ≤ 7)
    (hc : c = 0 ∨ c = 0x10 ∨ c = 0x20 ∨ c = 0x30) :
    ((u8 (bor (bor (band x 1) (shl O 1)) c) : Nat) : Int) = bor (bor (band x 1) (shl O 1)) c
      ∧ u8 (bor (bor (band x 1) (shl O 1)) c) &&& 0x30 = c.toNat := by
  rcases band_one_cases x with h | h <;> rw [h] <;>
    rcases hc with rfl | rfl | rfl | rfl <;> interval_cases O <;> decide

/-- C1: a channel in legacy pitch mode, gate held, percussion mode off, in
command state Trigger: one `RefreshChannel` sends, after the writes of the
leader's percussion block (only for subindex 8), exactly four register
writes: `0` to `0x20+s`, then `P & 0xFF` to `0x10+s`, then
`(D<<4) | (V ^ 0x0F)` to `0x30+s`, then `((P>>8)&1) | (O<<1) | 0x30` to
`0x20+s`, each value as the byte that `RegWrite` receives; here `P` is
`CalculatePeriod()`, `V` is `CalculateVolume()`, `O` the octave and `D` the
patch in force (the pending `m_iPatch`, else `m_iDutyPeriod`). The byte of
`P & 0xFF` is that number itself, the volume byte is `(D<<4) | (V ^ 0x0F)`
itself for `D` in `0..15`, the key byte is `((P>>8)&1) | (O<<1) | 0x30`
itself for `O` in `0..7`, and with `V = 15` the volume register receives
`(D<<4) | 0`. -/
theorem C1_trigger_register_writes (e : Env) (g : Globals) (st : Chan) (latch : Nat)
    (hs : st.Subindex ≤ 8) (hlin : st.m_bLinearPitch = false) (hgate : st.m_bGate = true)
    (hperc : band g.g_iPercMode 0x20 = 0) (hcmd : st.m_iCommand = Command.CMD_NOTE_TRIGGER) :
    (received latch (RefreshChannel e g st).writes
        = received latch (if st.Subindex = 8 then (RefreshChannel_percussion g).2 else []) ++
          [(0x20 + st.Subindex, 0),
           (0x10 + st.Subindex, u8 (band (CalculatePeriod e st) 0xFF)),
           (0x30 + st.Subindex,
              u8 (bor (shl (if st.m_iPatch ≠ -1 then st.m_iPatch else st.m_iDutyPeriod) 4)
                    (bxor (CalculateVolume e st) 0x0F))),
           (0x20 + st.Subindex,
              u8 (bor (bor (band (CalculatePeriod e st >>> (8 : Nat)) 1) (shl st.m_iOctave 1)) 0x30))])
      ∧ ((u8 (band (CalculatePeriod e st) 0xFF) : Nat) : Int) = band (CalculatePeriod e st) 0xFF
      ∧ (∀ D : Int, 0 ≤ D ∧ D ≤ 15 →
          ((u8 (bor (shl D 4) (bxor (CalculateVolume e st) 0x0F)) : Nat) : Int)
            = bor (shl D 4) (bxor (CalculateVolume e st) 0x0F))
      ∧ (0 ≤ st.m_iOctave ∧ st.m_iOctave ≤ 7 →
          ((u8 (bor (bor (band (CalculatePeriod e st >>> (8 : Nat)) 1) (shl st.m_iOctave 1)) 0x30) : Nat)
              : Int)
            = bor (bor (band (CalculatePeriod e st >>> (8 : Nat)) 1) (shl st.m_iOctave 1)) 0x30)
      ∧ (CalculateVolume e st = 15 → ∀ D : Int,
          bor (shl D 4) (bxor (CalculateVolume e st) 0x0F) = bor (shl D 4) 0) := by
  refine ⟨?_, ?_, ?_, ?_, ?_⟩
  · have hb := percussion_mode_bit g
    have h256 : ∀ k, k ≤ 0x30 → (k + st.Subindex) % 256 = k + st.Subindex := by
      intro k hk; exact Nat.mod_eq_of_lt (by omega)
    have h10 := h256 0x10 (by norm_num)
    have h20 := h256 0x20 (by norm_num)
    have h30 := h256 0x30 (by norm_num)
    have hz : u8 0 = 0 := by decide
    unfold RefreshChannel RefreshChannel_Bnum
    by_cases h8 : st.Subindex = 8
    · obtain ⟨l, hl⟩ := received_append (RefreshChannel_percussion g).2
        (RegWrite (0x20 + st.Subindex) 0 ++
          (RegWrite (0x10 + st.Subindex) (band (CalculatePeriod e st) 0xFF) ++
            (RegWrite (0x30 + st.Subindex)
                (bor (shl (if st.m_iPatch ≠ -1 then st.m_iPatch else st.m_iDutyPeriod) 4)
                  (bxor (CalculateVolume e st) 0x0F)) ++
              RegWrite (0x20 + st.Subindex)
                (bor (bor (band (CalculatePeriod e st >>> (8 : Nat)) 1) (shl st.m_iOctave 1)) 0x30))))
        latch
      by_cases hp : st.m_iPatch = -1
      · simp [hp, h8, hlin, hgate, hcmd, hperc, hb, bor_key_sustain] at hl ⊢
        rw [hl]
        simp [received_RegWrite_append, received_RegWrite, hz]
      · simp [hp, h8, hlin, hgate, hcmd, hperc, hb, bor_key_sustain] at hl ⊢
        rw [hl]
        simp [received_RegWrite_append, received_RegWrite, hz]
    · by_cases hp : st.m_iPatch = -1
      · simp [hp, h8, hlin, hgate, hcmd, hperc, bor_key_sustain, received_RegWrite_append,
          received_RegWrite, received_nil, h10, h20, h30, hz]
      · simp [hp, h8, hlin, hgate, hcmd, hperc, bor_key_sustain, received_RegWrite_append,
          received_RegWrite, received_nil, h10, h20, h30, hz]
  · have h := band_255_range (CalculatePeriod e st)
    exact u8_of_range _ h.1 h.2
  · intro D hD
    have hv := CalculateVolume_range e st
    exact volume_byte_exact D _ hD.1 hD.2 hv.1 hv.2
  · intro hO
    exact (key_byte_exact _ _ 0x30 hO.1 hO.2 (by simp)).1
  · intro hv D
    rw [hv]
    have : bxor 15 0x0F = 0 := by decide
    rw [this]

/-- C1 at a concrete channel: subindex 2, octave 4, patch 3, volume 15 and a
frequency number of 274. -/
theorem C1_trigger_register_writes_witness :
    received 0 (RefreshChannel exEnv exGlobals exChan).writes
      = [(0x22, 0), (0x12, 18), (0x32, 0x30), (0x22, 0x39)] := by
  have h := (C1_trigger_register_writes exEnv exGlobals exChan 0 (by decide) rfl rfl
    (by decide) rfl).1
  rw [h]
  decide

theorem received_append_RegWrite (ws rest : List PortWrite) (latch Reg : Nat) (Value : Int) :
    received latch (ws ++ (RegWrite Reg Value ++ rest))
      = received latch ws ++ received latch (RegWrite Reg Value ++ rest) := by
  obtain ⟨l, hl⟩ := received_append ws (RegWrite Reg Value ++ rest) latch
  rw [hl, received_RegWrite_append, received_RegWrite_append]

theorem bor_16_32 : bor 16 32 = 48 := by decide

theorem RefreshChannel_received (e : Env) (g : Globals) (st : Chan) (latch : Nat)
    (hs : st.Subindex ≤ 8) (hns : band g.g_iPercMode 0x20 = 0 ∨ st.Subindex < 6) :
    received latch (RefreshChannel e g st).writes
      = received latch (if st.Subindex = 8 then (RefreshChannel_percussion g).2 else []) ++
        ((if commandAtSwitch st = Command.CMD_NOTE_TRIGGER then [(0x20 + st.Subindex, 0)]
          else []) ++
        ([(0x10 + st.Subindex, u8 (band (CalculatePeriod e st) 0xFF))] ++
        ((if commandAtSwitch st ≠ Command.CMD_NOTE_HALT then
            [(0x30 + st.Subindex,
              u8 (bor (shl (patchInForce st) 4) (bxor (CalculateVolume e st) 0x0F)))]
          else []) ++
        [(0x20 + st.Subindex,
          u8 (bor (bor (band (CalculatePeriod e st >>> (8 : Nat)) 1) (shl (RefreshChannel_Bnum e st) 1))
            (keySustainBits (commandAtSwitch st) st.m_bHold)))]))) := by
  have hb := percussion_mode_bit g
  have h256 : ∀ k, k ≤ 0x30 → (k + st.Subindex) % 256 = k + st.Subindex := by
    intro k hk; exact Nat.mod_eq_of_lt (by omega)
  have h10 := h256 0x10 (by norm_num)
  have h20 := h256 0x20 (by norm_num)
  have h30 := h256 0x30 (by norm_num)
  have hz : u8 0 = 0 := by decide
  have hsup : ¬ (band g.g_iPercMode 0x20 ≠ 0 ∧ st.Subindex ≥ 6) := by
    rcases hns with h | h
    · simp [h]
    · intro h'; omega
  unfold RefreshChannel commandAtSwitch patchInForce keySustainBits
  by_cases h8 : st.Subindex = 8
  · have hm : band g.g_iPercMode 0x20 = 0 := by
      rcases hns with h | h
      · exact h
      · omega
    cases hc : st.m_iCommand <;> cases hg : st.m_bGate <;> cases hh : st.m_bHold <;>
      by_cases hp : st.m_iPatch = -1 <;>
      simp [hp, h8, hc, hg, hh, hm, hb, bor_16_32, received_append_RegWrite,
        received_RegWrite_append, received_RegWrite, hz, OPL_NOTE_ON, OPL_SUSTAIN_ON]
  · cases hc : st.m_iCommand <;> cases hg : st.m_bGate <;> cases hh : st.m_bHold <;>
      by_cases hp : st.m_iPatch = -1 <;>
      simp [hp, h8, hc, hg, hh, hsup, bor_16_32, received_RegWrite_append,
        received_RegWrite, received_nil, h10, h20, h30, hz, OPL_NOTE_ON, OPL_SUSTAIN_ON]

theorem RefreshChannel_key_bits (e : Env) (g : Globals) (st : Chan) (latch : Nat)
    (hs : st.Subindex ≤ 8) (hns : band g.g_iPercMode 0x20 = 0 ∨ st.Subindex < 6)
    (hB0 : 0 ≤ RefreshChannel_Bnum e st) (hB : RefreshChannel_Bnum e st ≤ 7) :
    ∃ pre v, received latch (RefreshChannel e g st).writes = pre ++ [(0x20 + st.Subindex, v)]
      ∧ v &&& 0x30 = (keySustainBits (commandAtSwitch st) st.m_bHold).toNat := by
  have hk : keySustainBits (commandAtSwitch st) st.m_bHold = 0
      ∨ keySustainBits (commandAtSwitch st) st.m_bHold = 0x10
      ∨ keySustainBits (commandAtSwitch st) st.m_bHold = 0x20
      ∨ keySustainBits (commandAtSwitch st) st.m_bHold = 0x30 := by
    unfold keySustainBits
    cases commandAtSwitch st <;> cases st.m_bHold <;> simp
  refine ⟨received latch (if st.Subindex = 8 then (RefreshChannel_percussion g).2 else []) ++
      ((if commandAtSwitch st = Command.CMD_NOTE_TRIGGER then [(0x20 + st.Subindex, 0)]
        else []) ++
      ([(0x10 + st.Subindex, u8 (band (CalculatePeriod e st) 0xFF))] ++
      (if commandAtSwitch st ≠ Command.CMD_NOTE_HALT then
          [(0x30 + st.Subindex,
            u8 (bor (shl (patchInForce st) 4) (bxor (CalculateVolume e st) 0x0F)))]
        else []))),
    u8 (bor (bor (band (CalculatePeriod e st >>> (8 : Nat)) 1) (shl (RefreshChannel_Bnum e st) 1))
      (keySustainBits (commandAtSwitch st) st.m_bHold)),
    ?_, (key_byte_exact _ _ _ hB0 hB hk).2⟩
  rw [RefreshChannel_received e g st latch hs hns]
  simp only [List.append_assoc]

/-- C2: a channel that `ClearRegisters` has just reset (command Halt, octave
`-1`, legacy pitch mode, percussion mode off) is refreshed. `ClearRegisters`
has written 0 to register `0x20+2`, and the command at the `switch` is Halt,
yet the final write of `RefreshChannel` to register `0x20+2` is `0xFF`, whose
key-on and sustain bits (mask `0x30`) are both set. -/
theorem C2_halted_channel_after_reset :
    received 0 (ClearRegisters exChan).2 = [(0x12, 0x00), (0x22, 0x00), (0x32, 0x0F)]
      ∧ commandAtSwitch exChanReset = Command.CMD_NOTE_HALT
      ∧ exChanReset.m_iOctave = -1
      ∧ received 0 (RefreshChannel exEnv exGlobals exChanReset).writes
          = [(0x12, 18), (0x22, 0xFF)]
      ∧ (0xFF : Nat) &&& 0x30 = 0x30 := by
  decide

theorem received_teardown (g : Globals) (latch : Nat) (hm : band g.g_iPercMode 0x20 = 0) :
    received latch (RefreshChannel_percussion g).2
      = if band g.g_iPercModePrev 0x20 ≠ 0 then teardownSequence else [] := by
  unfold RefreshChannel_percussion teardownSequence
  have h1f : u8 0x1f = 0x1F := by decide
  have hz : u8 0 = 0 := by decide
  by_cases hp : band g.g_iPercModePrev 0x20 = 0
  · simp [hm, hp, received_nil]
  · simp [hm, hp, received_RegWrite_append, received_RegWrite, h1f, hz]

/-- C3 (amended): for a channel that percussion mode does not suppress and
whose block number is in `0..7` (in legacy pitch mode: the octave),
`HandleCut` sets the command to Halt and clears the gate, and the next
`RefreshChannel` ends with a write to register `0x20+subindex` of a value
whose key-on bit (`0x10`) and sustain bit (`0x20`) are both clear; the only
other write to that register in the call, the leader's teardown write, has
value 0. -/
theorem C3_cut_then_refresh_silences (e : Env) (g : Globals) (st : Chan) (latch : Nat)
    (hs : st.Subindex ≤ 8) (hns : band g.g_iPercMode 0x20 = 0 ∨ st.Subindex < 6)
    (hB0 : 0 ≤ RefreshChannel_Bnum e st) (hB : RefreshChannel_Bnum e st ≤ 7) :
    (HandleCut st).m_iCommand = Command.CMD_NOTE_HALT
      ∧ (HandleCut st).m_bGate = false
      ∧ ∃ pre v,
          received latch (RefreshChannel e g (HandleCut st)).writes
            = pre ++ [(0x20 + st.Subindex, v)]
          ∧ v &&& 0x30 = 0
          ∧ ∀ w ∈ pre, w.1 = 0x20 + st.Subindex → w.2 = 0 := by
  refine ⟨rfl, rfl, ?_⟩
  have hsw : commandAtSwitch (HandleCut st) = Command.CMD_NOTE_HALT := rfl
  have hBn : RefreshChannel_Bnum e (HandleCut st) = RefreshChannel_Bnum e st := rfl
  have hsub : (HandleCut st).Subindex = st.Subindex := rfl
  have hP : CalculatePeriod e (HandleCut st) = CalculatePeriod e st := rfl
  have hrec := RefreshChannel_received e g (HandleCut st) latch hs hns
  rw [hsw, hBn, hsub, hP] at hrec
  simp only [ne_eq, not_true_eq_false, if_false, reduceCtorEq, List.nil_append] at hrec
  have hkey := (key_byte_exact (CalculatePeriod e st >>> (8 : Nat)) _ 0 hB0 hB (Or.inl rfl)).2
  refine ⟨received latch (if st.Subindex = 8 then (RefreshChannel_percussion g).2 else []) ++
      [(0x10 + st.Subindex, u8 (band (CalculatePeriod e st) 0xFF))],
    u8 (bor (bor (band (CalculatePeriod e st >>> (8 : Nat)) 1) (shl (RefreshChannel_Bnum e st) 1)) 0),
    ?_, ?_, ?_⟩
  · rw [hrec]
    simp [keySustainBits]
  · simpa using hkey
  · intro w hw hreg
    rw [List.mem_append] at hw
    rcases hw with hw | hw
    · by_cases h8 : st.Subindex = 8
      · have hm : band g.g_iPercMode 0x20 = 0 := by
          rcases hns with h | h
          · exact h
          · omega
        rw [if_pos h8, received_teardown g latch hm] at hw
        by_cases hp : band g.g_iPercModePrev 0x20 = 0
        · simp [hp] at hw
        · simp only [ne_eq, hp, not_false_eq_true, if_true, teardownSequence] at hw
          rw [h8] at hreg
          simp only [List.mem_cons, List.mem_singleton, List.not_mem_nil, or_false] at hw
          rcases hw with rfl | rfl | rfl | rfl | rfl | rfl | rfl <;> simp_all
      · simp [h8, received_nil] at hw
    · simp only [List.mem_singleton] at hw
      rw [hw] at hreg
      simp at hreg

/-- C3 at a concrete channel: subindex 2, octave 4, percussion mode off. -/
theorem C3_cut_then_refresh_silences_witness :
    (HandleCut exChan).m_iCommand = Command.CMD_NOTE_HALT
      ∧ (HandleCut exChan).m_bGate = false
      ∧ ∃ pre v,
          received 0 (RefreshChannel exEnv exGlobals (HandleCut exChan)).writes
            = pre ++ [(0x20 + exChan.Subindex, v)]
          ∧ v &&& 0x30 = 0
          ∧ ∀ w ∈ pre, w.1 = 0x20 + exChan.Subindex → w.2 = 0 :=
  C3_cut_then_refresh_silences exEnv exGlobals exChan 0 (by decide) (by decide) (by decide)
    (by decide)

/-- C3 as stated fails at two inputs. With percussion mode on, a cut channel
of subindex 6 makes no register write at all in the next `RefreshChannel`, so
register `0x26` receives nothing. With percussion mode off, a cut channel
whose octave is the reset value `-1` writes `0xFF` to register `0x22`: key-on
bit and sustain bit are both set. -/
theorem C3_counterexample :
    received 0 (RefreshChannel exEnv exGlobalsPerc (HandleCut exChan6)).writes = []
      ∧ (HandleCut exChanReset).m_iOctave = -1
      ∧ received 0 (RefreshChannel exEnv exGlobals (HandleCut exChanReset)).writes
          = [(0x12, 18), (0x22, 0xFF)]
      ∧ (0xFF : Nat) &&& 0x10 = 0x10 ∧ (0xFF : Nat) &&& 0x20 = 0x20 := by
  decide

theorem CorrectOctave_command (st : Chan) : (CorrectOctave st).m_iCommand = st.m_iCommand := by
  unfold CorrectOctave
  simp only
  split_ifs <;> rfl

theorem RunNote_command (e : Env) (g : Globals) (st : Chan) (N : Int) :
    (RunNote e g st N).2.m_iCommand
      = if st.m_iCommand ≠ Command.CMD_NOTE_TRIGGER ∧ st.m_iCommand ≠ Command.CMD_NOTE_HALT
        then Command.CMD_NOTE_ON else st.m_iCommand := by
  unfold RunNote TriggerNote
  simp only [CorrectOctave_command]
  split_ifs <;> rfl

theorem CorrectOctave_portaSpeed (st : Chan) :
    (CorrectOctave st).m_iPortaSpeed = st.m_iPortaSpeed := by
  unfold CorrectOctave
  simp only
  split_ifs <;> rfl

theorem CorrectOctave_effect (st : Chan) : (CorrectOctave st).m_iEffect = st.m_iEffect := by
  unfold CorrectOctave
  simp only
  split_ifs <;> rfl

theorem RunNote_portaSpeed (e : Env) (g : Globals) (st : Chan) (N : Int) :
    (RunNote e g st N).2.m_iPortaSpeed = st.m_iPortaSpeed := by
  unfold RunNote TriggerNote
  simp only [CorrectOctave_portaSpeed]
  split_ifs <;> rfl

theorem RunNote_effect (e : Env) (g : Globals) (st : Chan) (N : Int) :
    (RunNote e g st N).2.m_iEffect = st.m_iEffect := by
  unfold RunNote TriggerNote
  simp only [CorrectOctave_effect]
  split_ifs <;> rfl

theorem PlayNote_command (e : Env) (g : Globals) (st : Chan) (N : Int) :
    (PlayNote e g st N).2.m_iCommand
      = if st.m_iPortaSpeed > 0 ∧ st.m_iEffect = effect_t.PORTAMENTO
            ∧ st.m_iCommand ≠ Command.CMD_NOTE_HALT
            ∧ st.m_iCommand ≠ Command.CMD_NOTE_TRIGGER
        then Command.CMD_NOTE_ON else Command.CMD_NOTE_TRIGGER := by
  have hc := RunNote_command e g st N
  have hp := RunNote_portaSpeed e g st N
  have he := RunNote_effect e g st N
  unfold PlayNote HandleNote
  simp only [CorrectOctave_command, hp, he, hc]
  cases st.m_iCommand <;> by_cases h1 : st.m_iPortaSpeed > 0 <;>
    by_cases h2 : st.m_iEffect = effect_t.PORTAMENTO <;> simp [h1, h2, CorrectOctave_command, hc]

/-- C4: a released channel with an active portamento effect is given a note:
`TriggerNote` turns the command from Release into On, after which the
decision of `HandleNote` finds neither Halt nor Release and leaves it; the
command has gone from Release to On without ever being Trigger. -/
theorem C4_release_to_on_without_trigger :
    exChanReleased.m_iCommand = Command.CMD_NOTE_RELEASE
      ∧ (TriggerNote exEnv exGlobals exChanReleased 57).2.1.m_iCommand = Command.CMD_NOTE_ON
      ∧ (RunNote exEnv exGlobals exChanReleased 57).2.m_iCommand = Command.CMD_NOTE_ON
      ∧ (PlayNote exEnv exGlobals exChanReleased 57).2.m_iCommand = Command.CMD_NOTE_ON := by
  decide

theorem shl_shr_bounds (p : Int) (d : Nat) :
    p - 2 ^ d < shl (p >>> d) d ∧ shl (p >>> d) d ≤ p := by
  unfold shl
  rw [Int.shiftRight_eq_div_pow]
  have hpos : (0 : Int) < 2 ^ d := by positivity
  have h1 := Int.ediv_mul_le p (ne_of_gt hpos)
  have h2 := Int.lt_ediv_add_one_mul_self p hpos
  push_cast
  constructor
  · linarith
  · exact h1

theorem CorrectOctave_of_same_octave (st : Chan) (h : st.m_iOctave = st.m_iOldOctave) :
    CorrectOctave st = st := by
  unfold CorrectOctave
  cases st
  simp only at h
  subst h
  simp

theorem RunNote_glide (e : Env) (g : Globals) (st : Chan) (N : Int)
    (hlin : st.m_bLinearPitch = false) (hspeed : st.m_iPortaSpeed > 0)
    (heff : st.m_iEffect = effect_t.PORTAMENTO) (hgate : st.m_bGate = true)
    (hp : st.m_iPeriod ≠ 0) (hold : st.m_iOldOctave ≠ -1) :
    (RunNote e g st N).2.m_bLinearPitch = false
      ∧ (RunNote e g st N).2.m_bGate = true
      ∧ (RunNote e g st N).2.m_iPeriod
          = (if Int.tdiv N e.NOTE_RANGE > st.m_iOldOctave
             then st.m_iPeriod >>> (Int.tdiv N e.NOTE_RANGE - st.m_iOldOctave).toNat
             else st.m_iPeriod)
      ∧ (RunNote e g st N).2.m_iOctave
          = (if Int.tdiv N e.NOTE_RANGE < st.m_iOldOctave then st.m_iOldOctave
             else Int.tdiv N e.NOTE_RANGE)
      ∧ (RunNote e g st N).2.m_iOldOctave
          = (if Int.tdiv N e.NOTE_RANGE > st.m_iOldOctave then Int.tdiv N e.NOTE_RANGE
             else st.m_iOldOctave) := by
  rcases lt_trichotomy (Int.tdiv N e.NOTE_RANGE) st.m_iOldOctave with h | h | h
  · have h' : ¬ st.m_iOldOctave < Int.tdiv N e.NOTE_RANGE := not_lt.mpr (le_of_lt h)
    cases hc : st.m_iCommand <;>
      simp [RunNote, TriggerNote, CorrectOctave, hlin, hspeed, heff, hgate, hp, hold, hc, h, h']
  · cases hc : st.m_iCommand <;>
      simp [RunNote, TriggerNote, CorrectOctave, hlin, hspeed, heff, hgate, hp, hold, hc, h]
  · have h' : ¬ Int.tdiv N e.NOTE_RANGE < st.m_iOldOctave := not_lt.mpr (le_of_lt h)
    cases hc : st.m_iCommand <;>
      simp [RunNote, TriggerNote, CorrectOctave, hlin, hspeed, heff, hgate, hp, hold, hc, h, h']

theorem GlideNote_glide (e : Env) (g : Globals) (st : Chan) (N : Int)
    (hlin : st.m_bLinearPitch = false) (hspeed : st.m_iPortaSpeed > 0)
    (heff : st.m_iEffect = effect_t.PORTAMENTO) (hgate : st.m_bGate = true)
    (hp : st.m_iPeriod ≠ 0) (hold : st.m_iOldOctave ≠ -1) :
    (GlideNote e g st N).2 = (RunNote e g st N).2 := by
  obtain ⟨-, -, -, ho, hd⟩ := RunNote_glide e g st N hlin hspeed heff hgate hp hold
  unfold GlideNote
  apply CorrectOctave_of_same_octave
  rw [ho, hd]
  split_ifs <;> omega

/-- C5 (amended): in legacy pitch mode with a portamento active and the gate
held, a channel sitting in octave `O1` glides to a note of octave `O2` and at
once back to a note of octave `O1` (`RunNote` followed by `CorrectOctave`
each time), the period surviving the shift. For `O2 ≤ O1` the channel is back
in octave `O1` with its period unchanged. For `O2 > O1` the channel stays in
octave `O2` and its period is the original one shifted right by `O2 - O1`:
shifted back left it is the original period up to the bits that were lost. -/
theorem C5_glide_there_and_back (e : Env) (g : Globals) (st : Chan) (N1 N2 : Int)
    (hlin : st.m_bLinearPitch = false) (hspeed : st.m_iPortaSpeed > 0)
    (heff : st.m_iEffect = effect_t.PORTAMENTO) (hgate : st.m_bGate = true)
    (hsit : st.m_iOldOctave = st.m_iOctave) (hO1 : 0 ≤ st.m_iOctave)
    (hN1 : Int.tdiv N1 e.NOTE_RANGE = st.m_iOctave)
    (hsurv : st.m_iPeriod >>> (Int.tdiv N2 e.NOTE_RANGE - st.m_iOctave).toNat ≠ 0) :
    (Int.tdiv N2 e.NOTE_RANGE ≤ st.m_iOctave →
        (GlideThereAndBack e g st N2 N1).m_iPeriod = st.m_iPeriod
          ∧ (GlideThereAndBack e g st N2 N1).m_iOctave = st.m_iOctave)
      ∧ (st.m_iOctave < Int.tdiv N2 e.NOTE_RANGE →
        (GlideThereAndBack e g st N2 N1).m_iPeriod
            = st.m_iPeriod >>> (Int.tdiv N2 e.NOTE_RANGE - st.m_iOctave).toNat
          ∧ (GlideThereAndBack e g st N2 N1).m_iOctave = Int.tdiv N2 e.NOTE_RANGE
          ∧ st.m_iPeriod - 2 ^ (Int.tdiv N2 e.NOTE_RANGE - st.m_iOctave).toNat
              < shl (GlideThereAndBack e g st N2 N1).m_iPeriod
                  (Int.tdiv N2 e.NOTE_RANGE - st.m_iOctave).toNat
          ∧ shl (GlideThereAndBack e g st N2 N1).m_iPeriod
                (Int.tdiv N2 e.NOTE_RANGE - st.m_iOctave).toNat ≤ st.m_iPeriod) := by
  have hp : st.m_iPeriod ≠ 0 := by
    intro h0
    rw [h0] at hsurv
    simp at hsurv
  have hold : st.m_iOldOctave ≠ -1 := by omega
  obtain ⟨hl1, hg1, hper1, hoct1, hold1⟩ :=
    RunNote_glide e g st N2 hlin hspeed heff hgate hp hold
  have hs1 := RunNote_portaSpeed e g st N2
  have he1 := RunNote_effect e g st N2
  have ha : (GlideNote e g st N2).2 = (RunNote e g st N2).2 :=
    GlideNote_glide e g st N2 hlin hspeed heff hgate hp hold
  rw [hsit] at hper1 hoct1 hold1
  have hp1 : (RunNote e g st N2).2.m_iPeriod ≠ 0 := by
    rw [hper1]
    split_ifs with h
    · exact hsurv
    · exact hp
  have hold1' : (RunNote e g st N2).2.m_iOldOctave ≠ -1 := by
    rw [hold1]
    split_ifs <;> omega
  obtain ⟨-, -, hper2, hoct2, -⟩ :=
    RunNote_glide e (GlideNote e g st N2).1 (RunNote e g st N2).2 N1 hl1
      (by rw [hs1]; exact hspeed) (by rw [he1]; exact heff) hg1 hp1 hold1'
  have hb : GlideThereAndBack e g st N2 N1
      = (RunNote e (GlideNote e g st N2).1 (RunNote e g st N2).2 N1).2 := by
    unfold GlideThereAndBack
    simp only [ha]
    exact GlideNote_glide e _ _ N1 hl1 (by rw [hs1]; exact hspeed) (by rw [he1]; exact heff)
      hg1 hp1 hold1'
  rw [hb, hper2, hoct2, hN1, hold1, hper1]
  constructor
  · intro hle
    have h1 : ¬ Int.tdiv N2 e.NOTE_RANGE > st.m_iOctave := by omega
    simp [h1]
  · intro hlt
    have h1 : Int.tdiv N2 e.NOTE_RANGE > st.m_iOctave := hlt
    have h2 : ¬ st.m_iOctave > Int.tdiv N2 e.NOTE_RANGE := by omega
    have hb := shl_shr_bounds st.m_iPeriod (Int.tdiv N2 e.NOTE_RANGE - st.m_iOctave).toNat
    simp only [h1, h2, if_true, if_false]
    exact ⟨trivial, trivial, hb.1, hb.2⟩

/-- C5 at a concrete channel: octave 3, period 1025, a glide to a note of
octave 4 (note 57) and back to a note of octave 3 (note 45). -/
theorem C5_glide_there_and_back_witness :
    (GlideThereAndBack exEnv exGlobals { exChanGlide with m_iPeriod := 1025 } 57 45).m_iPeriod
        = 512
      ∧ (GlideThereAndBack exEnv exGlobals { exChanGlide with m_iPeriod := 1025 } 57 45).m_iOctave
        = 4 := by
  have h := (C5_glide_there_and_back exEnv exGlobals { exChanGlide with m_iPeriod := 1025 } 45 57
    rfl (by decide) rfl rfl rfl (by decide) (by decide) (by decide)).2 (by decide)
  exact ⟨h.1.trans (by decide), h.2.1.trans (by decide)⟩

/-- C5 as stated fails: a channel in octave 3 with period 1024 glides to a note
of octave 4 and back to a note of octave 3; no bit is lost by the shift
(`1024 >> 1 << 1 = 1024`), yet the period is then 512 and the channel is in
octave 4, not back at period 1024. -/
theorem C5_counterexample :
    exChanGlide.m_iPeriod = 1024 ∧ exChanGlide.m_iOctave = 3
      ∧ exChanGlide.m_iOldOctave = 3
      ∧ Int.tdiv 57 exEnv.NOTE_RANGE = 4 ∧ Int.tdiv 45 exEnv.NOTE_RANGE = 3
      ∧ shl ((1024 : Int) >>> (1 : Nat)) 1 = 1024
      ∧ (GlideThereAndBack exEnv exGlobals exChanGlide 57 45).m_iPeriod = 512
      ∧ (GlideThereAndBack exEnv exGlobals exChanGlide 57 45).m_iOctave = 4 := by
  decide

theorem RefreshChannel_globals_of_not_leader (e : Env) (g : Globals) (st : Chan)
    (h8 : st.Subindex ≠ 8) : (RefreshChannel e g st).globals = g := by
  unfold RefreshChannel
  simp only [h8, if_false]
  split_ifs <;> rfl

theorem RefreshChannel_suppressed (e : Env) (g : Globals) (st : Chan)
    (hmode : band g.g_iPercMode 0x20 ≠ 0) (h6 : 6 ≤ st.Subindex) :
    (RefreshChannel e g st).writes
      = (if st.Subindex = 8 then (RefreshChannel_percussion g).2 else []) := by
  have hb := percussion_mode_bit g
  unfold RefreshChannel
  by_cases h8 : st.Subindex = 8
  · have hm : band (RefreshChannel_percussion g).1.g_iPercMode 0x20 ≠ 0 := by
      rw [hb]; exact hmode
    by_cases hp : st.m_iPatch = -1 <;> cases hg : st.m_bGate <;> simp [h8, hm, hp, hg]
  · have h6' : 6 ≤ st.Subindex := h6
    by_cases hp : st.m_iPatch = -1 <;> cases hg : st.m_bGate <;>
      simp [h8, hmode, hp, hg, h6']

theorem received_priming (g : Globals) (latch : Nat) (hmode : band g.g_iPercMode 0x20 ≠ 0) :
    received latch (RefreshChannel_percussion g).2 = primingSequence g := by
  unfold RefreshChannel_percussion primingSequence
  simp [hmode, received_RegWrite_append, received_RegWrite]
  decide

theorem not_leader_avoids_percussion (e : Env) (g : Globals) (st : Chan) (latch : Nat)
    (hmode : band g.g_iPercMode 0x20 ≠ 0) (h7 : st.Subindex ≤ 7) :
    ∀ w ∈ received latch (RefreshChannel e g st).writes, w.1 ∉ percussionRegisters := by
  have h8 : st.Subindex ≠ 8 := by omega
  by_cases h6 : 6 ≤ st.Subindex
  · rw [RefreshChannel_suppressed e g st hmode h6]
    simp [h8, received_nil]
  · have hlt : st.Subindex < 6 := by omega
    rw [RefreshChannel_received e g st latch (by omega) (Or.inr hlt)]
    intro w hw
    simp only [h8, if_false, received_nil, List.nil_append, List.mem_append, List.mem_ite_nil_right,
      List.mem_singleton] at hw
    unfold percussionRegisters
    rcases hw with hw | hw | hw | hw
    · rw [hw.2]; simp; omega
    · rw [hw]; simp; omega
    · rw [hw.2]; simp; omega
    · rw [hw]; simp; omega

theorem RefreshChannels_not_leaders (cs rest : List (Env × Chan)) (g : Globals)
    (hcs : ∀ c ∈ cs, c.2.Subindex ≠ 8) :
    RefreshChannels g (cs ++ rest) = RefreshChannels g cs ++ RefreshChannels g rest := by
  induction cs with
  | nil => rfl
  | cons c cs ih =>
    have hc : c.2.Subindex ≠ 8 := hcs c (List.mem_cons_self _ _)
    have hg := RefreshChannel_globals_of_not_leader c.1 g c.2 hc
    show RefreshChannel c.1 g c.2 :: RefreshChannels (RefreshChannel c.1 g c.2).globals (cs ++ rest)
      = (RefreshChannel c.1 g c.2 :: RefreshChannels (RefreshChannel c.1 g c.2).globals cs)
        ++ RefreshChannels g rest
    rw [hg, ih (fun c' hc' => hcs c' (List.mem_cons_of_mem _ hc'))]
    rfl

theorem RefreshChannels_length (cs : List (Env × Chan)) (g : Globals) :
    (RefreshChannels g cs).length = cs.length := by
  induction cs generalizing g with
  | nil => rfl
  | cons c cs ih => simp [RefreshChannels, ih]

theorem RefreshChannels_avoid_percussion (cs : List (Env × Chan)) (g : Globals) (latch : Nat)
    (hmode : band g.g_iPercMode 0x20 ≠ 0) (hcs : ∀ c ∈ cs, c.2.Subindex ≤ 7) :
    ∀ r ∈ RefreshChannels g cs, ∀ w ∈ received latch r.writes, w.1 ∉ percussionRegisters := by
  induction cs with
  | nil => intro r hr; simp [RefreshChannels] at hr
  | cons c cs ih =>
    have hc : c.2.Subindex ≤ 7 := hcs c (List.mem_cons_self _ _)
    have hg := RefreshChannel_globals_of_not_leader c.1 g c.2 (by omega)
    intro r hr
    simp only [RefreshChannels, hg, List.mem_cons] at hr
    rcases hr with rfl | hr
    · exact not_leader_avoids_percussion c.1 g c.2 latch hmode hc
    · exact ih (fun c' hc' => hcs c' (List.mem_cons_of_mem _ hc')) r hr

theorem RefreshChannel_globals (e : Env) (g : Globals) (st : Chan) :
    (RefreshChannel e g st).globals
      = if st.Subindex = 8 then (RefreshChannel_percussion g).1 else g := by
  unfold RefreshChannel
  by_cases h8 : st.Subindex = 8 <;> by_cases hp : st.m_iPatch = -1 <;>
    cases hg : st.m_bGate <;> simp [h8, hp, hg] <;> split_ifs <;> rfl

theorem RefreshChannel_leader_keeps_mode (e : Env) (g : Globals) (st : Chan) :
    band (RefreshChannel e g st).globals.g_iPercMode 0x20 = band g.g_iPercMode 0x20 := by
  rw [RefreshChannel_globals]
  split_ifs
  · exact percussion_mode_bit g
  · rfl

/-- C6: percussion mode bit `0x20` is enabled and the channels of a chip are
refreshed once, the leader (subindex 8) anywhere among channels of subindex
`0..7`. The leader's writes are exactly the priming sequence: 0 to `0x26`,
`0x27`, `0x28`, then `0x20`, `0x50`, `0xC0` to `0x16`, `0x17`, `0x18`, then
`0x05`, `0x05`, `0x01` to `0x26`, `0x27`, `0x28`, then the mode byte to
`0x0E`, then the three percussion volumes to `0x36`, `0x37`, `0x38`. No other
channel writes to any register of that sequence. -/
theorem C6_priming_once_from_leader (g : Globals) (before after : List (Env × Chan))
    (leader : Env × Chan) (latch : Nat)
    (hmode : band g.g_iPercMode 0x20 ≠ 0)
    (hbefore : ∀ c ∈ before, c.2.Subindex ≤ 7) (hafter : ∀ c ∈ after, c.2.Subindex ≤ 7)
    (hleader : leader.2.Subindex = 8) :
    ∃ rb rl ra,
      RefreshChannels g (before ++ leader :: after) = rb ++ rl :: ra
        ∧ rb.length = before.length ∧ ra.length = after.length
        ∧ received latch rl.writes = primingSequence g
        ∧ (∀ r ∈ rb ++ ra, ∀ w ∈ received latch r.writes, w.1 ∉ percussionRegisters)
        ∧ (∀ w ∈ primingSequence g, w.1 ∈ percussionRegisters) := by
  refine ⟨RefreshChannels g before, RefreshChannel leader.1 g leader.2,
    RefreshChannels (RefreshChannel leader.1 g leader.2).globals after, ?_, ?_, ?_, ?_, ?_, ?_⟩
  · rw [RefreshChannels_not_leaders before (leader :: after) g
      (fun c hc => by have := hbefore c hc; omega)]
    rfl
  · exact RefreshChannels_length _ _
  · exact RefreshChannels_length _ _
  · rw [RefreshChannel_suppressed leader.1 g leader.2 hmode (by omega), if_pos hleader]
    exact received_priming g latch hmode
  · intro r hr
    rw [List.mem_append] at hr
    rcases hr with hr | hr
    · exact RefreshChannels_avoid_percussion before g latch hmode hbefore r hr
    · have hm : band (RefreshChannel leader.1 g leader.2).globals.g_iPercMode 0x20 ≠ 0 := by
        rw [RefreshChannel_leader_keeps_mode]; exact hmode
      exact RefreshChannels_avoid_percussion after _ latch hm hafter r hr
  · intro w hw
    unfold primingSequence at hw
    unfold percussionRegisters
    simp only [List.mem_cons, List.mem_singleton, List.not_mem_nil, or_false] at hw
    rcases hw with rfl | rfl | rfl | rfl | rfl | rfl | rfl | rfl | rfl | rfl | rfl | rfl | rfl <;>
      simp

/-- C6 at a concrete chip: eight channels of subindex `0..7` followed by the
leader, percussion mode on. -/
theorem C6_priming_once_from_leader_witness :
    ∃ rb rl ra,
      RefreshChannels exGlobalsPerc (exEightChannels ++ exLeader :: []) = rb ++ rl :: ra
        ∧ rb.length = exEightChannels.length ∧ ra.length = ([] : List (Env × Chan)).length
        ∧ received 0 rl.writes = primingSequence exGlobalsPerc
        ∧ (∀ r ∈ rb ++ ra, ∀ w ∈ received 0 r.writes, w.1 ∉ percussionRegisters)
        ∧ (∀ w ∈ primingSequence exGlobalsPerc, w.1 ∈ percussionRegisters) :=
  C6_priming_once_from_leader exGlobalsPerc exEightChannels [] exLeader 0 (by decide)
    (by decide) (by simp) (by decide)

theorem percussion_prev (g : Globals) :
    (RefreshChannel_percussion g).1.g_iPercModePrev = (RefreshChannel_percussion g).1.g_iPercMode := by
  unfold RefreshChannel_percussion
  split <;> rfl

theorem bits32_ofNat (a : Nat) (h : a < 4294967296) : bits32 (a : Int) = a := by
  unfold bits32
  omega

theorem band_ofNat (a b : Nat) (ha : a < 2147483648) (hb : b < 4294967296) :
    band (a : Int) (b : Int) = ((a &&& b : Nat) : Int) := by
  unfold band
  rw [bits32_ofNat a (by omega), bits32_ofNat b hb]
  have h1 : a &&& b ≤ a := Nat.and_le_left
  exact ofBits32_small _ (by omega)

theorem bor_ofNat (a b : Nat) (ha : a < 2147483648) (hb : b < 2147483648) :
    bor (a : Int) (b : Int) = ((a ||| b : Nat) : Int) := by
  unfold bor
  rw [bits32_ofNat a (by omega), bits32_ofNat b (by omega)]
  have h1 : a ||| b < 2 ^ 31 := Nat.or_lt_two_pow (by norm_num; exact ha) (by norm_num; exact hb)
  exact ofBits32_small _ (by norm_num at h1; exact h1)

theorem nibble_fields (h : Nat) (hh : h < 16) :
    band (shl (h : Int) 8) 0x100 = ((256 * (h % 2) : Nat) : Int)
      ∧ (h : Int) >>> (1 : Nat) = ((h / 2 : Nat) : Int) := by
  interval_cases h <;> decide

theorem GetFreq_fields (lo hi : Nat) (hlo : lo < 256) (hhi : hi < 256) :
    bor (lo : Int) (band (shl (band (hi : Int) 0x0F) 8) 0x100)
        = ((lo + 256 * (hi % 2) : Nat) : Int)
      ∧ (band (hi : Int) 0x0F) >>> (1 : Nat) = ((hi / 2 % 8 : Nat) : Int) := by
  have hH : band (hi : Int) 0x0F = ((hi % 16 : Nat) : Int) := by
    have h15 : (0x0F : Int) = ((15 : Nat) : Int) := rfl
    rw [h15, band_ofNat hi 15 (by omega) (by omega)]
    have := Nat.and_pow_two_sub_one_eq_mod hi 4
    norm_num at this
    rw [this]
  have hlt : hi % 16 < 16 := Nat.mod_lt _ (by norm_num)
  obtain ⟨hb, hs⟩ := nibble_fields (hi % 16) hlt
  rw [hH, hb, hs]
  have e1 : hi % 16 % 2 = hi % 2 := by omega
  have e2 : hi % 16 / 2 = hi / 2 % 8 := by omega
  rw [e1, e2]
  refine ⟨?_, rfl⟩
  have hlt2 : hi % 2 < 2 := Nat.mod_lt _ (by norm_num)
  rw [bor_ofNat lo (256 * (hi % 2)) (by omega) (by omega)]
  have hor := Nat.mul_add_lt_is_or (show lo < 2 ^ 8 by norm_num; exact hlo) (hi % 2)
  norm_num at hor
  rw [Nat.or_comm, ← hor, Nat.add_comm]

theorem bor_channel (c : Int) (h0 : 0 ≤ c) (h9 : c < 9) :
    (bor c 0x10).toNat = 0x10 + c.toNat ∧ (bor c 0x20).toNat = 0x20 + c.toNat := by
  interval_cases c <;> decide

theorem GetFreq_in_range (GetValue : Nat → Nat) (Channel : Int) (h0 : 0 ≤ Channel)
    (h9 : Channel < 9) :
    CVRC7.GetFreq GetValue Channel
      = (49716 : ℚ)
          * ((GetValue (0x10 + Channel.toNat) % 256
              + 256 * (GetValue (0x20 + Channel.toNat) % 2) : Nat) : ℚ)
          / (2 : ℚ) ^ (19 - GetValue (0x20 + Channel.toNat) / 2 % 8) := by
  obtain ⟨hc1, hc2⟩ := bor_channel Channel h0 h9
  have hr : ¬ (Channel < 0 ∨ Channel ≥ 9) := by omega
  unfold CVRC7.GetFreq
  rw [if_neg hr]
  simp only [hc1, hc2]
  obtain ⟨hf1, hf2⟩ := GetFreq_fields (GetValue (0x10 + Channel.toNat) % 256)
    (GetValue (0x20 + Channel.toNat) % 256) (Nat.mod_lt _ (by norm_num))
    (Nat.mod_lt _ (by norm_num))
  rw [hf1, hf2]
  have e1 : GetValue (0x20 + Channel.toNat) % 256 % 2 = GetValue (0x20 + Channel.toNat) % 2 := by
    omega
  have e2 : GetValue (0x20 + Channel.toNat) % 256 / 2 % 8
      = GetValue (0x20 + Channel.toNat) / 2 % 8 := by omega
  rw [e1, e2]
  have e3 : (19 - ((GetValue (0x20 + Channel.toNat) / 2 % 8 : Nat) : Int)).toNat
      = 19 - GetValue (0x20 + Channel.toNat) / 2 % 8 := by omega
  rw [e3]
  unfold shl
  simp only [Int.cast_natCast, Int.cast_mul, Int.cast_one, Int.cast_pow, Int.cast_ofNat, one_mul]

/-- C8: `CVRC7::GetFreq(c)` is 0 for `c < 0` or `c >= 9`, and otherwise
`49716 * Fnum / 2^(19 - block)`, where `Fnum` is the logged byte of register
`0x10+c` plus 256 times bit 0 of the logged value of register `0x20+c`, and
`block` is bits 1..3 of the logged value of register `0x20+c`. Bits 4..7 of
register `0x20+c`, among them key (`0x10`) and sustain (`0x20`), do not
change the result. -/
theorem C8_GetFreq_formula (GetValue : Nat → Nat) (Channel : Int) :
    CVRC7.GetFreq GetValue Channel
        = (if Channel < 0 ∨ Channel ≥ 9 then 0
           else (49716 : ℚ)
              * ((GetValue (0x10 + Channel.toNat) % 256
                  + 256 * (GetValue (0x20 + Channel.toNat) % 2) : Nat) : ℚ)
              / (2 : ℚ) ^ (19 - GetValue (0x20 + Channel.toNat) / 2 % 8))
      ∧ ∀ k : Nat,
          CVRC7.GetFreq
              (Function.update GetValue (0x20 + Channel.toNat)
                (GetValue (0x20 + Channel.toNat) % 16 + 16 * k)) Channel
            = CVRC7.GetFreq GetValue Channel := by
  by_cases hr : Channel < 0 ∨ Channel ≥ 9
  · constructor
    · rw [if_pos hr]
      unfold CVRC7.GetFreq
      rw [if_pos hr]
    · intro k
      unfold CVRC7.GetFreq
      rw [if_pos hr, if_pos hr]
  · have h0 : 0 ≤ Channel := by omega
    have h9 : Channel < 9 := by omega
    constructor
    · rw [if_neg hr]
      exact GetFreq_in_range GetValue Channel h0 h9
    · intro k
      rw [GetFreq_in_range _ Channel h0 h9, GetFreq_in_range GetValue Channel h0 h9]
      have hne : 0x10 + Channel.toNat ≠ 0x20 + Channel.toNat := by omega
      rw [Function.update_same, Function.update_noteq hne]
      have e1 : (GetValue (0x20 + Channel.toNat) % 16 + 16 * k) % 2
          = GetValue (0x20 + Channel.toNat) % 2 := by omega
      have e2 : (GetValue (0x20 + Channel.toNat) % 16 + 16 * k) / 2 % 8
          = GetValue (0x20 + Channel.toNat) / 2 % 8 := by omega
      rw [e1, e2]

theorem clipRaw_eq (r : Int) : EndFrame_clipRaw r = max (-3200) (min r 3600) := by
  unfold EndFrame_clipRaw
  simp only
  split_ifs <;> omega

theorem clipSample_eq (x : Int) : EndFrame_clipSample x = max (-32768) (min x 32767) := by
  unfold EndFrame_clipSample
  simp only
  split_ifs <;> omega

theorem RefreshChannel_command_after (e : Env) (g : Globals) (st : Chan) :
    (RefreshChannel e g st).chan.m_iCommand
      = if (band (RefreshChannel e g st).globals.g_iPercMode 0x20 ≠ 0 ∧ st.Subindex ≥ 6) then
          commandAtSwitch st
        else if commandAtSwitch st = Command.CMD_NOTE_TRIGGER then Command.CMD_NOTE_ON
        else commandAtSwitch st := by
  rw [RefreshChannel_globals]
  unfold RefreshChannel commandAtSwitch
  by_cases hp : st.m_iPatch = -1 <;> cases hg : st.m_bGate <;> cases hc : st.m_iCommand <;>
    simp [hp, hg, hc] <;> split_ifs <;> simp_all

theorem truncate_intCast (r : Int) : truncate (r : ℚ) = r := by
  unfold truncate
  simp

theorem EndFrame_sample_exact (r : Int) (h0 : -3200 ≤ r) (h1 : r ≤ 3600) :
    EndFrame_sample exFloat 1 r = r := by
  unfold EndFrame_sample EndFrame_applyVolume exFloat
  rw [clipRaw_eq, clipSample_eq]
  have h : max (-3200) (min r 3600) = r := by omega
  rw [h, mul_one, truncate_intCast]
  omega

theorem exFrameA1_eval : exFrameA1.stored = [50] ∧ exFrameA1.LastSample = 100
    ∧ exFrameA1.chip.m_iBufferPtr = 0 ∧ exFrameA1.chip.m_fVolume = 1 := by
  simp [exFrameA1, CVRC7.EndFrame, exChipA, EndFrame_loop, EndFrame_sample_exact]
  decide

theorem exFrameB_eval : exFrameB.stored = [1550] ∧ exFrameB.LastSample = 3000 := by
  have h := exFrameA1_eval
  simp [exFrameB, CVRC7.EndFrame, exChipB, exChipA, EndFrame_loop, EndFrame_sample_exact, h.2.1]
  decide

/-- C11: two `CVRC7` instances A and B with chip volume 1 and the same raw
sample 100 in every frame of A. When A ends two frames in a row, its second
frame stores 100. When B ends a frame (raw sample 3000) between the two
frames of A, the second frame of A stores 1550: the filter memory
`LastSample` that A reads is the sample B left there. -/
theorem C11_filter_memory_shared_between_instances :
    exFrameA1.stored = [50]
      ∧ exFrameA2.stored = [100]
      ∧ exFrameB.LastSample = 3000
      ∧ exFrameA2afterB.stored = [1550] := by
  obtain ⟨h1, h2, h3, h4⟩ := exFrameA1_eval
  obtain ⟨hb1, hb2⟩ := exFrameB_eval
  refine ⟨h1, ?_, hb2, ?_⟩
  · simp [exFrameA2, CVRC7.EndFrame, EndFrame_loop, EndFrame_sample_exact, h2, h3, h4]
    decide
  · simp [exFrameA2afterB, CVRC7.EndFrame, EndFrame_loop, EndFrame_sample_exact, hb2, h3, h4]
    decide

theorem WriteAll_spec (ws : List PortWrite) (c : CVRC7) :
    (CVRC7.WriteAll c ws).m_iSoundReg = lastLatched c.m_iSoundReg ws
      ∧ (CVRC7.WriteAll c ws).OPLL_writeReg = c.OPLL_writeReg ++ committed c.m_iSoundReg ws
      ∧ (CVRC7.WriteAll c ws).VGMLogOPLLWrite
          = c.VGMLogOPLLWrite ++ committed c.m_iSoundReg ws := by
  induction ws generalizing c with
  | nil => simp [CVRC7.WriteAll, lastLatched, committed]
  | cons w ws ih =>
    rw [WriteAll_cons]
    obtain ⟨h1, h2, h3⟩ := ih (c.Write w.1 w.2)
    rw [h1, h2, h3]
    unfold CVRC7.Write
    by_cases ha : w.1 = 0x9010
    · simp [ha, lastLatched, committed]
    · by_cases hb : w.1 = 0x9030
      · simp [hb, lastLatched, committed]
      · simp [ha, hb, lastLatched, committed]

/-- C12: a `CVRC7::Write` to the data port `0x9030` appends the pair (latched
register number, value) to the writes of the synthesis core and to the
write log and leaves the latch; a write to the index port `0x9010` only
replaces the latch; a write to any other address changes nothing. Over any
sequence of writes the latch is the value most recently written to `0x9010`
and the core and the log receive one pair per data write, its register the
number latched at that moment. Hence `RegWrite(r, v)` commits exactly the
pair `(r, v)` of its two byte parameters. -/
theorem C12_write_port_protocol (c : CVRC7) (ws : List PortWrite) (Address Value Reg : Nat)
    (V : Int) :
    c.Write 0x9030 Value
        = { c with OPLL_writeReg := c.OPLL_writeReg ++ [(c.m_iSoundReg, Value)],
                   VGMLogOPLLWrite := c.VGMLogOPLLWrite ++ [(c.m_iSoundReg, Value)] }
      ∧ c.Write 0x9010 Value = { c with m_iSoundReg := Value }
      ∧ (Address ≠ 0x9010 ∧ Address ≠ 0x9030 → c.Write Address Value = c)
      ∧ (CVRC7.WriteAll c ws).m_iSoundReg = lastLatched c.m_iSoundReg ws
      ∧ (CVRC7.WriteAll c ws).OPLL_writeReg = c.OPLL_writeReg ++ committed c.m_iSoundReg ws
      ∧ (CVRC7.WriteAll c ws).VGMLogOPLLWrite
          = c.VGMLogOPLLWrite ++ committed c.m_iSoundReg ws
      ∧ CVRC7.WriteAll c (RegWrite Reg V)
          = { m_iSoundReg := Reg % 256,
              OPLL_writeReg := c.OPLL_writeReg ++ [(Reg % 256, u8 V)],
              VGMLogOPLLWrite := c.VGMLogOPLLWrite ++ [(Reg % 256, u8 V)] }
      ∧ (Reg < 256 ∧ 0 ≤ V ∧ V < 256 → (Reg % 256, u8 V) = (Reg, V.toNat)) := by
  obtain ⟨h1, h2, h3⟩ := WriteAll_spec ws c
  refine ⟨?_, ?_, ?_, h1, h2, h3, ?_, ?_⟩
  · simp [CVRC7.Write]
  · simp [CVRC7.Write]
  · intro h
    simp [CVRC7.Write, h.1, h.2]
  · simp [CVRC7.WriteAll, RegWrite, CVRC7.Write]
  · intro h
    have e1 : Reg % 256 = Reg := Nat.mod_eq_of_lt h.1
    have e2 : u8 V = V.toNat := by
      unfold u8
      rw [Int.emod_eq_of_lt h.2.1 h.2.2]
    rw [e1, e2]

/-- C12 at a concrete port: register 5 latched, then a stray write, a data
write, and `RegWrite(0x22, 0x39)`. -/
theorem C12_write_port_protocol_witness :
    (CVRC7.WriteAll exPort ((0x4000, 7) :: (0x9030, 9) :: RegWrite 0x22 0x39)).OPLL_writeReg
      = [(5, 9), (0x22, 0x39)] := by
  have h := (C12_write_port_protocol exPort
    ((0x4000, 7) :: (0x9030, 9) :: RegWrite 0x22 0x39) 0x4000 7 0x22 0x39).2.2.2.2.1
  rw [h]
  decide

/-- C13: `CSoundGen::GetFrameRate` returns the counter value `n` and leaves
the counter at 0, so a second call with nothing in between returns 0; one
`IdleLoop` iteration that finds audio ready turns the counter `n` into
`n + 1` (reduced modulo `2^32`, the counter being an unsigned 32-bit
integer), and one that does not find audio ready leaves it unchanged. -/
theorem C13_frame_counter_drain (n : Nat) :
    (CSoundGen.GetFrameRate n).1 = n
      ∧ (CSoundGen.GetFrameRate n).2 = 0
      ∧ (CSoundGen.GetFrameRate (CSoundGen.GetFrameRate n).2).1 = 0
      ∧ CSoundGen.IdleLoop true n = (n + 1) % 4294967296
      ∧ (n + 1 < 4294967296 → CSoundGen.IdleLoop true n = n + 1)
      ∧ CSoundGen.IdleLoop false n = n
      ∧ (n + 1 < 4294967296 →
          (CSoundGen.GetFrameRate (CSoundGen.IdleLoop true n)).1 = n + 1) := by
  refine ⟨rfl, rfl, rfl, ?_, ?_, ?_, ?_⟩
  · simp [CSoundGen.IdleLoop]
  · intro h
    simp [CSoundGen.IdleLoop, Nat.mod_eq_of_lt h]
  · simp [CSoundGen.IdleLoop]
  · intro h
    simp [CSoundGen.IdleLoop, CSoundGen.GetFrameRate, Nat.mod_eq_of_lt h]

/-- C14 (amended): with the subindex enumerators numbering the channels from
0, every built-in chip type other than MMC5 constructs in `MakeChipHandler`
exactly `GetSupportedChannelCount()` channel handlers, one for each subindex
`0 .. count-1`, and these are the subindices `GetChannelShortName` accepts.
For MMC5 `GetSupportedChannelCount()` is 3 and `GetChannelShortName` accepts
the subindices 0, 1, 2, but `MakeChipHandler` constructs two handlers, for
the subindices 0 and 1. -/
theorem C14_handlers_per_chip (chip : sound_chip_t) (subindex : Nat) :
    (chip ≠ sound_chip_t.MMC5 →
        (MakeChipHandler channelOrder chip).map Prod.fst
          = List.range (GetSupportedChannelCount chip))
      ∧ ((∃ name, GetChannelShortName chip subindex = Except.ok name)
          ↔ subindex < GetSupportedChannelCount chip)
      ∧ (MakeChipHandler channelOrder sound_chip_t.MMC5).map Prod.fst = [0, 1]
      ∧ GetSupportedChannelCount sound_chip_t.MMC5 = 3 := by
  refine ⟨?_, ?_, by decide, rfl⟩
  · intro h
    cases chip <;> first | exact absurd rfl h | decide
  · have hlen : (channelShortNames chip).length = GetSupportedChannelCount chip := by
      cases chip <;> rfl
    unfold GetChannelShortName
    rw [← hlen]
    by_cases h : subindex < (channelShortNames chip).length
    · simp [h]
    · simp [h]

/-- C14 as stated fails for MMC5: `GetSupportedChannelCount()` is 3 and
`GetChannelShortName(2)` is the name `PCM`, but `MakeChipHandler` constructs
two channel handlers whatever the values of the enumerators, so the channel
identity of subindex 2 has no handler. -/
theorem C14_counterexample :
    GetSupportedChannelCount sound_chip_t.MMC5 = 3
      ∧ GetChannelShortName sound_chip_t.MMC5 2 = Except.ok "PCM"
      ∧ (∀ v : SubindexValues, (MakeChipHandler v sound_chip_t.MMC5).length = 2)
      ∧ (MakeChipHandler channelOrder sound_chip_t.MMC5).map Prod.fst = [0, 1] := by
  refine ⟨rfl, rfl, fun _ => rfl, by decide⟩

/-- C15: `ClearRegisters` on a channel of subindex `s` in `0..8` sends exactly
the register writes `(0x10+s, 0x00)`, `(0x20+s, 0x00)`, `(0x30+s, 0x0F)`, in
that order, and leaves the channel with command Halt, no pending patch
(`-1`), no active effect, note `-1`, current and previous octave `-1` and
custom port 0; every other field keeps its value. -/
theorem C15_ClearRegisters (st : Chan) (latch : Nat) (hs : st.Subindex ≤ 8) :
    received latch (ClearRegisters st).2
        = [(0x10 + st.Subindex, 0x00), (0x20 + st.Subindex, 0x00), (0x30 + st.Subindex, 0x0F)]
      ∧ (ClearRegisters st).1
        = { st with m_iCommand := Command.CMD_NOTE_HALT, m_iPatch := -1,
                    m_iEffect := effect_t.none, m_iNote := -1, m_iOctave := -1,
                    m_iOldOctave := -1, m_iCustomPort := 0 } := by
  have h256 : ∀ k, k ≤ 0x30 → (k + st.Subindex) % 256 = k + st.Subindex := by
    intro k hk; exact Nat.mod_eq_of_lt (by omega)
  have h10 := h256 0x10 (by norm_num)
  have h20 := h256 0x20 (by norm_num)
  have h30 := h256 0x30 (by norm_num)
  have hz : u8 0 = 0 := by decide
  have hf : u8 0x0F = 0x0F := by decide
  constructor
  · unfold ClearRegisters
    simp [received_RegWrite_append, received_RegWrite, h10, h20, h30, hz, hf]
  · rfl

/-- C15 at a concrete channel: subindex 2. -/
theorem C15_ClearRegisters_witness :
    received 0 (ClearRegisters exChan).2 = [(0x12, 0x00), (0x22, 0x00), (0x32, 0x0F)]
      ∧ (ClearRegisters exChan).1.m_iCommand = Command.CMD_NOTE_HALT
      ∧ (ClearRegisters exChan).1.m_iOctave = -1 := by
  have h := C15_ClearRegisters exChan 0 (by decide)
  exact ⟨h.1, by rw [h.2], by rw [h.2]⟩

theorem RefreshChannel_writes_of_not_leader (e : Env) (g g' : Globals) (st : Chan)
    (h6 : st.Subindex < 6) :
    (RefreshChannel e g st).writes = (RefreshChannel e g' st).writes := by
  have h8 : st.Subindex ≠ 8 := by omega
  have hn : ¬ (6 ≤ st.Subindex) := by omega
  unfold RefreshChannel
  by_cases hp : st.m_iPatch = -1 <;> cases hg : st.m_bGate <;> cases hc : st.m_iCommand <;>
    simp [hp, hg, hc, h8, hn]

/-- C16: while percussion mode bit `0x20` is enabled, `RefreshChannel` on a
channel of subindex 6 or 7 makes no port write at all, whatever its state,
and leaves the globals alone; a channel of subindex `0..5` makes the same
port writes under any two values of the globals, in particular the same
with percussion mode on as with percussion mode off. -/
theorem C16_percussion_suppresses_followers (e : Env) (g g' : Globals) (st : Chan)
    (hmode : band g.g_iPercMode 0x20 ≠ 0) :
    ((st.Subindex = 6 ∨ st.Subindex = 7) →
        (RefreshChannel e g st).writes = [] ∧ (RefreshChannel e g st).globals = g)
      ∧ (st.Subindex < 6 →
        (RefreshChannel e g st).writes = (RefreshChannel e g' st).writes) := by
  constructor
  · intro h
    have h6 : 6 ≤ st.Subindex := by omega
    have h8 : st.Subindex ≠ 8 := by omega
    rw [RefreshChannel_suppressed e g st hmode h6, if_neg h8]
    exact ⟨rfl, RefreshChannel_globals_of_not_leader e g st h8⟩
  · intro h
    exact RefreshChannel_writes_of_not_leader e g g' st h

/-- C16 at concrete channels: percussion mode on, a sounding channel of
subindex 6 and a triggered channel of subindex 2. -/
theorem C16_percussion_suppresses_followers_witness :
    (RefreshChannel exEnv exGlobalsPerc exChan6).writes = []
      ∧ (RefreshChannel exEnv exGlobalsPerc exChan).writes
          = (RefreshChannel exEnv exGlobals exChan).writes := by
  have h := C16_percussion_suppresses_followers exEnv exGlobalsPerc exGlobals exChan6 (by decide)
  have h' := C16_percussion_suppresses_followers exEnv exGlobalsPerc exGlobals exChan (by decide)
  exact ⟨(h.1 (by decide)).1, h'.2 (by decide)⟩

theorem lastAppended_append (reg : Int) (kept : List (Int × Int)) (w : Int × Int) :
    lastAppended reg (kept ++ [w]) = if w.1 = reg then some w.2 else lastAppended reg kept := by
  induction kept with
  | nil =>
    simp [lastAppended]
  | cons k ks ih =>
    show (match lastAppended reg (ks ++ [w]) with
      | some v => some v
      | none => if k.1 = reg then some k.2 else none) = _
    rw [ih]
    by_cases h : w.1 = reg
    · simp [h]
    · simp [h, lastAppended]

theorem VGMLogAll_cons (s : VGMLog) (w : Int × Int) (ws : List (Int × Int)) :
    CSoundGen.VGMLogAll s (w :: ws)
      = CSoundGen.VGMLogAll (CSoundGen.VGMLogOPLLWrite true s w.1 w.2) ws := rfl

theorem u8_of_byte (x : Int) (h0 : 0 ≤ x) (h1 : x < 256) : u8 x = x.toNat := by
  unfold u8
  rw [Int.emod_eq_of_lt h0 h1]

theorem VGMLogAll_spec (ws : List (Int × Int)) (s : VGMLog) (kept : List (Int × Int))
    (hopen : s.vgmFile = true)
    (hinv : ∀ reg : Int, 0 ≤ reg → reg < 256 →
      s.vgmRegPrev reg.toNat = (lastAppended reg kept).getD (-1))
    (hkept : ∀ reg v, lastAppended reg kept = some v → 0 ≤ v)
    (hws : ∀ w ∈ ws, 0 ≤ w.1 ∧ w.1 < 256 ∧ 0 ≤ w.2 ∧ w.2 < 256) :
    (CSoundGen.VGMLogAll s ws).data = s.data ++ vgmRecords (changedWrites kept ws) := by
  induction ws generalizing s kept with
  | nil => simp [CSoundGen.VGMLogAll, changedWrites, vgmRecords]
  | cons w ws ih =>
    obtain ⟨hr0, hr1, hv0, hv1⟩ := hws w (List.mem_cons_self _ _)
    have hws' : ∀ x ∈ ws, 0 ≤ x.1 ∧ x.1 < 256 ∧ 0 ≤ x.2 ∧ x.2 < 256 :=
      fun x hx => hws x (List.mem_cons_of_mem _ hx)
    rw [VGMLogAll_cons]
    have hprev := hinv w.1 hr0 hr1
    by_cases hlast : lastAppended w.1 kept = some w.2
    · have hsame : s.vgmRegPrev w.1.toNat = w.2 := by rw [hprev, hlast]; rfl
      have hstep : CSoundGen.VGMLogOPLLWrite true s w.1 w.2 = s := by
        simp [CSoundGen.VGMLogOPLLWrite, hopen, hsame]
      rw [hstep, ih s kept hopen hinv hkept hws']
      simp [changedWrites, hlast]
    · have hdiff : s.vgmRegPrev w.1.toNat ≠ w.2 := by
        rw [hprev]
        cases hl : lastAppended w.1 kept with
        | none =>
          simp only [Option.getD_none]
          omega
        | some v =>
          simp only [Option.getD_some]
          intro hv
          exact hlast (by rw [hl, hv])
      have hstep : CSoundGen.VGMLogOPLLWrite true s w.1 w.2
          = { s with vgmRegPrev := Function.update s.vgmRegPrev w.1.toNat w.2
                     data := s.data ++ [0x51, u8 w.1, u8 w.2] } := by
        simp [CSoundGen.VGMLogOPLLWrite, hopen, hdiff]
      have hinv' : ∀ reg : Int, 0 ≤ reg → reg < 256 →
          (Function.update s.vgmRegPrev w.1.toNat w.2) reg.toNat
            = (lastAppended reg (kept ++ [w])).getD (-1) := by
        intro reg hreg hreg'
        rw [lastAppended_append]
        by_cases h : w.1 = reg
        · subst h
          simp
        · have hne : reg.toNat ≠ w.1.toNat := by omega
          simp only [Function.update_noteq hne, h, if_false]
          exact hinv reg hreg hreg'
      have hkept' : ∀ reg v, lastAppended reg (kept ++ [w]) = some v → 0 ≤ v := by
        intro reg v hv
        rw [lastAppended_append] at hv
        by_cases h : w.1 = reg
        · simp only [h, if_true, Option.some.injEq] at hv
          omega
        · simp only [h, if_false] at hv
          exact hkept reg v hv
      have hnext := ih
        { s with vgmRegPrev := Function.update s.vgmRegPrev w.1.toNat w.2
                 data := s.data ++ [0x51, u8 w.1, u8 w.2] }
        (kept ++ [w]) hopen hinv' hkept' hws'
      rw [hstep, hnext]
      simp [changedWrites, hlast, vgmRecords, u8_of_byte _ hr0 hr1, u8_of_byte _ hv0 hv1]

theorem VGMLogAll_file (ws : List (Int × Int)) (s : VGMLog) :
    (CSoundGen.VGMLogAll s ws).vgmFile = s.vgmFile := by
  induction ws generalizing s with
  | nil => rfl
  | cons w ws ih =>
    rw [VGMLogAll_cons, ih]
    unfold CSoundGen.VGMLogOPLLWrite
    split_ifs <;> rfl

theorem VGMLogAll_prev_untouched (ws : List (Int × Int)) (s : VGMLog) (i : Nat)
    (h : ∀ x ∈ ws, x.1.toNat ≠ i) :
    (CSoundGen.VGMLogAll s ws).vgmRegPrev i = s.vgmRegPrev i := by
  induction ws generalizing s with
  | nil => rfl
  | cons w ws ih =>
    rw [VGMLogAll_cons, ih _ (fun x hx => h x (List.mem_cons_of_mem _ hx))]
    have hw := h w (List.mem_cons_self _ _)
    unfold CSoundGen.VGMLogOPLLWrite
    split_ifs
    · rfl
    · rfl
    · rfl
    · exact Function.update_noteq (Ne.symm hw) _ _

/-- C17: logging is started (the file opens) and the player is playing; the
register writes passed to `VGMLogOPLLWrite` have register numbers and values
in `0..255`. The bytes in the feed are then the records `0x51, reg, val`, in
arrival order, of exactly those writes whose value differs from the value
last appended for the same register since logging started. A write to a
register that no earlier write addressed is always appended, the table
`vgmRegPrev` having been set to `-1`. -/
theorem C17_vgm_feed_changes_only (FrameRate : Int) (s : VGMLog) (ws : List (Int × Int))
    (w : Int × Int)
    (hws : ∀ x ∈ ws, 0 ≤ x.1 ∧ x.1 < 256 ∧ 0 ≤ x.2 ∧ x.2 < 256)
    (hw : 0 ≤ w.1 ∧ w.1 < 256 ∧ 0 ≤ w.2 ∧ w.2 < 256) :
    (CSoundGen.VGMLogAll (CSoundGen.VGMStartLogging true FrameRate s) ws).data
        = vgmRecords (changedWrites [] ws)
      ∧ ((∀ x ∈ ws, x.1 ≠ w.1) →
          (CSoundGen.VGMLogAll (CSoundGen.VGMStartLogging true FrameRate s) (ws ++ [w])).data
            = (CSoundGen.VGMLogAll (CSoundGen.VGMStartLogging true FrameRate s) ws).data
              ++ [0x51, w.1.toNat, w.2.toNat]) := by
  have hopen : (CSoundGen.VGMStartLogging true FrameRate s).vgmFile = true := rfl
  have hdata : (CSoundGen.VGMStartLogging true FrameRate s).data = [] := rfl
  have hprev : ∀ i, i < 256 → (CSoundGen.VGMStartLogging true FrameRate s).vgmRegPrev i = -1 := by
    intro i hi
    simp [CSoundGen.VGMStartLogging, hi]
  constructor
  · rw [VGMLogAll_spec ws _ [] hopen ?_ ?_ hws, hdata, List.nil_append]
    · intro reg hreg hreg'
      rw [hprev _ (by omega)]
      rfl
    · intro reg v hv
      simp [lastAppended] at hv
  · intro hne
    obtain ⟨hr0, hr1, hv0, hv1⟩ := hw
    have hfile := VGMLogAll_file ws (CSoundGen.VGMStartLogging true FrameRate s)
    have huntouched := VGMLogAll_prev_untouched ws (CSoundGen.VGMStartLogging true FrameRate s)
      w.1.toNat (fun x hx => by
        have := hne x hx
        have := (hws x hx).1
        omega)
    rw [hprev _ (by omega)] at huntouched
    have happ : CSoundGen.VGMLogAll (CSoundGen.VGMStartLogging true FrameRate s) (ws ++ [w])
        = CSoundGen.VGMLogOPLLWrite true
            (CSoundGen.VGMLogAll (CSoundGen.VGMStartLogging true FrameRate s) ws) w.1 w.2 := by
      simp [CSoundGen.VGMLogAll, List.foldl_append]
    rw [happ]
    have hdiff : (CSoundGen.VGMLogAll (CSoundGen.VGMStartLogging true FrameRate s) ws).vgmRegPrev
        w.1.toNat ≠ w.2 := by
      rw [huntouched]; omega
    simp [CSoundGen.VGMLogOPLLWrite, hfile, hopen, hdiff, u8_of_byte _ hr0 hr1,
      u8_of_byte _ hv0 hv1]

/-- C17 at a concrete run: five writes, of which the second repeats the first
and the last returns to an earlier value of register `0x10`. -/
theorem C17_vgm_feed_changes_only_witness :
    (CSoundGen.VGMLogAll (CSoundGen.VGMStartLogging true 60 exVGM)
        [(0x10, 5), (0x10, 5), (0x20, 1), (0x10, 6), (0x10, 5)]).data
      = [0x51, 0x10, 5, 0x51, 0x20, 1, 0x51, 0x10, 6, 0x51, 0x10, 5] := by
  have h := (C17_vgm_feed_changes_only 60 exVGM
    [(0x10, 5), (0x10, 5), (0x20, 1), (0x10, 6), (0x10, 5)] (0x30, 0)
    (by decide) (by decide)).1
  rw [h]
  decide

/-- C18 (amended): when a module block is read by a reader whose error level
is at least the level of the assertion, `ReadFromModule` stores a patch
number in `0..15` as it is and answers a patch number outside `0..15` with a
module exception, so every patch number it stores lies in `0..15`. A reader
with a lower error level stores the number unchecked. -/
theorem C18_module_patch_range (l err_lv_ : Nat) (Patch : Int) (GetBlockChar : Nat → Nat) :
    (l ≤ err_lv_ →
        ((0 ≤ Patch ∧ Patch ≤ 15) →
            CInstrumentIOVRC7.ReadFromModule l err_lv_ Patch GetBlockChar
              = Except.ok { m_iPatch := Patch, m_iRegs := (List.range 8).map GetBlockChar })
          ∧ (¬ (0 ≤ Patch ∧ Patch ≤ 15) →
            ∃ e, CInstrumentIOVRC7.ReadFromModule l err_lv_ Patch GetBlockChar = Except.error e)
          ∧ (∀ inst, CInstrumentIOVRC7.ReadFromModule l err_lv_ Patch GetBlockChar
                = Except.ok inst → 0 ≤ inst.m_iPatch ∧ inst.m_iPatch ≤ 15))
      ∧ (err_lv_ < l →
        CInstrumentIOVRC7.ReadFromModule l err_lv_ Patch GetBlockChar
          = Except.ok { m_iPatch := Patch, m_iRegs := (List.range 8).map GetBlockChar }) := by
  constructor
  · intro hl
    by_cases hr : 0 ≤ Patch ∧ Patch ≤ 15
    · have hok : CInstrumentIOVRC7.ReadFromModule l err_lv_ Patch GetBlockChar
          = Except.ok { m_iPatch := Patch, m_iRegs := (List.range 8).map GetBlockChar } := by
        simp [CInstrumentIOVRC7.ReadFromModule, CInstrumentIO.AssertRange, hr.1, hr.2]
      refine ⟨fun _ => hok, fun h => absurd hr h, ?_⟩
      intro inst hinst
      rw [hok] at hinst
      cases hinst
      exact hr
    · have hr' : ¬ (Patch ≥ 0 ∧ Patch ≤ 15) := hr
      have herr : ∃ e, CInstrumentIOVRC7.ReadFromModule l err_lv_ Patch GetBlockChar
          = Except.error e := by
        simp [CInstrumentIOVRC7.ReadFromModule, CInstrumentIO.AssertRange, hl, hr']
      refine ⟨fun h => absurd h hr, fun _ => herr, ?_⟩
      intro inst hinst
      obtain ⟨e, he⟩ := herr
      rw [he] at hinst
      cases hinst
  · intro hl
    have hl' : ¬ l ≤ err_lv_ := by omega
    simp [CInstrumentIOVRC7.ReadFromModule, CInstrumentIO.AssertRange, hl']

/-- C18 as stated fails at two inputs. A reader of error level 0 reads the
patch number 16 from a module block, the assertion having level 1: the
number is stored. And the patch number 16 read from an FTI file is stored
whatever the error level, `DoReadFromFTI` making no range check. -/
theorem C18_counterexample :
    CInstrumentIOVRC7.ReadFromModule 1 0 16 (fun _ => 0)
        = Except.ok { m_iPatch := 16, m_iRegs := [0, 0, 0, 0, 0, 0, 0, 0] }
      ∧ (CInstrumentIOVRC7.DoReadFromFTI 16 (fun _ => 0)).m_iPatch = 16 := by
  constructor
  · simp [CInstrumentIOVRC7.ReadFromModule, CInstrumentIO.AssertRange]
  · rfl

theorem CorrectOctave_hold (st : Chan) : (CorrectOctave st).m_bHold = st.m_bHold := by
  unfold CorrectOctave
  split
  · rfl
  · split
    · rfl
    · dsimp only
      split
      · rfl
      · split <;> rfl

/-- C19: at the decision of `HandleNote`, with a positive portamento speed,
the portamento effect active and a command that is neither Halt nor Release,
the channel becomes the octave-corrected channel with the hold flag set and
its command stays what it was; in every other case the command becomes
Trigger, the hold flag is set and nothing else changes; the hold flag is set
in both cases. -/
theorem C19_HandleNote_decision (st : Chan) :
    ((st.m_iPortaSpeed > 0 ∧ st.m_iEffect = effect_t.PORTAMENTO ∧
          st.m_iCommand ≠ Command.CMD_NOTE_HALT ∧ st.m_iCommand ≠ Command.CMD_NOTE_RELEASE) →
        HandleNote st = CorrectOctave { st with m_bHold := true }
          ∧ (HandleNote st).m_iCommand = st.m_iCommand)
      ∧ (¬ (st.m_iPortaSpeed > 0 ∧ st.m_iEffect = effect_t.PORTAMENTO ∧
          st.m_iCommand ≠ Command.CMD_NOTE_HALT ∧ st.m_iCommand ≠ Command.CMD_NOTE_RELEASE) →
        HandleNote st = { st with m_bHold := true, m_iCommand := Command.CMD_NOTE_TRIGGER })
      ∧ (HandleNote st).m_bHold = true := by
  have hyes : (st.m_iPortaSpeed > 0 ∧ st.m_iEffect = effect_t.PORTAMENTO ∧
      st.m_iCommand ≠ Command.CMD_NOTE_HALT ∧ st.m_iCommand ≠ Command.CMD_NOTE_RELEASE) →
      HandleNote st = CorrectOctave { st with m_bHold := true } := by
    intro h
    unfold HandleNote
    exact if_pos h
  have hno : ¬ (st.m_iPortaSpeed > 0 ∧ st.m_iEffect = effect_t.PORTAMENTO ∧
      st.m_iCommand ≠ Command.CMD_NOTE_HALT ∧ st.m_iCommand ≠ Command.CMD_NOTE_RELEASE) →
      HandleNote st = { st with m_bHold := true, m_iCommand := Command.CMD_NOTE_TRIGGER } := by
    intro h
    unfold HandleNote
    exact if_neg h
  refine ⟨fun h => ⟨hyes h, ?_⟩, hno, ?_⟩
  · rw [hyes h, CorrectOctave_command]
  · by_cases h : st.m_iPortaSpeed > 0 ∧ st.m_iEffect = effect_t.PORTAMENTO ∧
        st.m_iCommand ≠ Command.CMD_NOTE_HALT ∧ st.m_iCommand ≠ Command.CMD_NOTE_RELEASE
    · rw [hyes h, CorrectOctave_hold]
    · rw [hno h]

theorem tdiv_eq_ediv_of_nonneg (a b : Int) (ha : 0 ≤ a) : Int.tdiv a b = a / b := by
  obtain ⟨m, rfl⟩ := Int.eq_ofNat_of_zero_le ha
  cases b with
  | ofNat n => rfl
  | negSucc n => rfl

theorem tmod_eq_emod_of_nonneg (a b : Int) (ha : 0 ≤ a) : Int.tmod a b = a % b := by
  obtain ⟨m, rfl⟩ := Int.eq_ofNat_of_zero_le ha
  cases b with
  | ofNat n => rfl
  | negSucc n => rfl

/-- C20: for a note `N ≥ 0`, `TriggerNote` records `N` as the triggered
note, sets the octave to `N / NOTE_RANGE`, leaves the command On exactly
when it was neither Trigger nor Halt and unchanged otherwise, and returns
`N << LINEAR_PITCH_AMOUNT` in linear-pitch mode and the table entry at
`N mod NOTE_RANGE` shifted left by two bits otherwise. -/
theorem C20_TriggerNote (e : Env) (g : Globals) (st : Chan) (N : Int) (hN : 0 ≤ N) :
    (TriggerNote e g st N).2.1.m_iTriggeredNote = N
      ∧ (TriggerNote e g st N).2.1.m_iOctave = N / e.NOTE_RANGE
      ∧ (TriggerNote e g st N).2.1.m_iCommand
          = (if st.m_iCommand ≠ Command.CMD_NOTE_TRIGGER ∧ st.m_iCommand ≠ Command.CMD_NOTE_HALT
              then Command.CMD_NOTE_ON else st.m_iCommand)
      ∧ ((TriggerNote e g st N).2.1.m_iCommand = Command.CMD_NOTE_ON
          ↔ (st.m_iCommand ≠ Command.CMD_NOTE_TRIGGER ∧ st.m_iCommand ≠ Command.CMD_NOTE_HALT))
      ∧ (st.m_bLinearPitch = true →
          (TriggerNote e g st N).2.2 = shl N e.LINEAR_PITCH_AMOUNT)
      ∧ (st.m_bLinearPitch = false →
          (TriggerNote e g st N).2.2
            = shl (e.m_iNoteLookupTable.getD (N % e.NOTE_RANGE).toNat 0) 2) := by
  have hcmd : (TriggerNote e g st N).2.1.m_iCommand
      = (if st.m_iCommand ≠ Command.CMD_NOTE_TRIGGER ∧ st.m_iCommand ≠ Command.CMD_NOTE_HALT
          then Command.CMD_NOTE_ON else st.m_iCommand) := by
    unfold TriggerNote
    dsimp only
    split <;> rfl
  have hlin : (TriggerNote e g st N).2.1.m_bLinearPitch = st.m_bLinearPitch := by
    unfold TriggerNote
    dsimp only
    split <;> rfl
  have hret : (TriggerNote e g st N).2.2
      = if st.m_bLinearPitch then shl N e.LINEAR_PITCH_AMOUNT else GetFnum e N := by
    unfold TriggerNote
    dsimp only
    split <;> rfl
  refine ⟨?_, ?_, hcmd, ?_, ?_, ?_⟩
  · unfold TriggerNote
    dsimp only
    split <;> rfl
  · rw [← tdiv_eq_ediv_of_nonneg N e.NOTE_RANGE hN]
    unfold TriggerNote
    dsimp only
  · rw [hcmd]
    cases hc : st.m_iCommand <;> simp
  · intro h
    rw [hret, h]
    rfl
  · intro h
    rw [hret, h, ← tmod_eq_emod_of_nonneg N e.NOTE_RANGE hN]
    rfl

/-- C20 at a concrete note: note 14 on a channel in legacy pitch mode whose
command is Trigger, with twelve notes per octave. -/
theorem C20_TriggerNote_witness :
    (0 : Int) ≤ 14
      ∧ (TriggerNote exEnv exGlobals exChan 14).2.1.m_iTriggeredNote = 14
      ∧ (TriggerNote exEnv exGlobals exChan 14).2.1.m_iOctave = 1
      ∧ (TriggerNote exEnv exGlobals exChan 14).2.1.m_iCommand = Command.CMD_NOTE_TRIGGER
      ∧ (TriggerNote exEnv exGlobals exChan 14).2.2 = 776 := by
  have h := C20_TriggerNote exEnv exGlobals exChan 14 (by decide)
  refine ⟨by decide, h.1, ?_, ?_, ?_⟩
  · rw [h.2.1]
    decide
  · rw [h.2.2.1]
    decide
  · rw [h.2.2.2.2.2 (by decide)]
    decide

/-- C21: `CorrectOctave`, with `d` the current octave minus the previous one.
In linear-pitch mode nothing changes. In legacy mode: with previous octave
`-1` only the previous octave changes, to the current one; otherwise with
`d > 0` the period becomes `period >> d` (the floor of `period / 2 ^ d`), the
previous octave becomes the current one and nothing else changes, the
portamento target included; with `d < 0` the portamento target becomes
`target >> (-d)`, the current octave goes back to the previous one and
nothing else changes, the period included; with `d = 0` nothing changes. -/
theorem C21_CorrectOctave_cases (st : Chan) :
    (st.m_bLinearPitch = true → CorrectOctave st = st)
      ∧ (st.m_bLinearPitch = false → st.m_iOldOctave = -1 →
          CorrectOctave st = { st with m_iOldOctave := st.m_iOctave })
      ∧ (st.m_bLinearPitch = false → st.m_iOldOctave ≠ -1 →
          st.m_iOctave - st.m_iOldOctave > 0 →
          CorrectOctave st
              = { st with m_iPeriod := st.m_iPeriod >>> (st.m_iOctave - st.m_iOldOctave).toNat,
                          m_iOldOctave := st.m_iOctave }
            ∧ (CorrectOctave st).m_iPeriod
              = st.m_iPeriod / 2 ^ (st.m_iOctave - st.m_iOldOctave).toNat
            ∧ (CorrectOctave st).m_iOldOctave = st.m_iOctave
            ∧ (CorrectOctave st).m_iOctave = st.m_iOctave
            ∧ (CorrectOctave st).m_iPortaTo = st.m_iPortaTo)
      ∧ (st.m_bLinearPitch = false → st.m_iOldOctave ≠ -1 →
          st.m_iOctave - st.m_iOldOctave < 0 →
          CorrectOctave st
              = { st with m_iPortaTo :=
                            st.m_iPortaTo >>> (-(st.m_iOctave - st.m_iOldOctave)).toNat,
                          m_iOctave := st.m_iOldOctave }
            ∧ (CorrectOctave st).m_iPortaTo
              = st.m_iPortaTo / 2 ^ (-(st.m_iOctave - st.m_iOldOctave)).toNat
            ∧ (CorrectOctave st).m_iOctave = st.m_iOldOctave
            ∧ (CorrectOctave st).m_iOldOctave = st.m_iOldOctave
            ∧ (CorrectOctave st).m_iPeriod = st.m_iPeriod)
      ∧ (st.m_bLinearPitch = false → st.m_iOldOctave ≠ -1 →
          st.m_iOctave - st.m_iOldOctave = 0 → CorrectOctave st = st) := by
  refine ⟨?_, ?_, ?_, ?_, ?_⟩
  · intro hl
    simp [CorrectOctave, hl]
  · intro hl ho
    simp [CorrectOctave, hl, ho]
  · intro hl ho hd
    have h : CorrectOctave st
        = { st with m_iPeriod := st.m_iPeriod >>> (st.m_iOctave - st.m_iOldOctave).toNat,
                    m_iOldOctave := st.m_iOctave } := by
      simp [CorrectOctave, hl, ho, hd]
    refine ⟨h, ?_, ?_, ?_, ?_⟩
    · rw [h]
      show _ >>> _ = _
      rw [Int.shiftRight_eq_div_pow]
      push_cast
      rfl
    · rw [h]
    · rw [h]
    · rw [h]
  · intro hl ho hd
    have hd' : ¬ (st.m_iOctave - st.m_iOldOctave > 0) := by omega
    have h : CorrectOctave st
        = { st with m_iPortaTo :=
                      st.m_iPortaTo >>> (-(st.m_iOctave - st.m_iOldOctave)).toNat,
                    m_iOctave := st.m_iOldOctave } := by
      simp [CorrectOctave, hl, ho, hd', hd]
    refine ⟨h, ?_, ?_, ?_, ?_⟩
    · rw [h]
      show _ >>> _ = _
      rw [Int.shiftRight_eq_div_pow]
      push_cast
      rfl
    · rw [h]
    · rw [h]
    · rw [h]
  · intro hl ho hd
    have hd1 : ¬ (st.m_iOctave - st.m_iOldOctave > 0) := by omega
    have hd2 : ¬ (st.m_iOctave - st.m_iOldOctave < 0) := by omega
    simp [CorrectOctave, hl, ho, hd1, hd2]

/-- C22 (amended): on every tick during which percussion mode bit `0x20` is
enabled, whether the mode was enabled before the previous leader refresh or
not, the leader channel (subindex 8) writes the whole priming sequence and
nothing else; after it the drum key bits of the mode are cleared, bit `0x20`
is still set and `g_iPercModePrev` has it set too, so the leader refresh of
the next tick writes the priming sequence again. -/
theorem C22_priming_every_enabled_tick (g : Globals) (e1 e2 : Env) (st1 st2 : Chan)
    (latch1 latch2 : Nat) (hmode : band g.g_iPercMode 0x20 ≠ 0)
    (h1 : st1.Subindex = 8) (h2 : st2.Subindex = 8) :
    received latch1 (RefreshChannel e1 g st1).writes = primingSequence g
      ∧ (RefreshChannel e1 g st1).globals.g_iPercMode = band g.g_iPercMode (bnot 0x1f)
      ∧ band (RefreshChannel e1 g st1).globals.g_iPercMode 0x20 ≠ 0
      ∧ band (RefreshChannel e1 g st1).globals.g_iPercModePrev 0x20 ≠ 0
      ∧ received latch2 (RefreshChannel e2 (RefreshChannel e1 g st1).globals st2).writes
          = primingSequence (RefreshChannel e1 g st1).globals
      ∧ (primingSequence (RefreshChannel e1 g st1).globals).length = 13 := by
  have hg : (RefreshChannel e1 g st1).globals = (RefreshChannel_percussion g).1 := by
    rw [RefreshChannel_globals, if_pos h1]
  have hm1 : band (RefreshChannel e1 g st1).globals.g_iPercMode 0x20 ≠ 0 := by
    rw [RefreshChannel_leader_keeps_mode]
    exact hmode
  have hprev : (RefreshChannel e1 g st1).globals.g_iPercModePrev
      = (RefreshChannel e1 g st1).globals.g_iPercMode := by
    rw [hg]
    exact percussion_prev g
  refine ⟨?_, ?_, hm1, ?_, ?_, rfl⟩
  · rw [RefreshChannel_suppressed e1 g st1 hmode (by omega), if_pos h1]
    exact received_priming g latch1 hmode
  · rw [hg]
    unfold RefreshChannel_percussion
    rw [if_pos hmode]
  · rw [hprev]
    exact hm1
  · rw [RefreshChannel_suppressed e2 _ st2 hm1 (by omega), if_pos h2]
    exact received_priming _ latch2 hm1

/-- C22 at a concrete chip: the leader is refreshed on the tick in which
percussion mode has been switched on and on the tick after it. -/
theorem C22_priming_every_enabled_tick_witness :
    received 0 (RefreshChannel exEnv exGlobalsPerc exLeader.2).writes
        = primingSequence exGlobalsPerc
      ∧ received 0 (RefreshChannel exEnv
            (RefreshChannel exEnv exGlobalsPerc exLeader.2).globals exLeader.2).writes
          = primingSequence (RefreshChannel exEnv exGlobalsPerc exLeader.2).globals := by
  have h := C22_priming_every_enabled_tick exGlobalsPerc exEnv exEnv exLeader.2 exLeader.2 0 0
    (by decide) (by decide) (by decide)
  exact ⟨h.1, h.2.2.2.2.1⟩

/-- C22 as stated fails: percussion mode is switched on (the mode was off at
the previous leader refresh), the leader is refreshed, and on the next tick,
the mode still on, it is refreshed again. The second refresh writes the
thirteen registers of the priming sequence once more. -/
theorem C22_counterexample :
    band exGlobalsPerc.g_iPercMode 0x20 ≠ 0 ∧ band exGlobalsPerc.g_iPercModePrev 0x20 = 0
      ∧ band (RefreshChannel exEnv exGlobalsPerc exLeader.2).globals.g_iPercMode 0x20 ≠ 0
      ∧ received 0 (RefreshChannel exEnv
            (RefreshChannel exEnv exGlobalsPerc exLeader.2).globals exLeader.2).writes
          = [(0x26, 0x00), (0x27, 0x00), (0x28, 0x00), (0x16, 0x20), (0x17, 0x50), (0x18, 0xC0),
             (0x26, 0x05), (0x27, 0x05), (0x28, 0x01), (0x0E, 0x20), (0x36, 0x0F), (0x37, 0x0F),
             (0x38, 0x0F)] := by
  decide

theorem HandleNoteData_hold_example :
    HandleNoteData_commands exEnv exGlobals exChanHalted (RowNote.note 57) true
      = [Command.CMD_NOTE_HALT, Command.CMD_NOTE_HALT, Command.CMD_NOTE_TRIGGER,
         Command.CMD_NOTE_ON] := by
  decide

theorem HandleNoteData_command (e : Env) (g : Globals) (st : Chan) (Note : RowNote)
    (HoldInstrument : Bool) :
    (HandleNoteData e g st Note HoldInstrument).2.m_iCommand
      = if (deliverRowNote e g st Note).2.m_iCommand = Command.CMD_NOTE_TRIGGER
            ∧ HoldInstrument = true
        then Command.CMD_NOTE_ON else (deliverRowNote e g st Note).2.m_iCommand := by
  unfold HandleNoteData
  dsimp only
  split <;> rfl

theorem alongMachine_note (c : Command) (p h : Bool) (hc : c ≠ Command.CMD_NOTE_RELEASE) :
    alongMachine
      [c,
       if c ≠ Command.CMD_NOTE_TRIGGER ∧ c ≠ Command.CMD_NOTE_HALT then Command.CMD_NOTE_ON
       else c,
       if p = true ∧ c ≠ Command.CMD_NOTE_HALT ∧ c ≠ Command.CMD_NOTE_TRIGGER then
         Command.CMD_NOTE_ON
       else Command.CMD_NOTE_TRIGGER,
       if (if p = true ∧ c ≠ Command.CMD_NOTE_HALT ∧ c ≠ Command.CMD_NOTE_TRIGGER then
             Command.CMD_NOTE_ON
           else Command.CMD_NOTE_TRIGGER) = Command.CMD_NOTE_TRIGGER ∧ h = true
       then Command.CMD_NOTE_ON
       else (if p = true ∧ c ≠ Command.CMD_NOTE_HALT ∧ c ≠ Command.CMD_NOTE_TRIGGER then
               Command.CMD_NOTE_ON
             else Command.CMD_NOTE_TRIGGER)] = true := by
  cases c <;> cases p <;> cases h <;> first | decide | exact absurd rfl hc

theorem PlayNote_command_flag (e : Env) (g : Globals) (st : Chan) (N : Int) :
    (PlayNote e g st N).2.m_iCommand
      = if decide (st.m_iPortaSpeed > 0 ∧ st.m_iEffect = effect_t.PORTAMENTO) = true
            ∧ st.m_iCommand ≠ Command.CMD_NOTE_HALT
            ∧ st.m_iCommand ≠ Command.CMD_NOTE_TRIGGER
        then Command.CMD_NOTE_ON else Command.CMD_NOTE_TRIGGER := by
  rw [PlayNote_command]
  by_cases hp : st.m_iPortaSpeed > 0 ∧ st.m_iEffect = effect_t.PORTAMENTO
  · simp [hp]
  · have hp' : ¬ (st.m_iPortaSpeed > 0 ∧ st.m_iEffect = effect_t.PORTAMENTO
        ∧ st.m_iCommand ≠ Command.CMD_NOTE_HALT
        ∧ st.m_iCommand ≠ Command.CMD_NOTE_TRIGGER) := fun h => hp ⟨h.1, h.2.1⟩
    rw [if_neg hp']
    simp [hp]

/-- C23 (amended): every assignment to the command made during `HandleCut`,
`ClearRegisters`, `RefreshChannel`, `HandleNote` and `HandleNoteData`, the
calls of their inherited parts to `RunNote`, `HandleCut` and `HandleRelease`
included, is a step of the machine Halt, Trigger, On, Release, Halt with a
cut to Halt and a re-trigger to Trigger from any state, so that On is
entered from Trigger only, with two provisos. First, `HandleRelease`, called
by a release row or by `UpdateNoteRelease` when its counter goes from 1 to 0,
sets the command to Release from any state, Halt and Trigger included, when
the release flag is clear, and leaves it otherwise. Second, for a note
(`TriggerNote`, `HandleNote`, `HandleNoteData` with a note) the statement is
for a channel whose command is not Release; `TriggerNote` then leaves the
command as it is. A note with the hold instrument goes through Trigger to On
within the one call of `HandleNoteData`. -/
theorem C23_command_transitions (e : Env) (g : Globals) (st : Chan) (N : Int) (Note : RowNote)
    (HoldInstrument : Bool) :
    (HandleCut st).m_iCommand = Command.CMD_NOTE_HALT
      ∧ (ClearRegisters st).1.m_iCommand = Command.CMD_NOTE_HALT
      ∧ commandMachine st.m_iCommand (HandleNote st).m_iCommand = true
      ∧ commandMachine st.m_iCommand (RefreshChannel e g st).chan.m_iCommand = true
      ∧ (st.m_iCommand ≠ Command.CMD_NOTE_RELEASE →
          (TriggerNote e g st N).2.1.m_iCommand = st.m_iCommand)
      ∧ (HandleRelease st).m_iCommand
          = (if st.m_bRelease = false then Command.CMD_NOTE_RELEASE else st.m_iCommand)
      ∧ (UpdateNoteRelease st).m_iCommand
          = (if st.m_iNoteRelease = 1 ∧ st.m_bRelease = false then Command.CMD_NOTE_RELEASE
              else st.m_iCommand)
      ∧ (st.m_iCommand ≠ Command.CMD_NOTE_RELEASE →
          alongMachine [st.m_iCommand, (RunNote e g st N).2.m_iCommand,
            (PlayNote e g st N).2.m_iCommand] = true)
      ∧ (Note ≠ RowNote.release →
          (∀ M, Note = RowNote.note M → st.m_iCommand ≠ Command.CMD_NOTE_RELEASE) →
          alongMachine (HandleNoteData_commands e g st Note HoldInstrument) = true)
      ∧ (HandleNoteData_commands e g st RowNote.release HoldInstrument
            = [st.m_iCommand, (HandleRelease st).m_iCommand,
               (HandleNoteData e g st RowNote.release HoldInstrument).2.m_iCommand]
          ∧ commandMachine (HandleRelease st).m_iCommand
              (HandleNoteData e g st RowNote.release HoldInstrument).2.m_iCommand = true)
      ∧ (HandleNoteData e g st (RowNote.note N) true).2.m_iCommand = Command.CMD_NOTE_ON := by
  have hnote : ∀ (M : Int) (h : Bool), st.m_iCommand ≠ Command.CMD_NOTE_RELEASE →
      alongMachine (HandleNoteData_commands e g st (RowNote.note M) h) = true := by
    intro M h hc
    have hpath : HandleNoteData_commands e g st (RowNote.note M) h
        = [st.m_iCommand, (RunNote e g st M).2.m_iCommand, (PlayNote e g st M).2.m_iCommand,
           (HandleNoteData e g st (RowNote.note M) h).2.m_iCommand] := rfl
    have hd : (deliverRowNote e g st (RowNote.note M)).2.m_iCommand
        = (PlayNote e g st M).2.m_iCommand := rfl
    rw [hpath, HandleNoteData_command, hd, PlayNote_command_flag, RunNote_command]
    exact alongMachine_note st.m_iCommand _ h hc
  refine ⟨rfl, rfl, ?_, ?_, ?_, ?_, ?_, ?_, ?_, ?_, ?_⟩
  · unfold HandleNote
    dsimp only
    split
    · rw [CorrectOctave_command]
      cases st.m_iCommand <;> rfl
    · cases st.m_iCommand <;> rfl
  · rw [RefreshChannel_command_after]
    unfold commandAtSwitch
    cases hc : st.m_iCommand <;> cases hg : st.m_bGate <;>
      (split_ifs <;> simp_all [commandMachine])
  · intro hr
    unfold TriggerNote
    dsimp only
    cases hc : st.m_iCommand <;> simp_all
  · unfold HandleRelease
    cases hb : st.m_bRelease <;> simp
  · unfold UpdateNoteRelease HandleRelease
    by_cases h1 : st.m_iNoteRelease = 1
    · cases hb : st.m_bRelease <;> simp [h1]
    · by_cases h0 : st.m_iNoteRelease > 0
      · have h2 : ¬ (st.m_iNoteRelease - 1 = 0) := by omega
        simp [h0, h1, h2]
      · simp [h0, h1]
  · intro hc
    rw [PlayNote_command_flag, RunNote_command]
    generalize decide (st.m_iPortaSpeed > 0 ∧ st.m_iEffect = effect_t.PORTAMENTO) = p
    revert hc
    cases st.m_iCommand <;> cases p <;> intro hc <;> first | decide | exact absurd rfl hc
  · intro hrel hn
    cases Note with
    | none =>
      have hpath : HandleNoteData_commands e g st RowNote.none HoldInstrument
          = [st.m_iCommand, (HandleNoteData e g st RowNote.none HoldInstrument).2.m_iCommand] :=
        rfl
      have hd : (deliverRowNote e g st RowNote.none).2.m_iCommand = st.m_iCommand := rfl
      rw [hpath, HandleNoteData_command, hd]
      cases st.m_iCommand <;> cases HoldInstrument <;> decide
    | halt =>
      have hpath : HandleNoteData_commands e g st RowNote.halt HoldInstrument
          = [st.m_iCommand, Command.CMD_NOTE_HALT,
             (HandleNoteData e g st RowNote.halt HoldInstrument).2.m_iCommand] := rfl
      have hd : (deliverRowNote e g st RowNote.halt).2.m_iCommand = Command.CMD_NOTE_HALT :=
        rfl
      rw [hpath, HandleNoteData_command, hd]
      cases st.m_iCommand <;> cases HoldInstrument <;> decide
    | release => exact absurd rfl hrel
    | note M => exact hnote M HoldInstrument (hn M rfl)
  · refine ⟨rfl, ?_⟩
    have hd : (deliverRowNote e g st RowNote.release).2.m_iCommand
        = (HandleRelease st).m_iCommand := rfl
    rw [HandleNoteData_command, hd]
    cases (HandleRelease st).m_iCommand <;> cases HoldInstrument <;> decide
  · have hd : (deliverRowNote e g st (RowNote.note N)).2.m_iCommand
        = (PlayNote e g st N).2.m_iCommand := rfl
    rw [HandleNoteData_command, hd, PlayNote_command_flag]
    generalize decide (st.m_iPortaSpeed > 0 ∧ st.m_iEffect = effect_t.PORTAMENTO) = p
    cases st.m_iCommand <;> cases p <;> decide

/-- C23 as stated fails at two inputs. `HandleRelease` on a channel that
`ClearRegisters` has just halted sets the command to Release: Release is
entered from Halt. `TriggerNote` on a released channel sets the command to
On: On is entered from Release. Neither step is in the machine. -/
theorem C23_counterexample :
    exChanReset.m_iCommand = Command.CMD_NOTE_HALT
      ∧ (HandleRelease exChanReset).m_iCommand = Command.CMD_NOTE_RELEASE
      ∧ commandMachine exChanReset.m_iCommand (HandleRelease exChanReset).m_iCommand = false
      ∧ exChanReleased.m_iCommand = Command.CMD_NOTE_RELEASE
      ∧ (TriggerNote exEnv exGlobals exChanReleased 57).2.1.m_iCommand = Command.CMD_NOTE_ON
      ∧ commandMachine exChanReleased.m_iCommand
          (TriggerNote exEnv exGlobals exChanReleased 57).2.1.m_iCommand = false := by
  decide

theorem EndFrame_loop_length (fl : FloatOps) (m_fVolume : ℚ) (raws : List Int) (LastSample : Int) :
    (EndFrame_loop fl m_fVolume LastSample raws).1.length = raws.length := by
  induction raws generalizing LastSample with
  | nil => rfl
  | cons r rest ih =>
    show ((EndFrame_loop fl m_fVolume _ rest).1.length + 1) = rest.length + 1
    rw [ih]

theorem EndFrame_stored_length (fl : FloatOps) (W : Nat) (OPLL_calc : Nat → Int) (L : Int)
    (c : CVRC7Samples) :
    (CVRC7.EndFrame fl W OPLL_calc L c).stored.length = W - c.m_iBufferPtr := by
  show (EndFrame_loop fl c.m_fVolume L ((List.range (W - c.m_iBufferPtr)).map OPLL_calc)).1.length
    = W - c.m_iBufferPtr
  rw [EndFrame_loop_length, List.length_map, List.length_range]

theorem EndFrame_cursor (fl : FloatOps) (W : Nat) (OPLL_calc : Nat → Int) (L : Int)
    (c : CVRC7Samples) :
    (CVRC7.EndFrame fl W OPLL_calc L c).chip.m_iBufferPtr = c.m_iBufferPtr - W := by
  show c.m_iBufferPtr + (W - c.m_iBufferPtr) - W = c.m_iBufferPtr - W
  omega

theorem calls_cursor (fl : FloatOps) (cs : List CVRC7Call) (s : CVRC7Chip)
    (h : s.samples.m_iBufferPtr = 0) : (CVRC7.calls fl s cs).samples.m_iBufferPtr = 0 := by
  induction cs generalizing s with
  | nil => exact h
  | cons c cs ih =>
    show (CVRC7.calls fl (CVRC7.call fl s c) cs).samples.m_iBufferPtr = 0
    apply ih
    cases c with
    | Process Time => exact h
    | Write Address Value => exact h
    | EndFrame W OPLL_calc =>
      show (CVRC7.EndFrame fl W OPLL_calc s.LastSample s.samples).chip.m_iBufferPtr = 0
      rw [EndFrame_cursor, h]
      exact Nat.zero_sub W

/-- C24: with cursor `p` at entry and `W` samples owed, `EndFrame` runs the
synthesis loop `max(W - p, 0)` times, hands `W` samples to the mixer and
leaves the cursor at `max(p - W, 0)` and the elapsed time at 0. After `Reset`
and any sequence of `Process`, `Write` and `EndFrame` calls the cursor is 0,
so that the next `EndFrame` synthesizes exactly `W` samples. `Process` adds
its argument to the elapsed time (an unsigned 32-bit sum) and changes nothing
else. -/
theorem C24_EndFrame_sample_counts (fl : FloatOps) (c : CVRC7Samples) (W : Nat)
    (OPLL_calc : Nat → Int) (L : Int) (port0 : CVRC7) (cs : List CVRC7Call) (Time : Nat) :
    (((CVRC7.EndFrame fl W OPLL_calc L c).stored.length : Nat) : Int)
        = max ((W : Int) - (c.m_iBufferPtr : Int)) 0
      ∧ (CVRC7.EndFrame fl W OPLL_calc L c).mixed.length = W
      ∧ (((CVRC7.EndFrame fl W OPLL_calc L c).chip.m_iBufferPtr : Nat) : Int)
        = max ((c.m_iBufferPtr : Int) - (W : Int)) 0
      ∧ (CVRC7.EndFrame fl W OPLL_calc L c).chip.m_iTime = 0
      ∧ (CVRC7.calls fl ⟨port0, CVRC7.Reset c, L⟩ cs).samples.m_iBufferPtr = 0
      ∧ (CVRC7.EndFrame fl W OPLL_calc (CVRC7.calls fl ⟨port0, CVRC7.Reset c, L⟩ cs).LastSample
          (CVRC7.calls fl ⟨port0, CVRC7.Reset c, L⟩ cs).samples).stored.length = W
      ∧ (CVRC7.Process c Time).m_iTime = (c.m_iTime + Time) % 4294967296
      ∧ (c.m_iTime + Time < 4294967296 → (CVRC7.Process c Time).m_iTime = c.m_iTime + Time)
      ∧ (CVRC7.Process c Time).m_iBufferPtr = c.m_iBufferPtr
      ∧ (CVRC7.Process c Time).m_iBuffer = c.m_iBuffer
      ∧ (CVRC7.Process c Time).m_fVolume = c.m_fVolume := by
  have hcur := calls_cursor fl cs ⟨port0, CVRC7.Reset c, L⟩ rfl
  refine ⟨?_, ?_, ?_, rfl, hcur, ?_, rfl, ?_, rfl, rfl, rfl⟩
  · rw [EndFrame_stored_length]
    omega
  · show ((List.range W).map _).length = W
    rw [List.length_map, List.length_range]
  · rw [EndFrame_cursor]
    omega
  · rw [EndFrame_stored_length, hcur]
    rfl
  · intro h
    show (c.m_iTime + Time) % 4294967296 = c.m_iTime + Time
    exact Nat.mod_eq_of_lt h

theorem UpdateAPU_tracks_cons (cycles : Int) (LastChip : Option sound_chip_t) (t : Track)
    (ts : List Track) :
    UpdateAPU_tracks cycles LastChip (t :: ts)
      = if t.HasChannel then
          if (if t.Chip = LastChip then (150 : Int) else 250) < cycles then
            ((if t.Chip = LastChip then (150 : Int) else 250)
                :: (UpdateAPU_tracks (cycles - (if t.Chip = LastChip then (150 : Int) else 250))
                      t.Chip ts).1,
              (UpdateAPU_tracks (cycles - (if t.Chip = LastChip then (150 : Int) else 250))
                t.Chip ts).2)
          else UpdateAPU_tracks cycles t.Chip ts
        else UpdateAPU_tracks cycles LastChip ts := by
  rw [UpdateAPU_tracks]

theorem UpdateAPU_tracks_spec (tracks : List Track) (cycles : Int)
    (LastChip : Option sound_chip_t) :
    (UpdateAPU_tracks cycles LastChip tracks).1.sum + (UpdateAPU_tracks cycles LastChip tracks).2
        = cycles
      ∧ (1 ≤ cycles → 1 ≤ (UpdateAPU_tracks cycles LastChip tracks).2)
      ∧ (∀ d ∈ (UpdateAPU_tracks cycles LastChip tracks).1, d = 150 ∨ d = 250)
      ∧ (UpdateAPU_tracks cycles LastChip tracks).1.length
          ≤ (tracks.filter (fun t => t.HasChannel)).length := by
  induction tracks generalizing cycles LastChip with
  | nil => simp [UpdateAPU_tracks]
  | cons t ts ih =>
    rw [UpdateAPU_tracks_cons]
    by_cases hh : t.HasChannel = true
    · rw [if_pos hh, List.filter_cons_of_pos (by simpa using hh), List.length_cons]
      have hd12 : (if t.Chip = LastChip then (150 : Int) else 250) = 150
          ∨ (if t.Chip = LastChip then (150 : Int) else 250) = 250 := by
        by_cases hc : t.Chip = LastChip
        · exact Or.inl (if_pos hc)
        · exact Or.inr (if_neg hc)
      generalize (if t.Chip = LastChip then (150 : Int) else 250) = d at hd12 ⊢
      by_cases hlt : d < cycles
      · rw [if_pos hlt]
        obtain ⟨h1, h2, h3, h4⟩ := ih (cycles - d) t.Chip
        refine ⟨?_, fun _ => h2 (by omega), ?_, by simpa using h4⟩
        · simp only [List.sum_cons]
          linarith
        · intro x hx
          rcases List.mem_cons.mp hx with rfl | hx
          · exact hd12
          · exact h3 x hx
      · rw [if_neg hlt]
        obtain ⟨h1, h2, h3, h4⟩ := ih cycles t.Chip
        exact ⟨h1, h2, h3, by omega⟩
    · rw [if_neg hh, List.filter_cons_of_neg (by simpa using hh)]
      exact ih cycles LastChip

theorem presentChips_cons (t : Track) (ts : List Track) :
    presentChips (t :: ts)
      = if t.HasChannel then t.Chip :: presentChips ts else presentChips ts := by
  unfold presentChips
  by_cases hh : t.HasChannel = true
  · rw [if_pos hh, List.filter_cons_of_pos (by simpa using hh), List.map_cons]
  · rw [if_neg hh, List.filter_cons_of_neg (by simpa using hh)]

theorem UpdateAPU_tracks_spend (tracks : List Track) (cycles : Int)
    (LastChip : Option sound_chip_t) :
    (UpdateAPU_tracks cycles LastChip tracks).1 ++ [(UpdateAPU_tracks cycles LastChip tracks).2]
      = spendCycles cycles (trackDelays LastChip (presentChips tracks)) := by
  induction tracks generalizing cycles LastChip with
  | nil => rfl
  | cons t ts ih =>
    rw [UpdateAPU_tracks_cons, presentChips_cons]
    by_cases hh : t.HasChannel = true
    · rw [if_pos hh, if_pos hh]
      show _ = spendCycles cycles
        ((if t.Chip = LastChip then (150 : Int) else 250) :: trackDelays t.Chip (presentChips ts))
      rw [spendCycles]
      by_cases hlt : (if t.Chip = LastChip then (150 : Int) else 250) < cycles
      · rw [if_pos hlt, if_pos hlt, List.cons_append, ih]
      · rw [if_neg hlt, if_neg hlt, ih]
    · rw [if_neg hh, if_neg hh]
      exact ih cycles LastChip

theorem UpdateAPU_example : CSoundGen.UpdateAPU 1000 exTracks = [250, 150, 250, 350] := by
  decide

/-- C25: for every list of tracks and every cycle budget `C`, the arguments
of the calls of `AddTime` during one `UpdateAPU` are those of the rule: going
through the tracks that are in the channel order, a track has the delay 150
if its chip is that of the previous such track and 250 if not (250 for the
first, no chip coming before it); the delay is passed to `AddTime` and taken
off the cycles remaining if it is strictly less than them, and skipped if
not; the remainder is passed last. These arguments sum to `C`. The delays are
150 or 250 each and at most one per track in the channel order, and the
remainder is at least 1 when `C ≥ 1`. Inside the loop, a track in the channel
order is remembered as the previous chip whether its delay was spent or not,
and a track not in the channel order changes nothing. -/
theorem C25_update_cycles_sum (C : Int) (tracks : List Track) :
    CSoundGen.UpdateAPU C tracks = spendCycles C (trackDelays none (presentChips tracks))
      ∧ (CSoundGen.UpdateAPU C tracks).sum = C
      ∧ (∃ delays rest, CSoundGen.UpdateAPU C tracks = delays ++ [rest]
          ∧ (∀ d ∈ delays, d = 150 ∨ d = 250)
          ∧ delays.length ≤ (tracks.filter (fun t => t.HasChannel)).length
          ∧ (1 ≤ C → 1 ≤ rest))
      ∧ (∀ (cycles : Int) (LastChip : Option sound_chip_t) (t : Track) (ts : List Track),
          t.HasChannel = true →
          ((if t.Chip = LastChip then (150 : Int) else 250) < cycles →
              UpdateAPU_tracks cycles LastChip (t :: ts)
                = ((if t.Chip = LastChip then (150 : Int) else 250)
                    :: (UpdateAPU_tracks
                          (cycles - (if t.Chip = LastChip then (150 : Int) else 250))
                          t.Chip ts).1,
                   (UpdateAPU_tracks (cycles - (if t.Chip = LastChip then (150 : Int) else 250))
                      t.Chip ts).2))
            ∧ (¬ ((if t.Chip = LastChip then (150 : Int) else 250) < cycles) →
              UpdateAPU_tracks cycles LastChip (t :: ts) = UpdateAPU_tracks cycles t.Chip ts))
      ∧ (∀ (cycles : Int) (LastChip : Option sound_chip_t) (t : Track) (ts : List Track),
          t.HasChannel = false →
          UpdateAPU_tracks cycles LastChip (t :: ts) = UpdateAPU_tracks cycles LastChip ts)
      ∧ (∀ (t : Track) (ts : List Track), t.HasChannel = true → 250 < C → t.Chip ≠ none →
          ∃ rest, CSoundGen.UpdateAPU C (t :: ts) = 250 :: rest) := by
  obtain ⟨h1, h2, h3, h4⟩ := UpdateAPU_tracks_spec tracks C none
  refine ⟨UpdateAPU_tracks_spend tracks C none, ?_, ⟨_, _, rfl, h3, h4, h2⟩, ?_, ?_, ?_⟩
  · show ((UpdateAPU_tracks C none tracks).1 ++ [(UpdateAPU_tracks C none tracks).2]).sum = C
    rw [List.sum_append, List.sum_singleton]
    exact h1
  · intro cycles LastChip t ts hh
    rw [UpdateAPU_tracks_cons, if_pos hh]
    exact ⟨fun h => if_pos h, fun h => if_neg h⟩
  · intro cycles LastChip t ts hh
    rw [UpdateAPU_tracks_cons, hh]
    rfl
  · intro t ts hh hC hchip
    refine ⟨(UpdateAPU_tracks (C - 250) t.Chip ts).1 ++ [(UpdateAPU_tracks (C - 250) t.Chip ts).2],
      ?_⟩
    show (UpdateAPU_tracks C none (t :: ts)).1 ++ [(UpdateAPU_tracks C none (t :: ts)).2] = _
    rw [UpdateAPU_tracks_cons, if_pos hh, if_neg hchip, if_pos hC]
    rfl

theorem bxor_volume (V : Int) (h0 : 0 ≤ V) (h1 : V ≤ 15) : bxor V 0x0F = 15 - V := by
  interval_cases V <;> decide

theorem patch_volume_byte (D V : Int) (hD0 : 0 ≤ D) (hD : D ≤ 255) (hV0 : 0 ≤ V) (hV : V ≤ 15) :
    u8 (bor (shl D 4) (bxor V 0x0F)) % 16 = (15 - V).toNat
      ∧ u8 (bor (shl D 4) (bxor V 0x0F)) / 16 = D.toNat % 16 := by
  obtain ⟨d, rfl⟩ := Int.eq_ofNat_of_zero_le hD0
  rw [bxor_volume V hV0 hV]
  have hk0 : (0 : Int) ≤ 15 - V := by omega
  obtain ⟨k, hk⟩ := Int.eq_ofNat_of_zero_le hk0
  rw [hk]
  have hd : d ≤ 255 := by exact_mod_cast hD
  have hk16 : k < 16 := by omega
  have hshl : shl ((d : Nat) : Int) 4 = ((2 ^ 4 * d : Nat) : Int) := by
    unfold shl
    push_cast
    ring
  rw [hshl, bor_ofNat _ _ (by omega) (by omega),
    ← Nat.mul_add_lt_is_or (show k < 2 ^ 4 by norm_num; exact hk16) d]
  unfold u8
  simp only [Int.toNat_ofNat]
  have hu : ((((2 ^ 4 * d + k : Nat) : Int) % 256).toNat) = (2 ^ 4 * d + k) % 256 := by
    omega
  rw [hu]
  omega

/-- C26: `CalculateVolume` returns `(m_iVolume >> VOL_COLUMN_SHIFT) - tremolo`
clamped to `0..15`, for every volume and tremolo. The volume nibble
`Volume ^ 0x0F` is `15 - Volume`, in `0..15`. In the byte
`(patch << 4) | (Volume ^ 0x0F)` sent to register `0x30+subindex`, for a
patch byte in `0..255`, the low nibble is the volume nibble and the high
nibble is the low nibble of the patch. A channel that is not suppressed and
whose command at the switch is not Halt sends that byte to `0x30+subindex`. -/
theorem C26_volume_clamped (e : Env) (g : Globals) (st : Chan) (latch : Nat) :
    CalculateVolume e st
        = max 0 (min 15 ((st.m_iVolume >>> e.VOL_COLUMN_SHIFT) - e.GetTremolo))
      ∧ (0 ≤ CalculateVolume e st ∧ CalculateVolume e st ≤ 15)
      ∧ bxor (CalculateVolume e st) 0x0F = 15 - CalculateVolume e st
      ∧ (0 ≤ bxor (CalculateVolume e st) 0x0F ∧ bxor (CalculateVolume e st) 0x0F ≤ 15)
      ∧ (∀ D : Int, 0 ≤ D → D ≤ 255 →
          u8 (bor (shl D 4) (bxor (CalculateVolume e st) 0x0F)) % 16
              = (15 - CalculateVolume e st).toNat
            ∧ u8 (bor (shl D 4) (bxor (CalculateVolume e st) 0x0F)) / 16 = D.toNat % 16)
      ∧ (st.Subindex ≤ 8 → (band g.g_iPercMode 0x20 = 0 ∨ st.Subindex < 6) →
          commandAtSwitch st ≠ Command.CMD_NOTE_HALT →
          (0x30 + st.Subindex,
              u8 (bor (shl (patchInForce st) 4) (bxor (CalculateVolume e st) 0x0F)))
            ∈ received latch (RefreshChannel e g st).writes) := by
  obtain ⟨h0, h1⟩ := CalculateVolume_range e st
  have hx := bxor_volume _ h0 h1
  refine ⟨?_, ⟨h0, h1⟩, hx, ?_, ?_, ?_⟩
  · unfold CalculateVolume
    simp only
    split_ifs <;> omega
  · rw [hx]
    omega
  · intro D hD0 hD
    exact patch_volume_byte D _ hD0 hD h0 h1
  · intro hs hns hc
    rw [RefreshChannel_received e g st latch hs hns, if_pos hc]
    simp

theorem declared_channel_registers (s : Nat) (hs : s ≤ 8) :
    CVRC7.declaredRegister (0x10 + s) = true ∧ CVRC7.declaredRegister (0x20 + s) = true
      ∧ CVRC7.declaredRegister (0x30 + s) = true := by
  interval_cases s <;> decide

theorem declared_percussion (g : Globals) (latch : Nat) :
    ∀ w ∈ received latch (RefreshChannel_percussion g).2, CVRC7.declaredRegister w.1 = true := by
  by_cases hm : band g.g_iPercMode 0x20 = 0
  · rw [received_teardown g latch hm]
    split_ifs
    · unfold teardownSequence
      decide
    · simp
  · rw [received_priming g latch hm]
    unfold primingSequence
    simp only [List.mem_cons, List.mem_singleton, List.not_mem_nil, or_false]
    rintro w (rfl | rfl | rfl | rfl | rfl | rfl | rfl | rfl | rfl | rfl | rfl | rfl | rfl) <;>
      (dsimp only; decide)

theorem received_ClearRegisters (st : Chan) (latch : Nat) (hs : st.Subindex ≤ 8) :
    received latch (ClearRegisters st).2
      = [(0x10 + st.Subindex, 0x00), (0x20 + st.Subindex, 0x00), (0x30 + st.Subindex, 0x0F)] := by
  have h256 : ∀ k, k ≤ 0x30 → (k + st.Subindex) % 256 = k + st.Subindex := by
    intro k hk; exact Nat.mod_eq_of_lt (by omega)
  have h10 := h256 0x10 (by norm_num)
  have h20 := h256 0x20 (by norm_num)
  have h30 := h256 0x30 (by norm_num)
  have hz : u8 0 = 0 := by decide
  have hf : u8 0x0F = 0x0F := by decide
  unfold ClearRegisters
  simp [received_RegWrite_append, received_RegWrite, h10, h20, h30, hz, hf]

/-- C27: for every subindex `0..8` and every channel state, each register
number that `RefreshChannel` writes, the percussion priming and teardown
sequences included, and each register number that `ClearRegisters` writes
lies in a range that the chip declares to its register logger:
`0x00..0x07`, `0x0E`, `0x10..0x18`, `0x20..0x28`, `0x30..0x38`. For a channel
`0..8` the registers `channel | 0x10` and `channel | 0x20` that `GetFreq`
reads lie in those ranges too. -/
theorem C27_registers_in_declared_ranges (e : Env) (g : Globals) (st : Chan) (latch : Nat)
    (Channel : Int) :
    (st.Subindex ≤ 8 →
        (∀ w ∈ received latch (RefreshChannel e g st).writes,
            CVRC7.declaredRegister w.1 = true)
          ∧ (∀ w ∈ received latch (ClearRegisters st).2, CVRC7.declaredRegister w.1 = true))
      ∧ (0 ≤ Channel → Channel ≤ 8 →
          CVRC7.declaredRegister (bor Channel 0x10).toNat = true
            ∧ CVRC7.declaredRegister (bor Channel 0x20).toNat = true) := by
  constructor
  · intro hs
    obtain ⟨d1, d2, d3⟩ := declared_channel_registers st.Subindex hs
    constructor
    · by_cases hsup : band g.g_iPercMode 0x20 ≠ 0 ∧ 6 ≤ st.Subindex
      · rw [RefreshChannel_suppressed e g st hsup.1 hsup.2]
        split_ifs
        · exact declared_percussion g latch
        · simp [received_nil]
      · have hns : band g.g_iPercMode 0x20 = 0 ∨ st.Subindex < 6 := by
          by_cases hm : band g.g_iPercMode 0x20 = 0
          · exact Or.inl hm
          · right
            by_contra h6
            exact hsup ⟨hm, by omega⟩
        rw [RefreshChannel_received e g st latch hs hns]
        intro w hw
        simp only [List.mem_append, List.mem_singleton] at hw
        rcases hw with hw | hw | hw | hw | hw
        · split_ifs at hw
          · exact declared_percussion g latch w hw
          · simp [received_nil] at hw
        · split_ifs at hw
          · rw [List.mem_singleton] at hw
            rw [hw]
            exact d2
          · simp at hw
        · rw [hw]
          exact d1
        · split_ifs at hw
          · rw [List.mem_singleton] at hw
            rw [hw]
            exact d3
          · simp at hw
        · rw [hw]
          exact d2
    · rw [received_ClearRegisters st latch hs]
      intro w hw
      simp only [List.mem_cons, List.mem_singleton, List.not_mem_nil, or_false] at hw
      rcases hw with rfl | rfl | rfl
      · exact d1
      · exact d2
      · exact d3
  · intro h0 h8
    obtain ⟨b1, b2⟩ := bor_channel Channel h0 (by omega)
    obtain ⟨d1, d2, _⟩ := declared_channel_registers Channel.toNat (by omega)
    rw [b1, b2]
    exact ⟨d1, d2⟩

theorem key_byte_fields (b O c : Int) (hb : b = 0 ∨ b = 1) (hO0 : 0 ≤ O) (hO : O ≤ 7)
    (hc : c = 0 ∨ c = 0x10 ∨ c = 0x20 ∨ c = 0x30) :
    u8 (bor (bor b (shl O 1)) c) % 2 = b.toNat ∧ u8 (bor (bor b (shl O 1)) c) / 2 % 8 = O.toNat := by
  rcases hb with rfl | rfl <;> rcases hc with rfl | rfl | rfl | rfl <;> interval_cases O <;>
    decide

theorem fnum_bytes (f : Nat) (hf : f ≤ 511) :
    u8 (band (f : Int) 0xFF) = f % 256 ∧ band ((f : Int) >>> (8 : Nat)) 1 = ((f / 256 : Nat) : Int) := by
  constructor
  · have h255 : (0xFF : Int) = ((255 : Nat) : Int) := rfl
    rw [h255, band_ofNat f 255 (by omega) (by omega)]
    have := Nat.and_pow_two_sub_one_eq_mod f 8
    norm_num at this
    rw [this]
    unfold u8
    omega
  · have hs : (f : Int) >>> (8 : Nat) = ((f / 256 : Nat) : Int) := by
      rw [Int.shiftRight_eq_div_pow]
      norm_num
    have h1 : (1 : Int) = ((1 : Nat) : Int) := rfl
    rw [hs, h1, band_ofNat (f / 256) 1 (by omega) (by omega), Nat.and_one_is_mod]
    congr 1
    omega

/-- C28: register `0x10+c` holds the byte `Fnum & 0xFF` and register `0x20+c`
the byte `((Fnum >> 8) & 1) | (Bnum << 1) | Cmd` that `RefreshChannel` writes,
with `Fnum` in `0..511`, `Bnum` in `0..7`, `Cmd` one of `0x00`, `0x10`,
`0x20`, `0x30` and `c` in `0..8`. Then `GetFreq(c)` decodes that `Fnum` and
that `Bnum` and returns `49716 * Fnum / 2^(19 - Bnum)`. -/
theorem C28_register_roundtrip (GetValue : Nat → Nat) (c Fnum Bnum Cmd : Int)
    (hc0 : 0 ≤ c) (hc : c ≤ 8) (hF0 : 0 ≤ Fnum) (hF : Fnum ≤ 511) (hB0 : 0 ≤ Bnum)
    (hB : Bnum ≤ 7) (hCmd : Cmd = 0 ∨ Cmd = 0x10 ∨ Cmd = 0x20 ∨ Cmd = 0x30)
    (hlo : GetValue (0x10 + c.toNat) = u8 (band Fnum 0xFF))
    (hhi : GetValue (0x20 + c.toNat)
      = u8 (bor (bor (band (Fnum >>> (8 : Nat)) 1) (shl Bnum 1)) Cmd)) :
    CVRC7.GetFreq GetValue c = (49716 : ℚ) * (Fnum : ℚ) / (2 : ℚ) ^ (19 - Bnum.toNat)
      ∧ GetValue (0x10 + c.toNat) % 256 + 256 * (GetValue (0x20 + c.toNat) % 2) = Fnum.toNat
      ∧ GetValue (0x20 + c.toNat) / 2 % 8 = Bnum.toNat := by
  obtain ⟨f, rfl⟩ := Int.eq_ofNat_of_zero_le hF0
  have hf : f ≤ 511 := by exact_mod_cast hF
  obtain ⟨hl, hb⟩ := fnum_bytes f hf
  have hb01 : ((f / 256 : Nat) : Int) = 0 ∨ ((f / 256 : Nat) : Int) = 1 := by
    have : f / 256 = 0 ∨ f / 256 = 1 := by omega
    rcases this with h | h <;> rw [h] <;> simp
  rw [hl] at hlo
  rw [hb] at hhi
  obtain ⟨k1, k2⟩ := key_byte_fields _ Bnum Cmd hb01 hB0 hB hCmd
  rw [← hhi] at k1 k2
  simp only [Int.toNat_ofNat] at k1 ⊢
  have hdec : GetValue (0x10 + c.toNat) % 256 + 256 * (GetValue (0x20 + c.toNat) % 2) = f := by
    rw [hlo, k1]
    omega
  refine ⟨?_, hdec, k2⟩
  rw [GetFreq_in_range GetValue c hc0 (by omega), hdec, k2]
  simp

/-- C28 at a concrete channel: the registers as `RefreshChannel` leaves them
for the channel `exChan` (subindex 2, frequency number 274, octave 4, command
Trigger) are read back by `GetFreq(2)`. -/
theorem C28_register_roundtrip_witness :
    CVRC7.GetFreq exRegisters 2
        = (49716 : ℚ) * ((274 : Int) : ℚ) / (2 : ℚ) ^ (19 - (4 : Int).toNat)
      ∧ exRegisters (0x10 + (2 : Int).toNat) % 256
          + 256 * (exRegisters (0x20 + (2 : Int).toNat) % 2) = (274 : Int).toNat
      ∧ exRegisters (0x20 + (2 : Int).toNat) / 2 % 8 = (4 : Int).toNat :=
  C28_register_roundtrip exRegisters 2 274 4 0x30 (by decide) (by decide) (by decide)
    (by decide) (by decide) (by decide) (by decide) (by decide) (by decide)

theorem CorrectOctave_fixed (st : Chan)
    (h : st.m_bLinearPitch = true ∨ st.m_iOctave = st.m_iOldOctave) : CorrectOctave st = st := by
  rcases h with h | h
  · simp [CorrectOctave, h]
  · unfold CorrectOctave
    by_cases hl : st.m_bLinearPitch = true
    · simp [hl]
    · by_cases ho : st.m_iOldOctave = -1
      · cases st
        simp_all
      · simp [hl, ho, h]

theorem CorrectOctave_octaves (st : Chan) (hl : st.m_bLinearPitch = false) :
    (CorrectOctave st).m_iOctave = (CorrectOctave st).m_iOldOctave := by
  by_cases ho : st.m_iOldOctave = -1
  · simp [CorrectOctave, hl, ho]
  · by_cases hp : st.m_iOctave - st.m_iOldOctave > 0
    · simp [CorrectOctave, hl, ho, hp]
    · by_cases hn : st.m_iOctave - st.m_iOldOctave < 0
      · simp [CorrectOctave, hl, ho, hp, hn]
      · simp only [CorrectOctave, hl, ho, hp, hn, Bool.false_eq_true, if_false]
        omega

theorem CorrectOctave_linear (st : Chan) :
    (CorrectOctave st).m_bLinearPitch = st.m_bLinearPitch := by
  unfold CorrectOctave
  split
  · rfl
  · split
    · rfl
    · dsimp only
      split
      · rfl
      · split <;> rfl

/-- C29: `CorrectOctave` is idempotent: for every channel state, in legacy or
linear pitch mode, applying it twice gives the state that applying it once
gives; and after one application in legacy mode the current octave equals
the previous octave. -/
theorem C29_CorrectOctave_idempotent (st : Chan) :
    CorrectOctave (CorrectOctave st) = CorrectOctave st
      ∧ (st.m_bLinearPitch = false →
          (CorrectOctave st).m_iOctave = (CorrectOctave st).m_iOldOctave) := by
  refine ⟨?_, CorrectOctave_octaves st⟩
  apply CorrectOctave_fixed
  cases hl : st.m_bLinearPitch
  · right
    exact CorrectOctave_octaves st hl
  · left
    rw [CorrectOctave_linear, hl]

theorem bits32_bor (x y : Int) : bits32 (bor x y) = bits32 x ||| bits32 y := by
  unfold bor
  rw [bits32_ofBits32]
  have h : bits32 x ||| bits32 y < 2 ^ 32 :=
    Nat.or_lt_two_pow (by have := bits32_lt x; norm_num; exact this)
      (by have := bits32_lt y; norm_num; exact this)
  exact Nat.mod_eq_of_lt (by norm_num at h; exact h)

theorem band_bor_distrib (x y c : Int) : band (bor x y) c = bor (band x c) (band y c) := by
  show ofBits32 (bits32 (bor x y) &&& bits32 c)
    = ofBits32 (bits32 (band x c) ||| bits32 (band y c))
  rw [bits32_bor, band_bits, band_bits, Nat.and_distrib_right]

theorem band_band (x a b : Int) : band (band x a) b = band x (band a b) := by
  show ofBits32 (bits32 (band x a) &&& bits32 b) = ofBits32 (bits32 x &&& bits32 (band a b))
  rw [band_bits, band_bits, Nat.land_assoc]

theorem band_zero (x : Int) : band x 0 = 0 := by
  show ofBits32 (bits32 x &&& bits32 0) = 0
  have h : bits32 0 = 0 := by decide
  rw [h, Nat.and_zero]
  decide

theorem bor_band_zero (x c : Int) : bor (band x c) 0 = band x c := by
  show ofBits32 (bits32 (band x c) ||| bits32 0) = ofBits32 (bits32 x &&& bits32 c)
  have h : bits32 0 = 0 := by decide
  rw [h, Nat.or_zero, band_bits]

theorem low_nibble_store (x v : Int) (h0 : 0 ≤ v) (h1 : v ≤ 15) :
    band (bor (band x 0xf0) v) 0x0f = v
      ∧ band (bor (band x 0xf0) v) 0xf0 = band x 0xf0 := by
  have e1 : band 0xf0 0x0f = 0 := by decide
  have e2 : band 0xf0 0xf0 = 0xf0 := by decide
  have e3 : band v 0x0f = v := by interval_cases v <;> decide
  have e4 : band v 0xf0 = 0 := by interval_cases v <;> decide
  have e5 : bor 0 v = v := by interval_cases v <;> decide
  constructor
  · rw [band_bor_distrib, band_band, e1, band_zero, e3, e5]
  · rw [band_bor_distrib, band_band, e2, e4, bor_band_zero]

theorem high_nibble_store (x v : Int) (h0 : 0 ≤ v) (h1 : v ≤ 15) :
    band (bor (band x 0x0f) (shl v 4)) 0xf0 = shl v 4
      ∧ band (bor (band x 0x0f) (shl v 4)) 0x0f = band x 0x0f := by
  have e1 : band 0x0f 0xf0 = 0 := by decide
  have e2 : band 0x0f 0x0f = 0x0f := by decide
  have e3 : band (shl v 4) 0xf0 = shl v 4 := by interval_cases v <;> decide
  have e4 : band (shl v 4) 0x0f = 0 := by interval_cases v <;> decide
  have e5 : bor 0 (shl v 4) = shl v 4 := by interval_cases v <;> decide
  constructor
  · rw [band_bor_distrib, band_band, e1, band_zero, e3, e5]
  · rw [band_bor_distrib, band_band, e2, e4, bor_band_zero]

theorem drum_bit_keeps_mode (m : Int) (d : Drum) :
    band (bor m (drumKeyBit d)) 0x20 = band m 0x20 := by
  have e : band (drumKeyBit d) 0x20 = 0 := by cases d <;> decide
  rw [band_bor_distrib, e, bor_band_zero]

theorem TriggerNote_globals (e : Env) (g : Globals) (st : Chan) (N : Int) :
    (TriggerNote e g st N).1
      = if band g.g_iPercMode 0x20 ≠ 0 ∧ 6 ≤ st.Subindex then TriggerNote_drums e g st N
        else g := by
  unfold TriggerNote
  dsimp only
  by_cases hm : band g.g_iPercMode 0x20 = 0
  · simp [hm]
  · by_cases h6 : 6 ≤ st.Subindex
    · have h6' : st.Subindex ≥ 6 := h6
      simp only [hm, h6, ne_eq, not_false_eq_true, and_self, if_true]
      split <;> simp only [h6', if_true] <;> rfl
    · have h6' : ¬ st.Subindex ≥ 6 := h6
      simp only [hm, h6, ne_eq, not_false_eq_true, and_false, if_false, if_true]
      split <;> simp only [h6', if_false]

theorem TriggerNote_drums_spec (e : Env) (g : Globals) (st : Chan) (N : Int) (hN : 0 ≤ N) :
    TriggerNote_drums e g st N
      = match drumOfNote N with
        | Drum.BD =>
          { g with g_iPercMode := bor g.g_iPercMode 0x10,
                   g_iPercVolumeBD := 15 - CalculateVolume e st }
        | Drum.SD =>
          { g with g_iPercMode := bor g.g_iPercMode 0x08,
                   g_iPercVolumeSDHH :=
                     bor (band g.g_iPercVolumeSDHH 0xf0) (15 - CalculateVolume e st) }
        | Drum.TOM =>
          { g with g_iPercMode := bor g.g_iPercMode 0x04,
                   g_iPercVolumeTOMCY :=
                     bor (band g.g_iPercVolumeTOMCY 0x0f) (shl (15 - CalculateVolume e st) 4) }
        | Drum.CY =>
          { g with g_iPercMode := bor g.g_iPercMode 0x02,
                   g_iPercVolumeTOMCY :=
                     bor (band g.g_iPercVolumeTOMCY 0xf0) (15 - CalculateVolume e st) }
        | Drum.HH =>
          { g with g_iPercMode := bor g.g_iPercMode 0x01,
                   g_iPercVolumeSDHH :=
                     bor (band g.g_iPercVolumeSDHH 0x0f) (shl (15 - CalculateVolume e st) 4) } := by
  have h0 : 0 ≤ N % 12 := Int.emod_nonneg N (by norm_num)
  have h12 : N % 12 < 12 := Int.emod_lt_of_pos N (by norm_num)
  unfold TriggerNote_drums drumOfNote
  rw [tmod_eq_emod_of_nonneg N 12 hN]
  generalize N % 12 = k at h0 h12 ⊢
  interval_cases k <;> simp

theorem drumOfNote_HH (N : Int) : drumOfNote N = Drum.HH ↔ (N % 12 = 6 ∨ N % 12 = 8) := by
  have h0 : 0 ≤ N % 12 := Int.emod_nonneg N (by norm_num)
  have h12 : N % 12 < 12 := Int.emod_lt_of_pos N (by norm_num)
  unfold drumOfNote
  generalize N % 12 = k at h0 h12 ⊢
  interval_cases k <;> simp

/-- C30: a note `N ≥ 0` is triggered on a channel of subindex at least 6
while percussion mode bit `0x20` is set. `TriggerNote` sets the key bit of
the drum chosen by `N mod 12` (0, 1 bass drum `0x10`; 2, 3, 4 snare `0x08`;
5, 7, 9, 11 tom `0x04`; 10 cymbal `0x02`; 6, 8 hi-hat `0x01`) and no other
bit of the mode byte, bit `0x20` included. It stores `15 - CalculateVolume()`,
a value in `0..15`, in the volume field of that drum: the whole bass drum
register, the low nibble of the snare and hi-hat register for the snare and
its high nibble for the hi-hat, the high nibble of the tom and cymbal
register for the tom and its low nibble for the cymbal; the other nibble of
that register and the other volume registers keep their values. With the
mode bit clear or a subindex below 6, `TriggerNote` changes none of the
percussion variables. -/
theorem C30_percussion_trigger (e : Env) (g : Globals) (st : Chan) (N : Int) (hN : 0 ≤ N) :
    (band g.g_iPercMode 0x20 ≠ 0 → 6 ≤ st.Subindex →
        (TriggerNote e g st N).1.g_iPercMode = bor g.g_iPercMode (drumKeyBit (drumOfNote N))
          ∧ band (TriggerNote e g st N).1.g_iPercMode 0x20 = band g.g_iPercMode 0x20
          ∧ (TriggerNote e g st N).1.g_iPercModePrev = g.g_iPercModePrev
          ∧ (0 ≤ 15 - CalculateVolume e st ∧ 15 - CalculateVolume e st ≤ 15)
          ∧ (drumOfNote N = Drum.BD →
              (TriggerNote e g st N).1.g_iPercVolumeBD = 15 - CalculateVolume e st
                ∧ (TriggerNote e g st N).1.g_iPercVolumeSDHH = g.g_iPercVolumeSDHH
                ∧ (TriggerNote e g st N).1.g_iPercVolumeTOMCY = g.g_iPercVolumeTOMCY)
          ∧ (drumOfNote N = Drum.SD →
              band (TriggerNote e g st N).1.g_iPercVolumeSDHH 0x0f = 15 - CalculateVolume e st
                ∧ band (TriggerNote e g st N).1.g_iPercVolumeSDHH 0xf0
                    = band g.g_iPercVolumeSDHH 0xf0
                ∧ (TriggerNote e g st N).1.g_iPercVolumeBD = g.g_iPercVolumeBD
                ∧ (TriggerNote e g st N).1.g_iPercVolumeTOMCY = g.g_iPercVolumeTOMCY)
          ∧ (drumOfNote N = Drum.HH →
              band (TriggerNote e g st N).1.g_iPercVolumeSDHH 0xf0
                    = shl (15 - CalculateVolume e st) 4
                ∧ band (TriggerNote e g st N).1.g_iPercVolumeSDHH 0x0f
                    = band g.g_iPercVolumeSDHH 0x0f
                ∧ (TriggerNote e g st N).1.g_iPercVolumeBD = g.g_iPercVolumeBD
                ∧ (TriggerNote e g st N).1.g_iPercVolumeTOMCY = g.g_iPercVolumeTOMCY)
          ∧ (drumOfNote N = Drum.TOM →
              band (TriggerNote e g st N).1.g_iPercVolumeTOMCY 0xf0
                    = shl (15 - CalculateVolume e st) 4
                ∧ band (TriggerNote e g st N).1.g_iPercVolumeTOMCY 0x0f
                    = band g.g_iPercVolumeTOMCY 0x0f
                ∧ (TriggerNote e g st N).1.g_iPercVolumeBD = g.g_iPercVolumeBD
                ∧ (TriggerNote e g st N).1.g_iPercVolumeSDHH = g.g_iPercVolumeSDHH)
          ∧ (drumOfNote N = Drum.CY →
              band (TriggerNote e g st N).1.g_iPercVolumeTOMCY 0x0f = 15 - CalculateVolume e st
                ∧ band (TriggerNote e g st N).1.g_iPercVolumeTOMCY 0xf0
                    = band g.g_iPercVolumeTOMCY 0xf0
                ∧ (TriggerNote e g st N).1.g_iPercVolumeBD = g.g_iPercVolumeBD
                ∧ (TriggerNote e g st N).1.g_iPercVolumeSDHH = g.g_iPercVolumeSDHH))
      ∧ ((band g.g_iPercMode 0x20 = 0 ∨ st.Subindex < 6) → (TriggerNote e g st N).1 = g)
      ∧ (drumOfNote N = Drum.HH ↔ (N % 12 = 6 ∨ N % 12 = 8)) := by
  obtain ⟨hv0, hv1⟩ := CalculateVolume_range e st
  have hw0 : 0 ≤ 15 - CalculateVolume e st := by omega
  have hw1 : 15 - CalculateVolume e st ≤ 15 := by omega
  refine ⟨?_, ?_, drumOfNote_HH N⟩
  · intro hm h6
    have hg : (TriggerNote e g st N).1 = TriggerNote_drums e g st N := by
      rw [TriggerNote_globals, if_pos ⟨hm, h6⟩]
    rw [hg, TriggerNote_drums_spec e g st N hN]
    have hmode : ∀ d, band (bor g.g_iPercMode (drumKeyBit d)) 0x20 = band g.g_iPercMode 0x20 :=
      drum_bit_keeps_mode g.g_iPercMode
    obtain ⟨l1, l2⟩ := low_nibble_store g.g_iPercVolumeSDHH _ hw0 hw1
    obtain ⟨l3, l4⟩ := high_nibble_store g.g_iPercVolumeSDHH _ hw0 hw1
    obtain ⟨l5, l6⟩ := low_nibble_store g.g_iPercVolumeTOMCY _ hw0 hw1
    obtain ⟨l7, l8⟩ := high_nibble_store g.g_iPercVolumeTOMCY _ hw0 hw1
    cases hd : drumOfNote N
    · exact ⟨rfl, hmode Drum.BD, rfl, ⟨hw0, hw1⟩, fun _ => ⟨rfl, rfl, rfl⟩,
        (fun h => nomatch h), (fun h => nomatch h), (fun h => nomatch h), (fun h => nomatch h)⟩
    · exact ⟨rfl, hmode Drum.SD, rfl, ⟨hw0, hw1⟩, (fun h => nomatch h),
        fun _ => ⟨l1, l2, rfl, rfl⟩, (fun h => nomatch h), (fun h => nomatch h),
        (fun h => nomatch h)⟩
    · exact ⟨rfl, hmode Drum.TOM, rfl, ⟨hw0, hw1⟩, (fun h => nomatch h), (fun h => nomatch h),
        (fun h => nomatch h), fun _ => ⟨l7, l8, rfl, rfl⟩, (fun h => nomatch h)⟩
    · exact ⟨rfl, hmode Drum.CY, rfl, ⟨hw0, hw1⟩, (fun h => nomatch h), (fun h => nomatch h),
        (fun h => nomatch h), (fun h => nomatch h), fun _ => ⟨l5, l6, rfl, rfl⟩⟩
    · exact ⟨rfl, hmode Drum.HH, rfl, ⟨hw0, hw1⟩, (fun h => nomatch h), (fun h => nomatch h),
        fun _ => ⟨l3, l4, rfl, rfl⟩, (fun h => nomatch h), (fun h => nomatch h)⟩
  · intro h
    rw [TriggerNote_globals, if_neg]
    rintro ⟨hm, h6⟩
    rcases h with h | h
    · exact hm h
    · omega

/-- C30 at a concrete note: note 38 (`38 mod 12 = 2`, the snare) on the
channel of subindex 6 at full volume, percussion mode on. -/
theorem C30_percussion_trigger_witness :
    (0 : Int) ≤ 38
      ∧ (TriggerNote exEnv exGlobalsPerc exChan6 38).1.g_iPercMode = 0x28
      ∧ band (TriggerNote exEnv exGlobalsPerc exChan6 38).1.g_iPercVolumeSDHH 0x0f = 0
      ∧ (TriggerNote exEnv exGlobals exChan6 38).1 = exGlobals := by
  have h := C30_percussion_trigger exEnv exGlobalsPerc exChan6 38 (by decide)
  have h' := C30_percussion_trigger exEnv exGlobals exChan6 38 (by decide)
  obtain ⟨h1, -, -, -, -, h2, -⟩ := h.1 (by decide) (by decide)
  refine ⟨by decide, ?_, ?_, h'.2.1 (Or.inl (by decide))⟩
  · rw [h1]
    decide
  · rw [(h2 (by decide)).1]
    decide
